import Mathlib

/-! # btcpool: Stratum message dispatcher (agent multiplexing layer)

Shallow embedding of `src/StratumMessageDispatcher.cc` and of
`src/eth/StratumSessionEth.cc`.

* A `std::string` is a list of bytes (`Bytes`); every byte that the dispatcher
  reads or stores is reduced modulo 256, a 16-bit field modulo 65536.
* A `std::map` is an association list kept in ascending key order
  (`mapEmplace`, `mapErase`, `mapFind`, `mapPushBack`); iteration over the
  map is iteration over the list.
* The constants of `StratumMessageEx` / `StratumCommandEx` and the helpers
  `filterWorkerName`, `StratumWorker::calcWorkerId`, `DEFAULT_WORKER_NAME`
  and the C library `log2` are declared in headers that are not part of the
  sources at hand; they are parameters (`ExConsts`, `Helpers`).
* `IStratumSession` and `StratumMiner` are collaborators: the miner type and
  the methods called on both are parameters (`Collab`), the calls made on the
  session are recorded in a log (`SessionCall`).
* A frame shorter than the header, or one whose length field is not its size
  (the `assert` of `handleExMessage`), has no result (`none`).
* In the Ethereum session `Strings::Format` is `printf`: `%s` writes the C
  string of its argument, `%lu` and `%06x` are `fmtLu` and `fmt06x`; the
  conversion `%lf` and the difficulty and target conversions are parameters
  (`EthHelpers`). A `JsonNode` is the record of what the session reads off it.
  What the session hands to its transport is recorded in `out`. A call that an
  exception leaves has no result (`none`).
-/

namespace BtcPool

/-- A `std::string`, as the list of its bytes. -/
abbrev Bytes := List Nat

/-! ## Constants taken from headers outside the sources -/

/-- The constants of `StratumMessageEx` and `StratumCommandEx` the dispatcher
uses, under their source names. Their values are not in the sources and are
parameters of every definition below. -/
structure ExConsts where
  CMD_MAGIC_NUMBER : Nat
  AGENT_MAX_SESSION_ID : Nat
  CMD_REGISTER_WORKER : Nat
  CMD_UNREGISTER_WORKER : Nat
  CMD_SUBMIT_SHARE : Nat
  CMD_SUBMIT_SHARE_WITH_TIME : Nat
  MINING_SET_DIFF : Nat
deriving Repr, DecidableEq

/-! ## Little-endian buffers (`boost::endian::little_uintN_buf_t`) -/

/-- Storing a value in a `little_uint16_buf_t`: the value is truncated to 16
bits, low byte first. -/
def le16 (n : Nat) : Bytes := [n % 256, n / 256 % 256]

/-- Reading a `little_uint16_buf_t` whose two bytes are `lo` and `hi`. -/
def le16Value (lo hi : Nat) : Nat := lo % 256 + 256 * (hi % 256)

/-- Writes through a pointer into a buffer that was `resize`d beforehand:
`bytes` replace the buffer from its front. A write past the end of the buffer
is undefined in C++; here it is dropped, so the result always has the size of
the buffer. -/
def overlay (buf bytes : Bytes) : Bytes :=
  bytes.take buf.length ++ buf.drop bytes.length

/-! ## `getSetDiffCommand` -/

/-- The constant `kMaxCount` of `getSetDiffCommand`. -/
def kMaxCount : Nat := 32764

/-- One pass of the `while` loop of `getSetDiffCommand`: the string `buf`
appended to `exMessage` for key `diffExp` when `ids` is the part of the vector
from `iter` to `iend`. -/
def setDiffBuf (c : ExConsts) (diffExp : Nat) (ids : List Nat) : Bytes :=
  -- size_t count = distance(iter, iend); if (count > kMaxCount) count = kMaxCount;
  let count := if ids.length > kMaxCount then kMaxCount else ids.length
  -- uint16_t len = 1 + 1 + 2 + 1 + 2 + count * 2;
  let len := (1 + 1 + 2 + 1 + 2 + count * 2) % 65536
  -- buf.resize(len);
  let buf : Bytes := List.replicate len 0
  overlay buf
    ([c.CMD_MAGIC_NUMBER % 256, c.MINING_SET_DIFF % 256] ++ le16 len
      ++ [diffExp % 256] ++ le16 count
      ++ (ids.take count).flatMap (fun id => le16 id))

/-- The `while (iter != iend)` loop of `getSetDiffCommand` for one map entry:
the list of the strings appended to `exMessage`, in order. Each pass advances
`iter` by `count >= 1`, so `fuel = ids.length` passes are always enough. -/
def setDiffLoop (c : ExConsts) (diffExp : Nat) : Nat → List Nat → List Bytes
  | 0, _ => []
  | _ + 1, [] => []
  | fuel + 1, id :: ids =>
    let count := if (id :: ids).length > kMaxCount then kMaxCount else (id :: ids).length
    setDiffBuf c diffExp (id :: ids) :: setDiffLoop c diffExp fuel ((id :: ids).drop count)

/-- The strings appended to `exMessage` by `getSetDiffCommand`, in order: the
outer `for` over the map entries, the inner `while` over each vector. -/
def setDiffFrames (c : ExConsts) (diffSessionIds : List (Nat × List Nat)) : List Bytes :=
  diffSessionIds.flatMap (fun p => setDiffLoop c p.1 p.2.length p.2)

/-- `StratumMessageAgentDispatcher::getSetDiffCommand`: the final value of
`exMessage` (cleared first, then every `buf` appended). -/
def getSetDiffCommand (c : ExConsts) (diffSessionIds : List (Nat × List Nat)) : Bytes :=
  (setDiffFrames c diffSessionIds).flatten

/-- An argument of type `std::map<uint8_t, std::vector<uint16_t>>`: keys in
strictly ascending order, keys below 2^8, ids below 2^16. -/
def IsDiffMap (m : List (Nat × List Nat)) : Prop :=
  m.Pairwise (fun p q => p.1 < q.1) ∧ ∀ p ∈ m, p.1 < 256 ∧ ∀ id ∈ p.2, id < 65536

/-- The vector stored under key `e`, empty when the key is absent. -/
def idsAt (m : List (Nat × List Nat)) (e : Nat) : List Nat :=
  match m.find? (fun p => p.1 == e) with
  | some p => p.2
  | none => []

/-! ## A reader of SET_DIFF frames (the agent side of the wire format) -/

/-- Reads `count` little-endian 16-bit values from the front of `bytes`. -/
def readIds : Nat → Bytes → List Nat
  | count + 1, lo :: hi :: rest => le16Value lo hi :: readIds count rest
  | _, _ => []

/-- Parses a byte string as a sequence of SET_DIFF frames
`magic | command | length (2, LE) | diffExp | count (2, LE) | count ids (2, LE each)`
and returns, frame by frame, the exponent and the ids. `none` when the bytes are
not such a sequence (wrong magic or command, a length field that is not the
frame size, a truncated frame). One unit of fuel is used per frame. -/
def parseSetDiffAux (c : ExConsts) : Nat → Bytes → Option (List (Nat × List Nat))
  | _, [] => some []
  | fuel + 1, magic :: cmd :: l0 :: l1 :: e :: c0 :: c1 :: rest =>
    let count := le16Value c0 c1
    if magic = c.CMD_MAGIC_NUMBER % 256 ∧ cmd = c.MINING_SET_DIFF % 256
        ∧ le16Value l0 l1 = 7 + 2 * count ∧ 2 * count ≤ rest.length then
      (parseSetDiffAux c fuel (rest.drop (2 * count))).map
        (fun fs => (e, readIds count rest) :: fs)
    else none
  | _, _ => none

/-- The frame parser with enough fuel for any input: every frame has at least
seven bytes. -/
def parseSetDiff (c : ExConsts) (bytes : Bytes) : Option (List (Nat × List Nat)) :=
  parseSetDiffAux c bytes.length bytes

/-- The ids listed under exponent `e` by a sequence of parsed frames, frame
after frame. -/
def idsUnder (frames : List (Nat × List Nat)) (e : Nat) : List Nat :=
  (frames.filter (fun f => f.1 == e)).flatMap (fun f => f.2)

/-- The id counts of the frames that carry exponent `e`, in order. -/
def countsUnder (frames : List (Nat × List Nat)) (e : Nat) : List Nat :=
  (frames.filter (fun f => f.1 == e)).map (fun f => f.2.length)

/-! ## Proof-side description of the frames -/

/-- The pieces into which the `while` loop cuts a vector: `kMaxCount` ids at a
time. Used to describe `setDiffLoop`; `splitIds_spec` relates the two. -/
def splitIds : Nat → List Nat → List (List Nat)
  | 0, _ => []
  | _ + 1, [] => []
  | fuel + 1, id :: ids =>
    (id :: ids).take kMaxCount :: splitIds fuel ((id :: ids).drop kMaxCount)

/-- The bytes of a frame that lists `chunk` under `diffExp`, written out field
by field. -/
def frameOf (c : ExConsts) (diffExp : Nat) (chunk : List Nat) : Bytes :=
  [c.CMD_MAGIC_NUMBER % 256, c.MINING_SET_DIFF % 256] ++ le16 (7 + 2 * chunk.length)
    ++ [diffExp % 256] ++ le16 chunk.length ++ chunk.flatMap (fun id => le16 id)

/-- The (exponent, ids) pairs of the frames of a map, in emission order. -/
def chunksOf (m : List (Nat × List Nat)) : List (Nat × List Nat) :=
  m.flatMap (fun p => (splitIds p.2.length p.2).map (fun ch => (p.1, ch)))

/-- A pair (exponent, ids) that fits one frame: the exponent is a byte, the
ids are 16-bit values, and there are at most `kMaxCount` of them. -/
def GoodChunk (f : Nat × List Nat) : Prop :=
  f.1 < 256 ∧ f.2.length ≤ kMaxCount ∧ ∀ id ∈ f.2, id < 65536

/-! ## `std::map` -/

/-- `std::map::find`: the value stored under key `k`, if any. -/
def mapFind {α : Type} (m : List (Nat × α)) (k : Nat) : Option α :=
  (m.find? (fun p => p.1 == k)).map (fun p => p.2)

/-- `std::map::emplace (k, v)`: inserts at the place the key order gives; when
the key is already present the map is left as it is and `v` is dropped. -/
def mapEmplace {α : Type} (k : Nat) (v : α) : List (Nat × α) → List (Nat × α)
  | [] => [(k, v)]
  | (k0, v0) :: rest =>
    if k < k0 then (k, v) :: (k0, v0) :: rest
    else if k = k0 then (k0, v0) :: rest
    else (k0, v0) :: mapEmplace k v rest

/-- `std::map::erase (k)`: removes the entry of key `k`, if any. -/
def mapErase {α : Type} (k : Nat) (m : List (Nat × α)) : List (Nat × α) :=
  m.filter (fun p => p.1 != k)

/-- A call of a method on the value found under key `k` (`iter->second->f ()`):
the value is replaced by its state after the call. -/
def mapUpdate {α : Type} (k : Nat) (f : α → α) : List (Nat × α) → List (Nat × α)
  | [] => []
  | p :: rest => if p.1 = k then (p.1, f p.2) :: rest else p :: mapUpdate k f rest

/-- The statement `newDiffs[k].push_back (id)` on a
`std::map<uint8_t, std::vector<uint16_t>>`: `operator[]` creates an empty
vector under a new key. -/
def mapPushBack (k id : Nat) : List (Nat × List Nat) → List (Nat × List Nat)
  | [] => [(k, [id])]
  | (k0, ids) :: rest =>
    if k < k0 then (k, [id]) :: (k0, ids) :: rest
    else if k = k0 then (k0, ids ++ [id]) :: rest
    else (k0, ids) :: mapPushBack k id rest

/-- A value of `miners_`, a `std::map<uint16_t, ...>`: keys in strictly
ascending order and below 2^16. -/
def IsMinerTable {α : Type} (m : List (Nat × α)) : Prop :=
  m.Pairwise (fun p q => p.1 < q.1) ∧ ∀ p ∈ m, p.1 < 65536

instance {α : Type} (m : List (Nat × α)) : Decidable (IsMinerTable m) := by
  unfold IsMinerTable; infer_instance

/-! ## Collaborators -/

/-- Helpers declared outside the sources at hand, under their source names.
`log2` stands for the C library function as `addLocalJob` uses it: the value
of `log2 (x)` for a `uint64_t` difficulty `x`, as the `uint8_t` in which the
code stores it. -/
structure Helpers where
  filterWorkerName : Bytes → Bytes
  calcWorkerId : Bytes → Int
  DEFAULT_WORKER_NAME : Bytes
  log2 : Nat → Nat

/-- The methods of `IStratumSession` and of `StratumMiner` that the agent
dispatcher calls. `M` is the state of a miner, `Job` that of a `LocalJob`
(passed by reference, so a miner may change it). -/
structure Collab (M Job : Type) where
  /-- The factory `IStratumSession::createMiner`. -/
  createMiner : Bytes → Bytes → Int → M
  /-- The query `IStratumSession::decodeSessionId`. -/
  decodeSessionId : Bytes → Nat
  /-- The query `StratumMiner::getCurDiff`. -/
  getCurDiff : M → Nat
  /-- The method `StratumMiner::addLocalJob`: the miner afterwards, the job
  afterwards, the difficulty returned. -/
  minerAddLocalJob : M → Job → M × Job × Nat
  /-- The method `StratumMiner::setMinDiff`. -/
  minerSetMinDiff : M → Nat → M
  /-- The method `StratumMiner::resetCurDiff`. -/
  minerResetCurDiff : M → Nat → M
  /-- The method `StratumMiner::removeLocalJob`: the miner and the job
  afterwards. -/
  minerRemoveLocalJob : M → Job → M × Job
  /-- The method `StratumMiner::handleExMessage`. -/
  minerHandleExMessage : M → Bytes → M

/-- A call made by the dispatcher on its session, with the arguments. -/
inductive SessionCall where
  | createMiner (clientAgent workerName : Bytes) (workerId : Int)
  | addWorker (clientAgent workerName : Bytes) (workerId : Int)
  | decodeSessionId (exMessage : Bytes)
  | sendData (data : Bytes)
deriving Repr, DecidableEq

/-- The state of a `StratumMessageAgentDispatcher`: the member `miners_`, and
the calls made so far on the member `session_`, oldest first. -/
structure StratumMessageAgentDispatcher (M : Type) where
  miners_ : List (Nat × M)
  calls : List SessionCall
deriving Repr, DecidableEq

/-- The dispatcher as its constructor leaves it. -/
def StratumMessageAgentDispatcher.init (M : Type) : StratumMessageAgentDispatcher M := ⟨[], []⟩

/-! ## `StratumMessageAgentDispatcher` -/

section Agent

variable {M Job : Type}

/-- `StratumMessageAgentDispatcher::registerWorker`. The `uint32_t` argument
becomes a `uint16_t` key. The miner is created before `emplace` runs. -/
def registerWorker (env : Collab M Job) (d : StratumMessageAgentDispatcher M) (sessionId : Nat)
    (clientAgent workerName : Bytes) (workerId : Int) : StratumMessageAgentDispatcher M :=
  let miner := env.createMiner clientAgent workerName workerId
  { miners_ := mapEmplace (sessionId % 65536) miner d.miners_
    calls := d.calls ++ [SessionCall.createMiner clientAgent workerName workerId,
      SessionCall.addWorker clientAgent workerName workerId] }

/-- `StratumMessageAgentDispatcher::unregisterWorker`. -/
def unregisterWorker (d : StratumMessageAgentDispatcher M) (sessionId : Nat) : StratumMessageAgentDispatcher M :=
  { d with miners_ := mapErase (sessionId % 65536) d.miners_ }

/-- The field `sessionId` of the overlay `StratumMessageExSessionSpecific`:
bytes 4 and 5, little-endian. -/
def sessionIdField (exMessage : Bytes) : Nat :=
  le16Value (exMessage.getD 4 0) (exMessage.getD 5 0)

/-- The C string that starts at a pointer into `bytes`: the bytes before the
first NUL. -/
def cstr (bytes : Bytes) : Bytes :=
  bytes.takeWhile (fun b => b % 256 != 0)

/-- The string `clientStr` of `handleExMessage_RegisterWorker`: the frame from
byte 6 on, its last byte overwritten with NUL. -/
def clientStrOf (exMessage : Bytes) : Bytes :=
  let clientStr := exMessage.drop 6
  clientStr.set (clientStr.length - 1) 0

/-- The value of `clientAgent` in `handleExMessage_RegisterWorker`. -/
def clientAgentOf (h : Helpers) (exMessage : Bytes) : Bytes :=
  h.filterWorkerName (cstr (clientStrOf exMessage))

/-- The value of `workerName` in `handleExMessage_RegisterWorker` when
`calcWorkerId` is called. -/
def workerNameOf (h : Helpers) (exMessage : Bytes) : Bytes :=
  let clientStr := clientStrOf exMessage
  let clientAgentPtr := cstr clientStr
  -- if (strlen(clientAgentPtr) < clientStr.size() - 2)
  let workerName :=
    if clientAgentPtr.length < clientStr.length - 2 then
      h.filterWorkerName (cstr (clientStr.drop (clientAgentPtr.length + 1)))
    else []
  if workerName = [] then h.DEFAULT_WORKER_NAME else workerName

/-- `StratumMessageAgentDispatcher::handleExMessage_RegisterWorker`. -/
def handleExMessage_RegisterWorker (c : ExConsts) (h : Helpers) (env : Collab M Job)
    (d : StratumMessageAgentDispatcher M) (exMessage : Bytes) : StratumMessageAgentDispatcher M :=
  if exMessage.length < 8 ∨ exMessage.length > 100 then d
  else
    let sessionId := sessionIdField exMessage
    if sessionId > c.AGENT_MAX_SESSION_ID then d
    else
      let clientAgent := clientAgentOf h exMessage
      let workerName := workerNameOf h exMessage
      let workerId := h.calcWorkerId workerName
      registerWorker env d sessionId clientAgent workerName workerId

/-- `StratumMessageAgentDispatcher::handleExMessage_UnregisterWorker`. -/
def handleExMessage_UnregisterWorker (d : StratumMessageAgentDispatcher M) (exMessage : Bytes) :
    StratumMessageAgentDispatcher M :=
  if exMessage.length ≠ 6 then d
  else unregisterWorker d (sessionIdField exMessage)

/-- `StratumMessageAgentDispatcher::handleExMessage_SessionSpecific`. The
value returned by `decodeSessionId` becomes a `uint16_t` key in `find`. -/
def handleExMessage_SessionSpecific (env : Collab M Job) (d : StratumMessageAgentDispatcher M)
    (exMessage : Bytes) : StratumMessageAgentDispatcher M :=
  let sessionId := env.decodeSessionId exMessage % 65536
  { miners_ := mapUpdate sessionId (fun miner => env.minerHandleExMessage miner exMessage) d.miners_
    calls := d.calls ++ [SessionCall.decodeSessionId exMessage] }

/-- `StratumMessageAgentDispatcher::handleExMessage`. The result is `none`
when the frame is shorter than the four bytes of the header overlay or when
the assertion `exMessage.size() == length` fails. -/
def handleExMessage (c : ExConsts) (h : Helpers) (env : Collab M Job)
    (d : StratumMessageAgentDispatcher M) (exMessage : Bytes) : Option (StratumMessageAgentDispatcher M) :=
  if exMessage.length < 4 then none
  else
    let length := le16Value (exMessage.getD 2 0) (exMessage.getD 3 0)
    if exMessage.length ≠ length then none
    else
      let command := exMessage.getD 1 0 % 256
      if command = c.CMD_REGISTER_WORKER then
        some (handleExMessage_RegisterWorker c h env d exMessage)
      else if command = c.CMD_UNREGISTER_WORKER then
        some (handleExMessage_UnregisterWorker d exMessage)
      else if command = c.CMD_SUBMIT_SHARE ∨ command = c.CMD_SUBMIT_SHARE_WITH_TIME then
        some (handleExMessage_SessionSpecific env d exMessage)
      else some d

/-- A frame that `handleExMessage` is defined on: the header is there and
its length field is the size of the frame. -/
def ValidFrame (exMessage : Bytes) : Prop :=
  4 ≤ exMessage.length
    ∧ le16Value (exMessage.getD 2 0) (exMessage.getD 3 0) = exMessage.length

instance (exMessage : Bytes) : Decidable (ValidFrame exMessage) := by
  unfold ValidFrame; infer_instance

/-- The field `command` of the header overlay: byte 1. -/
def commandOf (exMessage : Bytes) : Nat := exMessage.getD 1 0 % 256

/-- The case labels of the `switch` in `handleExMessage`, which C++ requires
to be pairwise distinct. -/
def ExConsts.Distinct (c : ExConsts) : Prop :=
  c.CMD_REGISTER_WORKER ≠ c.CMD_UNREGISTER_WORKER
    ∧ c.CMD_REGISTER_WORKER ≠ c.CMD_SUBMIT_SHARE
    ∧ c.CMD_REGISTER_WORKER ≠ c.CMD_SUBMIT_SHARE_WITH_TIME
    ∧ c.CMD_UNREGISTER_WORKER ≠ c.CMD_SUBMIT_SHARE
    ∧ c.CMD_UNREGISTER_WORKER ≠ c.CMD_SUBMIT_SHARE_WITH_TIME
    ∧ c.CMD_SUBMIT_SHARE ≠ c.CMD_SUBMIT_SHARE_WITH_TIME

/-- `StratumMessageAgentDispatcher::setMinDiff`. -/
def setMinDiff (env : Collab M Job) (d : StratumMessageAgentDispatcher M) (minDiff : Nat) :
    StratumMessageAgentDispatcher M :=
  { d with miners_ := d.miners_.map (fun p => (p.1, env.minerSetMinDiff p.2 minDiff)) }

/-- `StratumMessageAgentDispatcher::resetCurDiff`. -/
def resetCurDiff (env : Collab M Job) (d : StratumMessageAgentDispatcher M) (curDiff : Nat) :
    StratumMessageAgentDispatcher M :=
  { d with miners_ := d.miners_.map (fun p => (p.1, env.minerResetCurDiff p.2 curDiff)) }

/-- The `for` loop of `StratumMessageAgentDispatcher::addLocalJob` over the
entries of `miners_` that are still to be visited: the entries afterwards, the
job afterwards, and `newDiffs` afterwards. -/
def addLocalJobLoop (h : Helpers) (env : Collab M Job) :
    List (Nat × M) → Job → List (Nat × List Nat) → List (Nat × M) × Job × List (Nat × List Nat)
  | [], localJob, newDiffs => ([], localJob, newDiffs)
  | p :: rest, localJob, newDiffs =>
    -- uint8_t oldDiff = log2(p.second->getCurDiff());
    let oldDiff := h.log2 (env.getCurDiff p.2) % 256
    -- uint8_t newDiff = log2(p.second->addLocalJob(localJob));
    let r := env.minerAddLocalJob p.2 localJob
    let newDiff := h.log2 r.2.2 % 256
    let newDiffs1 := if newDiff ≠ oldDiff then mapPushBack newDiff p.1 newDiffs else newDiffs
    let out := addLocalJobLoop h env rest r.2.1 newDiffs1
    ((p.1, r.1) :: out.1, out.2.1, out.2.2)

/-- `StratumMessageAgentDispatcher::addLocalJob`: the dispatcher afterwards
and the job afterwards. -/
def addLocalJob (c : ExConsts) (h : Helpers) (env : Collab M Job) (d : StratumMessageAgentDispatcher M)
    (localJob : Job) : StratumMessageAgentDispatcher M × Job :=
  let out := addLocalJobLoop h env d.miners_ localJob []
  ({ miners_ := out.1
     calls := d.calls ++ [SessionCall.sendData (getSetDiffCommand c out.2.2)] }, out.2.1)

/-- What each miner reports during `addLocalJob`, in the order of the loop:
the session id, the difficulty `getCurDiff` gives before the call, and the
difficulty the miner's `addLocalJob` returns. -/
def jobTrace (env : Collab M Job) : List (Nat × M) → Job → List (Nat × Nat × Nat)
  | [], _ => []
  | p :: rest, localJob =>
    let r := env.minerAddLocalJob p.2 localJob
    (p.1, env.getCurDiff p.2, r.2.2) :: jobTrace env rest r.2.1

/-- The pairs (new exponent, session id) of the miners whose exponent changed,
in the order of the loop. -/
def changedOf (h : Helpers) (trace : List (Nat × Nat × Nat)) : List (Nat × Nat) :=
  (trace.filter (fun t => decide (h.log2 t.2.2 % 256 ≠ h.log2 t.2.1 % 256))).map
    (fun t => (h.log2 t.2.2 % 256, t.1))

/-- A run of `newDiffs[k].push_back (id)` statements. -/
def pushAll (l : List (Nat × Nat)) (newDiffs : List (Nat × List Nat)) : List (Nat × List Nat) :=
  l.foldl (fun acc x => mapPushBack x.1 x.2 acc) newDiffs

/-- The `for` loop of `StratumMessageAgentDispatcher::removeLocalJob`. -/
def removeLocalJobLoop (env : Collab M Job) : List (Nat × M) → Job → List (Nat × M) × Job
  | [], localJob => ([], localJob)
  | p :: rest, localJob =>
    let r := env.minerRemoveLocalJob p.2 localJob
    let out := removeLocalJobLoop env rest r.2
    ((p.1, r.1) :: out.1, out.2)

/-- `StratumMessageAgentDispatcher::removeLocalJob`. -/
def removeLocalJob (env : Collab M Job) (d : StratumMessageAgentDispatcher M) (localJob : Job) :
    StratumMessageAgentDispatcher M × Job :=
  let out := removeLocalJobLoop env d.miners_ localJob
  ({ d with miners_ := out.1 }, out.2)

end Agent

/-! ## Runs of the agent dispatcher -/

/-- A call that the session makes on its agent dispatcher. -/
inductive AgentOp (Job : Type) where
  | handleExMessage (exMessage : Bytes)
  | setMinDiff (minDiff : Nat)
  | resetCurDiff (curDiff : Nat)
  | addLocalJob (localJob : Job)
  | removeLocalJob (localJob : Job)
deriving Repr, DecidableEq

/-- The dispatcher after one call; `none` when `handleExMessage` has no
result. -/
def agentStep {M Job : Type} (c : ExConsts) (h : Helpers) (env : Collab M Job)
    (d : StratumMessageAgentDispatcher M) : AgentOp Job → Option (StratumMessageAgentDispatcher M)
  | AgentOp.handleExMessage exMessage => handleExMessage c h env d exMessage
  | AgentOp.setMinDiff minDiff => some (setMinDiff env d minDiff)
  | AgentOp.resetCurDiff curDiff => some (resetCurDiff env d curDiff)
  | AgentOp.addLocalJob localJob => some (addLocalJob c h env d localJob).1
  | AgentOp.removeLocalJob localJob => some (removeLocalJob env d localJob).1

/-- The dispatcher after a sequence of calls, in order. -/
def agentRun {M Job : Type} (c : ExConsts) (h : Helpers) (env : Collab M Job) :
    StratumMessageAgentDispatcher M → List (AgentOp Job) → Option (StratumMessageAgentDispatcher M)
  | d, [] => some d
  | d, op :: ops =>
    match agentStep c h env d op with
    | some d1 => agentRun c h env d1 ops
    | none => none

/-- The invariant of the table of an agent dispatcher: a well-formed
`std::map<uint16_t, ...>` none of whose keys is above
`AGENT_MAX_SESSION_ID`. -/
def AgentInv {M : Type} (c : ExConsts) (d : StratumMessageAgentDispatcher M) : Prop :=
  IsMinerTable d.miners_ ∧ ∀ p ∈ d.miners_, p.1 ≤ c.AGENT_MAX_SESSION_ID

/-! ## `StratumMessageMinerDispatcher` -/

/-- A call made by the miner dispatcher on its session, with the arguments. -/
inductive MinerSessionCall (Job : Type) where
  | responseTrue (idStr : Bytes)
  | responseError (idStr : Bytes) (status : Int)
  | sendSetDifficulty (localJob : Job) (difficulty : Nat)
deriving Repr, DecidableEq

/-- The state of a `StratumMessageMinerDispatcher`: the member `miner_`, and
the calls made so far on the member `session_`, oldest first. -/
structure StratumMessageMinerDispatcher (M Job : Type) where
  miner_ : M
  calls : List (MinerSessionCall Job)
deriving Repr, DecidableEq

/-- `StratumMessageMinerDispatcher::addLocalJob`: the dispatcher afterwards
and the job afterwards. `sendSetDifficulty` is what the session's method of
that name does to the job it is handed. -/
def StratumMessageMinerDispatcher.addLocalJob {M Job : Type} (env : Collab M Job)
    (sendSetDifficulty : Job → Nat → Job) (d : StratumMessageMinerDispatcher M Job)
    (localJob : Job) : StratumMessageMinerDispatcher M Job × Job :=
  -- auto oldDiff = miner_->getCurDiff();
  let oldDiff := env.getCurDiff d.miner_
  -- auto newDiff = miner_->addLocalJob(localJob);
  let r := env.minerAddLocalJob d.miner_ localJob
  let newDiff := r.2.2
  if newDiff ≠ oldDiff then
    ({ miner_ := r.1
       calls := d.calls ++ [MinerSessionCall.sendSetDifficulty r.2.1 newDiff] },
      sendSetDifficulty r.2.1 newDiff)
  else ({ miner_ := r.1, calls := d.calls }, r.2.1)

/-- `StratumMessageMinerDispatcher::responseShareAccepted`. -/
def StratumMessageMinerDispatcher.responseShareAccepted {M Job : Type}
    (d : StratumMessageMinerDispatcher M Job) (idStr : Bytes) :
    StratumMessageMinerDispatcher M Job :=
  { d with calls := d.calls ++ [MinerSessionCall.responseTrue idStr] }

/-- `StratumMessageMinerDispatcher::responseShareError`. -/
def StratumMessageMinerDispatcher.responseShareError {M Job : Type}
    (d : StratumMessageMinerDispatcher M Job) (idStr : Bytes) (status : Int) :
    StratumMessageMinerDispatcher M Job :=
  { d with calls := d.calls ++ [MinerSessionCall.responseError idStr status] }

/-! ## Ethereum session (`src/eth/StratumSessionEth.cc`): text -/

/-- The bytes of an ASCII string literal. -/
def ascii (s : String) : Bytes := s.toList.map Char.toNat

/-- `std::string::find (ch)`: the index of the first occurrence of `ch`, and
`none` for `npos`. -/
def findChar (ch : Nat) : Bytes → Option Nat
  | [] => none
  | b :: rest => if b = ch then some 0 else (findChar ch rest).map (fun i => i + 1)

/-- The function `stripEthAddrFromFullName`. The characters tested are
`.` (46), `0` (48), `x` (120) and `X` (88). -/
def stripEthAddrFromFullName (fullNameStr : Bytes) : Bytes :=
  -- const size_t pos = fullNameStr.find('.');
  let pos := findChar 46 fullNameStr
  if pos = some 42 ∧ fullNameStr.getD 0 0 = 48
      ∧ (fullNameStr.getD 1 0 = 120 ∨ fullNameStr.getD 1 0 = 88) then
    -- return fullNameStr.substr(pos + 1);
    fullNameStr.drop (42 + 1)
  else fullNameStr

/-- The C function `tolower` in the C locale: `A` .. `Z` become `a` .. `z`. -/
def tolower (b : Nat) : Nat := if 65 ≤ b ∧ b ≤ 90 then b + 32 else b

/-- The character of a digit below 16: `0` .. `9`, then `a` .. `f`. -/
def digitByte (d : Nat) : Nat := if d < 10 then 48 + d else 87 + d

/-- The number of digits of `n` in base `base`, for `n` of at most 64 bits. -/
def numDigitsAux (base : Nat) : Nat → Nat → Nat
  | 0, _ => 1
  | fuel + 1, n => if n < base then 1 else numDigitsAux base fuel (n / base) + 1

/-- The last `k` digits of `n` in base `base`, most significant first. -/
def digitsOf (base k n : Nat) : Bytes :=
  (List.range k).reverse.map (fun i => digitByte (n / base ^ i % base))

/-- The `printf` conversion of an unsigned value with a minimum width and
zero padding: all the digits of `n`, and leading zeros up to `width`. -/
def fmtUnsigned (base width n : Nat) : Bytes :=
  digitsOf base (max width (numDigitsAux base 64 n)) n

/-- The conversion `%lu` of a 64-bit value. -/
def fmtLu (n : Nat) : Bytes := fmtUnsigned 10 1 (n % 2 ^ 64)

/-- The conversion `%06x` of a 32-bit value. -/
def fmt06x (n : Nat) : Bytes := fmtUnsigned 16 6 (n % 2 ^ 32)

/-! ## Ethereum session: data -/

/-- Modelled from the spec: the connection state of a session, the enum
`StratumSession::State`, which is declared outside the sources at hand. The
states are CONNECTED, SUBSCRIBED, AUTHENTICATED, in ascending order. -/
inductive State where
  | CONNECTED
  | SUBSCRIBED
  | AUTHENTICATED
deriving Repr, DecidableEq

/-- The rank of a state, for comparisons such as `state_ < AUTHENTICATED`. -/
def State.rank : State → Nat
  | State.CONNECTED => 0
  | State.SUBSCRIBED => 1
  | State.AUTHENTICATED => 2

/-- The dialects of `StratumProtocolEth` that the session names. -/
inductive StratumProtocolEth where
  | ETHPROXY
  | STRATUM
  | NICEHASH_STRATUM
deriving Repr, DecidableEq

/-- The constants of `StratumStatus` that the session names. -/
inductive StratumStatus where
  | UNKNOWN
  | NOT_SUBSCRIBED
  | INVALID_USERNAME
  | ILLEGAL_PARARMS
deriving Repr, DecidableEq

/-- A `JsonNode`, as what the session reads off it: whether `type ()` is
`Utilities::JS::type::Str`, and the values of `str ()` and `uint32 ()`. -/
structure JsonNode where
  isStr : Bool
  str : Bytes
  uint32 : Nat
deriving Repr, DecidableEq

/-- A request, as what the session reads off `jparams` and `jroot`: the
children of `jparams`, and the members `method` and `worker` of `jroot`. -/
structure Request where
  params : List JsonNode
  method : JsonNode
  worker : JsonNode
deriving Repr, DecidableEq

/-- A node that is not there: `at (i)` past the end, or a missing member. -/
def JsonNode.absent : JsonNode := ⟨false, [], 0⟩

/-- The local job of the Ethereum session (`StratumTraitsEth::LocalJobType`):
the job id and header hash it is created with, and its difficulty. -/
structure LocalJobEth where
  jobId_ : Nat
  headerHash_ : Bytes
  currentJobDiff_ : Nat
deriving Repr, DecidableEq

/-- The fields of `StratumJobEth` that the session reads. -/
structure StratumJobEth where
  jobId_ : Nat
  headerHash_ : Bytes
  seedHash_ : Bytes
  networkTarget_ : Nat
  height_ : Nat
deriving Repr, DecidableEq

/-- A `StratumJobEx`: `sjob_` is `none` when the `dynamic_cast` to
`StratumJobEth` fails. -/
structure StratumJobEx where
  sjob_ : Option StratumJobEth
  isClean_ : Bool
deriving Repr, DecidableEq

/-- What the session hands to its transport, through the methods `sendData`,
`responseTrue` and `responseError` of the base class. -/
inductive SessionOut where
  | sendData (data : Bytes)
  | responseTrue (idStr : Bytes)
  | responseError (idStr : Bytes) (status : StratumStatus)
deriving Repr, DecidableEq

/-- The state of a `StratumSessionEth`: the members the session code reads or
writes, and what it has handed to its transport so far, oldest first. -/
structure StratumSessionEth where
  state_ : State
  ethProtocol_ : StratumProtocolEth
  nicehashLastSentDiff_ : Nat
  extraNonce1_ : Nat
  isNiceHashClient_ : Bool
  clientAgent_ : Bytes
  clientIpInt_ : Nat
  clientIp_ : Bytes
  localJobs_ : List LocalJobEth
  out : List SessionOut
deriving Repr, DecidableEq

/-- Functions that the session calls and that are declared outside the
sources at hand. -/
structure EthHelpers where
  /-- The values of `clientAgent_` and `isNiceHashClient_` after
  `StratumSession::setClientAgent`, taken to touch nothing else. -/
  setClientAgent : Bytes → Bytes × Bool
  /-- The value stored by `sscanf (str, "%x", &v)`, `none` when nothing is
  converted. -/
  sscanfHex : Bytes → Option Nat
  htonl : Nat → Nat
  inet_ntop : Nat → Bytes
  Eth_TargetToDifficulty : Nat → Nat
  Eth_DifficultyToTarget : Nat → Bytes
  /-- The method `GetHex` of the network target. -/
  GetHex : Nat → Bytes
  /-- The text of the conversion `%lf` of `Eth_DiffToNicehashDiff (diff)`. -/
  nicehashDiffText : Nat → Bytes
  /-- The value of `currentJobDiff_` of the local job that the base class
  method `addLocalJob (jobId, header)` returns. -/
  newLocalJobDiff : Nat → Bytes → Nat

/-- The session as the constructor of `StratumSessionEth` leaves it. -/
def StratumSessionEth.init (extraNonce1 : Nat) : StratumSessionEth where
  state_ := State.CONNECTED
  ethProtocol_ := StratumProtocolEth.ETHPROXY
  nicehashLastSentDiff_ := 0
  extraNonce1_ := extraNonce1 % 2 ^ 32
  isNiceHashClient_ := false
  clientAgent_ := []
  clientIpInt_ := 0
  clientIp_ := []
  localJobs_ := []
  out := []

/-- The base class method `sendData`. -/
def StratumSessionEth.sendData (s : StratumSessionEth) (data : Bytes) : StratumSessionEth :=
  { s with out := s.out ++ [SessionOut.sendData data] }

/-- The base class method `responseTrue`. -/
def StratumSessionEth.responseTrue (s : StratumSessionEth) (idStr : Bytes) : StratumSessionEth :=
  { s with out := s.out ++ [SessionOut.responseTrue idStr] }

/-- The base class method `responseError`. -/
def StratumSessionEth.responseError (s : StratumSessionEth) (idStr : Bytes)
    (status : StratumStatus) : StratumSessionEth :=
  { s with out := s.out ++ [SessionOut.responseError idStr status] }

/-! ## Ethereum session: subscribe and authorize -/

/-- The statement `if (params->size() >= 1) setClientAgent (...)` of
`handleRequest_Subscribe`. -/
def subscribeSetClientAgent (eh : EthHelpers) (s : StratumSessionEth)
    (params : List JsonNode) : StratumSessionEth :=
  if params.length ≥ 1 then
    -- setClientAgent(params->at(0).str().substr(0, 30));
    { s with clientAgent_ := (eh.setClientAgent ((params.getD 0 JsonNode.absent).str.take 30)).1
             isNiceHashClient_ :=
               (eh.setClientAgent ((params.getD 0 JsonNode.absent).str.take 30)).2 }
  else s

/-- The value of `protocolStr` in `handleRequest_Subscribe`: the second
parameter in lower case, empty when there is no second parameter. -/
def subscribeProtocolStr (params : List JsonNode) : Bytes :=
  if params.length ≥ 2 then (params.getD 1 JsonNode.absent).str.map tolower else []

/-- The part of `handleRequest_Subscribe` under
`#ifdef WORK_WITH_STRATUM_SWITCHER` that follows the check of the number of
parameters: the session id and the address of the miner are taken from the
parameters. -/
def subscribeSwitcher (eh : EthHelpers) (s : StratumSessionEth)
    (params : List JsonNode) : StratumSessionEth :=
  -- string extraNonce1Str = params->at(2).str().substr(0, 8);
  let extraNonce1Str := (params.getD 2 JsonNode.absent).str.take 8
  -- sscanf(extraNonce1Str.c_str(), "%x", &extraNonce1_);
  let s1 : StratumSessionEth :=
    match eh.sscanfHex (cstr extraNonce1Str) with
    | some v => { s with extraNonce1_ := v % 2 ^ 32 }
    | none => s
  if params.length ≥ 4 then
    { s1 with clientIpInt_ := eh.htonl (params.getD 3 JsonNode.absent).uint32
              clientIp_ := eh.inet_ntop (eh.htonl (params.getD 3 JsonNode.absent).uint32) }
  else s1

/-- The acknowledgment that `handleRequest_Subscribe` sends to a
NiceHash-Stratum client. -/
def subscribeNiceHashAck (s : StratumSessionEth) (idStr : Bytes) : Bytes :=
  -- string noncePrefix = Strings::Format("%06x", extraNonce1_);
  let noncePrefix := fmt06x s.extraNonce1_
  -- if (isNiceHashClient_) noncePrefix = noncePrefix.substr(0, 4);
  let noncePrefix1 := if s.isNiceHashClient_ = true then noncePrefix.take 4 else noncePrefix
  ascii "\x7b\"id\":" ++ cstr idStr
    ++ ascii ",\"result\":[[\"mining.notify\",\"" ++ fmt06x s.extraNonce1_
    ++ ascii "\",\"EthereumStratum/1.0.0\"],\"" ++ cstr noncePrefix1
    ++ ascii "\"],\"error\":null\x7d\n"

/-- The choice of the dialect in `handleRequest_Subscribe`, with the
acknowledgment. -/
def subscribeSelect (switcher : Bool) (s : StratumSessionEth) (idStr protocolStr : Bytes) :
    StratumSessionEth :=
  if protocolStr.take 16 = ascii "ethereumstratum/" then
    ({ s with ethProtocol_ := StratumProtocolEth.NICEHASH_STRATUM }).sendData
      (subscribeNiceHashAck s idStr)
  else if switcher = true ∧ protocolStr.take 9 = ascii "ethproxy/" then
    ({ s with ethProtocol_ := StratumProtocolEth.ETHPROXY }).responseTrue idStr
  else
    ({ s with ethProtocol_ := StratumProtocolEth.STRATUM }).responseTrue idStr

/-- `StratumSessionEth::handleRequest_Subscribe`. `switcher` tells whether the
build defines `WORK_WITH_STRATUM_SWITCHER`; `params` are the children of
`jparams`. -/
def handleRequest_Subscribe (switcher : Bool) (eh : EthHelpers) (s : StratumSessionEth)
    (idStr : Bytes) (params : List JsonNode) : StratumSessionEth :=
  if s.state_ ≠ State.CONNECTED then
    s.responseError idStr StratumStatus.UNKNOWN
  else
    let s1 := subscribeSetClientAgent eh s params
    let protocolStr := subscribeProtocolStr params
    if switcher = true ∧ params.length < 3 then
      s1.responseError idStr StratumStatus.ILLEGAL_PARARMS
    else
      let s2 := if switcher = true then subscribeSwitcher eh s1 params else s1
      let s3 := subscribeSelect switcher s2 idStr protocolStr
      { s3 with state_ := State.SUBSCRIBED }

/-- `StratumSessionEth::handleRequest_Authorize`: the session afterwards, the
value returned, and the values of the references `fullName` and `password`
afterwards. -/
def handleRequest_Authorize (switcher : Bool) (s : StratumSessionEth) (idStr : Bytes)
    (req : Request) (fullName password : Bytes) : StratumSessionEth × Bool × Bytes × Bytes :=
  let s1 : StratumSessionEth :=
    if switcher = false ∧ s.ethProtocol_ = StratumProtocolEth.ETHPROXY
        ∧ req.method.str = ascii "eth_submitLogin" then
      { s with state_ := State.SUBSCRIBED }
    else s
  if s1.state_ ≠ State.SUBSCRIBED then
    (s1.responseError idStr StratumStatus.NOT_SUBSCRIBED, false, fullName, password)
  else if req.params.length < 1 then
    (s1.responseError idStr StratumStatus.INVALID_USERNAME, false, fullName, password)
  else
    let fullName1 := (req.params.getD 0 JsonNode.absent).str
    let fullName2 :=
      if req.worker.isStr = true then fullName1 ++ [46] ++ req.worker.str else fullName1
    let fullName3 := stripEthAddrFromFullName fullName2
    let password1 :=
      if req.params.length > 1 then (req.params.getD 1 JsonNode.absent).str else password
    (s1, true, fullName3, password1)

/-! ## Ethereum session: job notification -/

/-- `StratumSessionEth::sendSetDifficulty`: the difficulty is stored in the
local job. -/
def StratumSessionEth.sendSetDifficulty (localJob : LocalJobEth) (difficulty : Nat) :
    LocalJobEth :=
  { localJob with currentJobDiff_ := difficulty }

/-- The statement `if (66 == hash.length()) hash = hash.substr(2, 64);` of
`sendMiningNotifyWithId`, which strips the prefix `0x`. -/
def strip0x (hash : Bytes) : Bytes :=
  if 66 = hash.length then (hash.drop 2).take 64 else hash

/-- Modelled from the spec: the base class method `findLocalJob (header)`,
which is outside the sources at hand: the local job that is tracked under
the header hash, if any. -/
def findLocalJob (jobs : List LocalJobEth) (header : Bytes) : Option LocalJobEth :=
  jobs.find? (fun j => j.headerHash_ == header)

/-- Modelled from the spec: the base class method `addLocalJob (jobId,
header)`, which is outside the sources at hand: a new local job is tracked;
its difficulty is what the base class leaves in it. -/
def addLocalJobEth (eh : EthHelpers) (jobs : List LocalJobEth) (jobId : Nat) (header : Bytes) :
    List LocalJobEth :=
  jobs ++ [⟨jobId, header, eh.newLocalJobDiff jobId header⟩]

/-- Modelled from the spec: the base class method `clearLocalJobs`, which is
outside the sources at hand: all the local jobs of the session are dropped. -/
def clearLocalJobs (_jobs : List LocalJobEth) : List LocalJobEth := []

/-- The local jobs after `ljob` was found or created in
`sendMiningNotifyWithId`. -/
def localJobsWith (eh : EthHelpers) (jobs : List LocalJobEth) (jobId : Nat) (header : Bytes) :
    List LocalJobEth :=
  match findLocalJob jobs header with
  | some _ => jobs
  | none => addLocalJobEth eh jobs jobId header

/-- The value of `ljob->currentJobDiff_` before it is tested against 0. -/
def ljobDiff (eh : EthHelpers) (jobs : List LocalJobEth) (jobId : Nat) (header : Bytes) : Nat :=
  match findLocalJob (localJobsWith eh jobs jobId header) header with
  | some ljob => ljob.currentJobDiff_
  | none => 0

/-- The assignment `ljob->currentJobDiff_ = diff` on the local job found
under `header`. -/
def setLjobDiff (header : Bytes) (diff : Nat) : List LocalJobEth → List LocalJobEth
  | [] => []
  | j :: rest =>
    if j.headerHash_ = header then { j with currentJobDiff_ := diff } :: rest
    else j :: setLjobDiff header diff rest

/-- The value of `ljob->currentJobDiff_` after the `if` that seeds it: the
difficulty of the notify. -/
def effectiveDiff (eh : EthHelpers) (jobs : List LocalJobEth) (ethJob : StratumJobEth) : Nat :=
  let cur := ljobDiff eh jobs ethJob.jobId_ (strip0x ethJob.headerHash_)
  if cur = 0 then eh.Eth_TargetToDifficulty ethJob.networkTarget_ else cur

/-- The value of `strShareTarget`. -/
def shareTargetOf (eh : EthHelpers) (jobs : List LocalJobEth) (ethJob : StratumJobEth) : Bytes :=
  let cur := ljobDiff eh jobs ethJob.jobId_ (strip0x ethJob.headerHash_)
  if cur = 0 then eh.GetHex ethJob.networkTarget_ else eh.Eth_DifficultyToTarget cur

/-- The text `true` or `false` of the clean flag. -/
def boolText (b : Bool) : Bytes := if b = true then ascii "true" else ascii "false"

/-- The `mining.notify` of the STRATUM branch. -/
def notifyStratum (idStr header seed strShareTarget : Bytes) (isClean : Bool) (height : Nat) :
    Bytes :=
  ascii "\x7b\"id\":" ++ cstr idStr
    ++ ascii ",\"method\":\"mining.notify\",\"params\":[\"" ++ cstr header
    ++ ascii "\",\"" ++ cstr header
    ++ ascii "\",\"" ++ cstr seed
    ++ ascii "\",\"" ++ cstr strShareTarget
    ++ ascii "\"," ++ boolText isClean
    ++ ascii "],\"height\":" ++ fmtLu height ++ ascii "\x7d\n"

/-- The `eth_getWork` result of the ETHPROXY branch; `target58` is
`strShareTarget.substr (6, 58)`. -/
def notifyEthProxy (idStr header seed target58 : Bytes) (startNoncePrefix height : Nat) :
    Bytes :=
  ascii "\x7b\"id\":" ++ cstr idStr
    ++ ascii ",\"jsonrpc\":\"2.0\",\"result\":[\"0x" ++ cstr header
    ++ ascii "\",\"0x" ++ cstr seed
    ++ ascii "\",\"0x" ++ cstr target58
    ++ ascii "\",\"" ++ fmt06x startNoncePrefix
    ++ ascii "\"],\"height\":" ++ fmtLu height ++ ascii "\x7d\n"

/-- The `mining.set_difficulty` of the NICEHASH_STRATUM branch. -/
def nicehashSetDifficulty (eh : EthHelpers) (idStr : Bytes) (diff : Nat) : Bytes :=
  ascii "\x7b\"id\":" ++ cstr idStr
    ++ ascii ",\"method\":\"mining.set_difficulty\",\"params\":[" ++ eh.nicehashDiffText diff
    ++ ascii "]\x7d\n"

/-- The `mining.notify` of the NICEHASH_STRATUM branch. -/
def notifyNiceHash (idStr header seed : Bytes) (isClean : Bool) (height : Nat) : Bytes :=
  ascii "\x7b\"id\":" ++ cstr idStr
    ++ ascii ",\"method\":\"mining.notify\",\"params\":[\"" ++ cstr header
    ++ ascii "\",\"" ++ cstr seed
    ++ ascii "\",\"" ++ cstr header
    ++ ascii "\"," ++ boolText isClean
    ++ ascii "],\"height\":" ++ fmtLu height ++ ascii "\x7d\n"

/-- The `switch (ethProtocol_)` of `sendMiningNotifyWithId`: the value of
`strNotify` and of `nicehashLastSentDiff_` afterwards; `none` when
`strShareTarget.substr (6, 58)` throws because the target has fewer than 6
characters. -/
def strNotifyOf (eh : EthHelpers) (s : StratumSessionEth) (idStr header seed
    strShareTarget : Bytes) (diff : Nat) (isClean : Bool) (height : Nat) : Option (Bytes × Nat) :=
  match s.ethProtocol_ with
  | StratumProtocolEth.STRATUM =>
    some (notifyStratum idStr header seed strShareTarget isClean height,
      s.nicehashLastSentDiff_)
  | StratumProtocolEth.ETHPROXY =>
    if strShareTarget.length < 6 then none
    else
      some (notifyEthProxy idStr header seed ((strShareTarget.drop 6).take 58) s.extraNonce1_
        height, s.nicehashLastSentDiff_)
  | StratumProtocolEth.NICEHASH_STRATUM =>
    if diff ≠ s.nicehashLastSentDiff_ then
      some (nicehashSetDifficulty eh idStr diff ++ notifyNiceHash idStr header seed isClean height,
        diff)
    else some (notifyNiceHash idStr header seed isClean height, s.nicehashLastSentDiff_)

/-- The end of `sendMiningNotifyWithId`, from `DLOG (INFO) << strNotify` on:
the notify string is sent when it is not empty, then the local jobs are
cleared. `jobs` are the local jobs and `r` the value of `strNotify` and of
`nicehashLastSentDiff_` after the `switch`. -/
def notifyFinish (s : StratumSessionEth) (jobs : List LocalJobEth) (r : Bytes × Nat) :
    StratumSessionEth :=
  let s1 : StratumSessionEth := { s with localJobs_ := jobs, nicehashLastSentDiff_ := r.2 }
  let s2 := if r.1 ≠ [] then s1.sendData r.1 else s1
  { s2 with localJobs_ := clearLocalJobs s2.localJobs_ }

/-- `StratumSessionEth::sendMiningNotifyWithId`; `exJobPtr` is `none` for a
null pointer. The result is `none` when an exception leaves the function. -/
def sendMiningNotifyWithId (eh : EthHelpers) (s : StratumSessionEth)
    (exJobPtr : Option StratumJobEx) (idStr : Bytes) : Option StratumSessionEth :=
  match exJobPtr with
  | none => some s
  | some exJob =>
    if s.state_.rank < State.AUTHENTICATED.rank then some s
    else
      match exJob.sjob_ with
      | none => some s
      | some ethJob =>
        let header := strip0x ethJob.headerHash_
        let seed := strip0x ethJob.seedHash_
        -- auto ljob = findLocalJob(header); if (ljob == nullptr) ljob = &addLocalJob(...)
        let jobs1 := localJobsWith eh s.localJobs_ ethJob.jobId_ header
        let diff := effectiveDiff eh s.localJobs_ ethJob
        let strShareTarget := shareTargetOf eh s.localJobs_ ethJob
        let jobs2 := setLjobDiff header diff jobs1
        (strNotifyOf eh s idStr header seed strShareTarget diff exJob.isClean_
            ethJob.height_).map (notifyFinish s jobs2)

/-- `StratumSessionEth::sendMiningNotify`. -/
def sendMiningNotify (eh : EthHelpers) (s : StratumSessionEth)
    (exJobPtr : Option StratumJobEx) : Option StratumSessionEth :=
  if StratumProtocolEth.ETHPROXY = s.ethProtocol_ then
    sendMiningNotifyWithId eh s exJobPtr (ascii "0")
  else sendMiningNotifyWithId eh s exJobPtr (ascii "null")

/-- A sequence of calls of `sendMiningNotify` on one session, in order. -/
def notifyRun (eh : EthHelpers) : StratumSessionEth → List StratumJobEx → Option StratumSessionEth
  | s, [] => some s
  | s, exJob :: rest =>
    match sendMiningNotify eh s (some exJob) with
    | some s1 => notifyRun eh s1 rest
    | none => none

/-- The hexadecimal digits: `0` .. `9`, `a` .. `f`, `A` .. `F`. -/
def isHexDigit (b : Nat) : Bool :=
  (decide (48 ≤ b) && decide (b ≤ 57)) || (decide (97 ≤ b) && decide (b ≤ 102))
    || (decide (65 ≤ b) && decide (b ≤ 70))

/-- A job with its clean flag, as the `StratumJobEx` that carries it. -/
def toJobEx (j : StratumJobEth × Bool) : StratumJobEx := ⟨some j.1, j.2⟩

/-- The text of a `mining.set_difficulty` with the id `null`, written out: the
one parameter is the text of the NiceHash difficulty of `diff`. -/
def setDifficultyText (eh : EthHelpers) (diff : Nat) : Bytes :=
  ascii "\x7b\"id\":null,\"method\":\"mining.set_difficulty\",\"params\":["
    ++ eh.nicehashDiffText diff ++ ascii "]\x7d\n"

/-- The text of the `mining.notify` that a NICEHASH_STRATUM session is to send
for a job, written out: the id `null`, then the stripped header as the job id,
the stripped seed, the stripped header, the clean flag, and the height. -/
def nicehashNotifyOf (j : StratumJobEth × Bool) : Bytes :=
  ascii "\x7b\"id\":null,\"method\":\"mining.notify\",\"params\":[\""
    ++ cstr (strip0x j.1.headerHash_)
    ++ ascii "\",\"" ++ cstr (strip0x j.1.seedHash_)
    ++ ascii "\",\"" ++ cstr (strip0x j.1.headerHash_)
    ++ ascii "\"," ++ (if j.2 = true then ascii "true" else ascii "false")
    ++ ascii "],\"height\":" ++ fmtLu j.1.height_ ++ ascii "\x7d\n"

/-- What a NICEHASH_STRATUM session is to send for a sequence of notifies, one
string per notify, when `lastSent` is the difficulty sent last (0 on a new
session) and `jobs` are its local jobs: a `mining.set_difficulty` goes before
the `mining.notify` exactly when the difficulty of the notify differs from the
difficulty sent last. Every notify leaves no local job behind. -/
def nicehashSent (eh : EthHelpers) :
    Nat → List LocalJobEth → List (StratumJobEth × Bool) → List Bytes
  | _, _, [] => []
  | lastSent, jobs, j :: rest =>
    (if effectiveDiff eh jobs j.1 ≠ lastSent then
        setDifficultyText eh (effectiveDiff eh jobs j.1) ++ nicehashNotifyOf j
      else nicehashNotifyOf j)
      :: nicehashSent eh (effectiveDiff eh jobs j.1) [] rest

/-- The reading "a `mining.set_difficulty` on the first notify in any case":
on the first notify a `mining.set_difficulty` and the `mining.notify`, then
what `nicehashSent` says. `jobs` are the local jobs of the session before the
first notify. -/
def nicehashExpected (eh : EthHelpers) (jobs : List LocalJobEth) :
    List (StratumJobEth × Bool) → List Bytes
  | [] => []
  | j :: rest =>
    (setDifficultyText eh (effectiveDiff eh jobs j.1) ++ nicehashNotifyOf j)
      :: nicehashSent eh (effectiveDiff eh jobs j.1) [] rest

/-- The difficulty of the last of a sequence of notifies; `last` when there
is no notify. -/
def nicehashLastOf (eh : EthHelpers) :
    Nat → List LocalJobEth → List (StratumJobEth × Bool) → Nat
  | last, _, [] => last
  | _, jobs, j :: rest => nicehashLastOf eh (effectiveDiff eh jobs j.1) [] rest

/-- The `LocalJob` as each miner finds it during `removeLocalJob`, in the
order of the loop: the job is passed by reference, so a miner sees it as the
miners before left it. -/
def removeTrace {M Job : Type} (env : Collab M Job) : List (Nat × M) → Job → List Job
  | [], _ => []
  | p :: rest, localJob =>
    localJob :: removeTrace env rest (env.minerRemoveLocalJob p.2 localJob).2

/-- The worker name as the description of REGISTER_WORKER words it: the
sanitized name, replaced by the default name when that is empty. -/
def finalWorkerName (h : Helpers) (workerName : Bytes) : Bytes :=
  if h.filterWorkerName workerName = [] then h.DEFAULT_WORKER_NAME
  else h.filterWorkerName workerName

/-- The statement "`text` begins with `pattern` when letters are compared
without regard to case", for a pattern without upper-case letters: at each
place the character of `text` is the character of the pattern or, where that
is a lower-case letter, its upper-case form. -/
def beginsIgnoringCase : Bytes → Bytes → Bool
  | [], _ => true
  | _ :: _, [] => false
  | p :: ps, t :: ts =>
    (t == p || (decide (97 ≤ p ∧ p ≤ 122) && t + 32 == p)) && beginsIgnoringCase ps ts

/-- Sample values for the header constants, used at concrete inputs only. -/
def testConsts : ExConsts :=
  ⟨127, 65534, 1, 4, 2, 3, 5⟩

/-! ## Test doubles, used at concrete inputs only -/

/-- A stand-in for `StratumMiner`: what it was created with, its two
difficulties, and the frames handed to it. -/
structure MockMiner where
  clientAgent : Bytes
  workerName : Bytes
  workerId : Int
  curDiff : Nat
  minDiff : Nat
  inbox : List Bytes
deriving Repr, DecidableEq

/-- A stand-in for the session and the miners. A job is the difficulty it
makes a miner adopt; a new miner starts at difficulty 1; the session id of a
session-specific frame is read from bytes 4 and 5. -/
def mockEnv : Collab MockMiner Nat where
  createMiner := fun a n i => ⟨a, n, i, 1, 1, []⟩
  decodeSessionId := fun msg => sessionIdField msg
  getCurDiff := fun m => m.curDiff
  minerAddLocalJob := fun m job => ({ m with curDiff := job }, job, job)
  minerSetMinDiff := fun m x => { m with minDiff := x }
  minerResetCurDiff := fun m x => { m with curDiff := x }
  minerRemoveLocalJob := fun m job => (m, job)
  minerHandleExMessage := fun m msg => { m with inbox := m.inbox ++ [msg] }

/-- Integer part of the base-2 logarithm, by repeated halving. -/
def floorLog2Aux : Nat → Nat → Nat
  | 0, _ => 0
  | fuel + 1, d => if d < 2 then 0 else floorLog2Aux fuel (d / 2) + 1

/-- Integer part of the base-2 logarithm (0 at 0). -/
def floorLog2 (d : Nat) : Nat := floorLog2Aux d d

/-- Stand-ins for the helpers: the filter keeps the printable ASCII bytes, the
worker id is a polynomial hash, the default name is `__default__`. -/
def mockHelpers : Helpers where
  filterWorkerName := fun name => name.filter (fun b => decide (32 < b ∧ b < 127))
  calcWorkerId := fun name => Int.ofNat (name.foldl (fun acc b => acc * 31 + b) 7)
  DEFAULT_WORKER_NAME := [95, 95, 100, 101, 102, 97, 117, 108, 116, 95, 95]
  log2 := floorLog2

/-- A REGISTER_WORKER frame: session id 7, client agent `a`, worker `b`. -/
def frameRegisterB : Bytes := [127, 1, 10, 0, 7, 0, 97, 0, 98, 0]

/-- A REGISTER_WORKER frame: session id 7, client agent `a`, worker `c`. -/
def frameRegisterC : Bytes := [127, 1, 10, 0, 7, 0, 97, 0, 99, 0]

/-- A SUBMIT_SHARE frame for session id 7 with a two-byte tail. -/
def frameSubmit7 : Bytes := [127, 2, 8, 0, 7, 0, 1, 2]

/-- The dispatcher after one `registerWorker` for session id 7, worker `b`. -/
def agentWithB : StratumMessageAgentDispatcher MockMiner :=
  registerWorker mockEnv (StratumMessageAgentDispatcher.init MockMiner) 7 [97] [98] 315

/-- The dispatcher after a second `registerWorker` for the same session id 7,
now for worker `c`. -/
def agentAfterC : StratumMessageAgentDispatcher MockMiner :=
  registerWorker mockEnv agentWithB 7 [97] [99] 316

/-- A REGISTER_WORKER frame of 7 bytes. -/
def frameRegister7Bytes : Bytes := [127, 1, 7, 0, 7, 0, 97]

/-- A REGISTER_WORKER frame of 8 bytes whose session id is 65535. -/
def frameRegisterMaxId : Bytes := [127, 1, 8, 0, 255, 255, 97, 0]

/-- An UNREGISTER_WORKER frame for session id 7. -/
def frameUnregister7 : Bytes := [127, 4, 6, 0, 7, 0]

/-- A table of four miners at difficulties 4, 4, 8 and 2. -/
def agentMixed : StratumMessageAgentDispatcher MockMiner :=
  ⟨[(1, ⟨[97], [98], 315, 4, 1, []⟩), (2, ⟨[97], [99], 316, 4, 1, []⟩),
    (3, ⟨[97], [100], 317, 8, 1, []⟩), (600, ⟨[97], [101], 318, 2, 1, []⟩)], []⟩

/-- The dispatcher with worker `b` at session id 7, after `resetCurDiff (4)`. -/
def agentAtDiff4 : StratumMessageAgentDispatcher MockMiner :=
  resetCurDiff mockEnv agentWithB 4

/-- A SUBMIT_SHARE_WITH_TIME frame for session id 9, where no miner is. -/
def frameSubmit9 : Bytes := [127, 3, 8, 0, 9, 0, 1, 2]

/-- A sequence of calls on the dispatcher: two registrations, a job, a
difficulty reset, a share, an unregistration of an unknown id. -/
def sampleOps : List (AgentOp Nat) :=
  [AgentOp.handleExMessage frameRegisterB,
   AgentOp.handleExMessage [127, 1, 10, 0, 254, 255, 97, 0, 99, 0],
   AgentOp.handleExMessage frameRegisterMaxId,
   AgentOp.addLocalJob 8,
   AgentOp.resetCurDiff 4,
   AgentOp.setMinDiff 2,
   AgentOp.handleExMessage frameSubmit7,
   AgentOp.removeLocalJob 8,
   AgentOp.handleExMessage [127, 4, 6, 0, 9, 0]]

/-- A miner dispatcher whose miner is at difficulty 4. -/
def minerDispatcherAt4 : StratumMessageMinerDispatcher MockMiner Nat :=
  ⟨⟨[97], [98], 315, 4, 1, []⟩, []⟩

/-- The Ethereum address of the comment on `stripEthAddrFromFullName`. -/
def sampleEthAddr : Bytes := ascii "0x00d8c82Eb65124Ea3452CaC59B64aCC230AA3482"

/-- Stand-ins for the helpers of the Ethereum session: the client agent is
kept as it is and is no NiceHash client, nothing is read by `sscanf`, a
difficulty is 2^256 divided by the target (64 bits kept), a target is 2^256
divided by the difficulty, written with 64 hex digits. -/
def mockEth : EthHelpers where
  setClientAgent := fun agent => (agent, false)
  sscanfHex := fun _ => none
  htonl := fun x => x
  inet_ntop := fun _ => []
  Eth_TargetToDifficulty := fun t => 2 ^ 256 / t % 2 ^ 64
  Eth_DifficultyToTarget := fun d => digitsOf 16 64 (2 ^ 256 / d)
  GetHex := fun t => digitsOf 16 64 t
  nicehashDiffText := fun d => fmtLu d
  newLocalJobDiff := fun _ _ => 0

/-- An ETHPROXY session that is authenticated. -/
def sessionAuthenticated : StratumSessionEth :=
  { StratumSessionEth.init 5162741 with state_ := State.AUTHENTICATED }

/-- The request `eth_submitLogin` with the one parameter `test`. -/
def requestLogin : Request :=
  ⟨[⟨true, ascii "test", 0⟩], ⟨true, ascii "eth_submitLogin", 0⟩, JsonNode.absent⟩

/-- The request `mining.authorize` with the parameters `test.aaa` and `x`. -/
def requestAuthorize : Request :=
  ⟨[⟨true, ascii "test.aaa", 0⟩, ⟨true, ascii "x", 0⟩], ⟨true, ascii "mining.authorize", 0⟩,
    JsonNode.absent⟩

/-- A session that has subscribed in the STRATUM dialect. -/
def sessionSubscribed : StratumSessionEth :=
  { StratumSessionEth.init 5162741 with
    state_ := State.SUBSCRIBED, ethProtocol_ := StratumProtocolEth.STRATUM }

/-- The parameters of a `mining.subscribe` of a NiceHash-Stratum client. -/
def paramsNiceHash : List JsonNode :=
  [⟨true, ascii "miner/1.0", 0⟩, ⟨true, ascii "EthereumStratum/1.0.0", 0⟩]

/-- The header hash of the comment in the ETHPROXY branch, without `0x`. -/
def sampleHeader64 : Bytes :=
  ascii "599fffbc07777d4b6455c0e7ca479c9edbceef6c3fec956fecaaf4f2c727a492"

/-- A seed hash with its prefix `0x`. -/
def sampleSeed66 : Bytes :=
  ascii "0x1261dfe17d0bf58cb2861ae84734488b1463d282b7ee88ccfa18b7a92a7b77f7"

/-- A job whose network target is `target`, with the sample header and seed. -/
def sampleJob (target : Nat) : StratumJobEx :=
  ⟨some ⟨1, ascii "0x" ++ sampleHeader64, sampleSeed66, target, 6000000⟩, true⟩

/-- An authenticated session of the given dialect. -/
def sessionNotify (proto : StratumProtocolEth) : StratumSessionEth :=
  { StratumSessionEth.init 5162741 with state_ := State.AUTHENTICATED, ethProtocol_ := proto }

/-- A job of the sample header and seed as a pair of job and clean flag. -/
def sampleJobPair (target : Nat) : StratumJobEth × Bool :=
  (⟨1, ascii "0x" ++ sampleHeader64, sampleSeed66, target, 6000000⟩, true)

/-- Three jobs, of difficulties 4, 4 and 8 under the stand-in conversion. -/
def sampleJobs : List (StratumJobEth × Bool) :=
  [sampleJobPair (2 ^ 254), sampleJobPair (2 ^ 254), sampleJobPair (2 ^ 253)]

/-- The six header bytes of a REGISTER_WORKER frame of 14 bytes for session id
7. -/
def headerRegister14 : Bytes := [127, 1, 14, 0, 7, 0]

/-- The request `eth_submitLogin` of EthMiner, situation 1: the address as the
one parameter, the worker `test.aaa` at the root. -/
def requestLoginAddr : Request :=
  ⟨[⟨true, sampleEthAddr, 0⟩], ⟨true, ascii "eth_submitLogin", 0⟩, ⟨true, ascii "test.aaa", 0⟩⟩

/-- The request `eth_submitLogin` of EthMiner, situation 2: the parameter
`test`, the worker `aaa` at the root. -/
def requestLoginWorker : Request :=
  ⟨[⟨true, ascii "test", 0⟩], ⟨true, ascii "eth_submitLogin", 0⟩, ⟨true, ascii "aaa", 0⟩⟩

/-- The job of `sampleJob` as a `StratumJobEth`. -/
def sampleEthJob (target : Nat) : StratumJobEth :=
  ⟨1, ascii "0x" ++ sampleHeader64, sampleSeed66, target, 6000000⟩

/-- An authenticated STRATUM session that tracks the sample header at
difficulty 16. -/
def sessionWithLocalJob : StratumSessionEth :=
  { sessionNotify StratumProtocolEth.STRATUM with localJobs_ := [⟨1, sampleHeader64, 16⟩] }

/-- The conversion of a `uint64_t` to `double`, which `log2 (x)` applies to
its integer argument: the value is kept when it has at most 53 significant
bits and is otherwise rounded to 53 significant bits, to the nearest value and
to the even one of two nearest values. -/
def toDouble (n : Nat) : Nat :=
  let top := floorLog2 n
  if top < 53 then n
  else
    let sh := top - 52
    let q := n / 2 ^ sh
    let r := n % 2 ^ sh
    let half := 2 ^ (sh - 1)
    if r > half ∨ (r = half ∧ q % 2 = 1) then (q + 1) * 2 ^ sh else q * 2 ^ sh

/-- The call `log2 (x)` of `addLocalJob` on a `uint64_t` difficulty, as the
`uint8_t` it is stored in: the argument becomes a `double`, and the logarithm
of a power of two is that power exactly. For a `double` that is no power of
two the integer part of its exact logarithm is given; the rounded result of
the library has the same integer part unless the `double` is within rounding
distance below a power of two. -/
def cmathLog2 (n : Nat) : Nat := floorLog2 (toDouble n)

/-- The helpers with the `log2` of the C library. -/
def cmathHelpers : Helpers := { mockHelpers with log2 := cmathLog2 }

/-- A small argument for `getSetDiffCommand`: two exponents, four ids. -/
def sampleDiffMap : List (Nat × List Nat) :=
  [(3, [1, 2, 513]), (9, [65535])]

/-! # Theorems -/

theorem le16_length (n : Nat) : (le16 n).length = 2 := rfl

theorem flatMap_le16_length (xs : List Nat) :
    (xs.flatMap (fun id => le16 id)).length = 2 * xs.length := by
  induction xs with
  | nil => rfl
  | cons x xs ih =>
    rw [List.flatMap_cons, List.length_append, ih, le16_length, List.length_cons]; omega

theorem overlay_same_length (buf bytes : Bytes) (h : bytes.length = buf.length) :
    overlay buf bytes = bytes := by
  unfold overlay
  rw [← h, List.take_length, List.drop_of_length_le (by omega)]
  simp

theorem frameOf_length (c : ExConsts) (e : Nat) (chunk : List Nat) :
    (frameOf c e chunk).length = 7 + 2 * chunk.length := by
  simp only [frameOf, List.length_append, List.length_cons, List.length_nil, le16_length,
    flatMap_le16_length]

theorem take_count_eq (ids : List Nat) :
    ids.take (if ids.length > kMaxCount then kMaxCount else ids.length) = ids.take kMaxCount := by
  split
  · rfl
  · rw [List.take_length, List.take_of_length_le (by omega)]

theorem drop_count_eq (ids : List Nat) :
    ids.drop (if ids.length > kMaxCount then kMaxCount else ids.length) = ids.drop kMaxCount := by
  split
  · rfl
  · rw [List.drop_length, List.drop_of_length_le (by omega)]

theorem take_kMaxCount_length (ids : List Nat) :
    (ids.take kMaxCount).length = if ids.length > kMaxCount then kMaxCount else ids.length := by
  rw [List.length_take]
  split <;> omega

/-- One pass of the loop writes exactly the frame of the next `kMaxCount` ids
(fewer when fewer are left). -/
theorem setDiffBuf_eq_frameOf (c : ExConsts) (e : Nat) (ids : List Nat) :
    setDiffBuf c e ids = frameOf c e (ids.take kMaxCount) := by
  have hlen : (ids.take kMaxCount).length ≤ 32764 := by
    rw [List.length_take]; unfold kMaxCount; omega
  have hcount := take_kMaxCount_length ids
  unfold setDiffBuf
  simp only []
  rw [take_count_eq, ← hcount]
  have hmod : (1 + 1 + 2 + 1 + 2 + (ids.take kMaxCount).length * 2) % 65536
      = 7 + 2 * (ids.take kMaxCount).length := by omega
  rw [hmod]
  exact overlay_same_length _ _ (by
    rw [List.length_replicate]; exact frameOf_length c e _)

theorem setDiffLoop_eq (c : ExConsts) (e : Nat) (fuel : Nat) (ids : List Nat) :
    setDiffLoop c e fuel ids = (splitIds fuel ids).map (frameOf c e) := by
  induction fuel generalizing ids with
  | zero => simp [setDiffLoop, splitIds]
  | succ n ih =>
    cases ids with
    | nil => simp [setDiffLoop, splitIds]
    | cons id ids =>
      simp only [setDiffLoop, splitIds, List.map_cons]
      rw [setDiffBuf_eq_frameOf, drop_count_eq, ih]

theorem setDiffFrames_eq (c : ExConsts) (m : List (Nat × List Nat)) :
    setDiffFrames c m = (chunksOf m).map (fun f => frameOf c f.1 f.2) := by
  induction m with
  | nil => rfl
  | cons p m ih =>
    simp only [setDiffFrames, chunksOf, List.flatMap_cons, List.map_append, List.map_map] at ih ⊢
    rw [ih, setDiffLoop_eq]
    rfl

/-! ## Reading back what was written -/

theorem le16Value_le16 (n : Nat) : le16Value (n % 256) (n / 256 % 256) = n % 65536 := by
  unfold le16Value
  omega

theorem readIds_flatMap_le16 (chunk : List Nat) (rest : Bytes)
    (h : ∀ id ∈ chunk, id < 65536) :
    readIds chunk.length (chunk.flatMap (fun id => le16 id) ++ rest) = chunk := by
  induction chunk with
  | nil => cases rest <;> rfl
  | cons x xs ih =>
    have hx : x < 65536 := h x (List.mem_cons_self _ _)
    have hxs : ∀ id ∈ xs, id < 65536 := fun id hid => h id (List.mem_cons_of_mem _ hid)
    simp only [List.flatMap_cons, le16, List.length_cons, List.cons_append, List.nil_append,
      readIds]
    rw [le16Value_le16, Nat.mod_eq_of_lt hx]
    exact congrArg _ (ih hxs)

theorem drop_flatMap_le16 (chunk : List Nat) (rest : Bytes) :
    (chunk.flatMap (fun id => le16 id) ++ rest).drop (2 * chunk.length) = rest := by
  rw [← flatMap_le16_length chunk, List.drop_left]

theorem parseSetDiffAux_cons (c : ExConsts) (fuel magic cmd l0 l1 e c0 c1 : Nat) (rest : Bytes) :
    parseSetDiffAux c (fuel + 1) (magic :: cmd :: l0 :: l1 :: e :: c0 :: c1 :: rest)
      = if magic = c.CMD_MAGIC_NUMBER % 256 ∧ cmd = c.MINING_SET_DIFF % 256
            ∧ le16Value l0 l1 = 7 + 2 * le16Value c0 c1
            ∧ 2 * le16Value c0 c1 ≤ rest.length then
          (parseSetDiffAux c fuel (rest.drop (2 * le16Value c0 c1))).map
            (fun fs => (e, readIds (le16Value c0 c1) rest) :: fs)
        else none := rfl

/-- The parser reads one written frame back and goes on with what follows. -/
theorem parseSetDiffAux_frameOf (c : ExConsts) (fuel e : Nat) (chunk : List Nat) (rest : Bytes)
    (he : e < 256) (hlen : chunk.length ≤ kMaxCount) (hids : ∀ id ∈ chunk, id < 65536) :
    parseSetDiffAux c (fuel + 1) (frameOf c e chunk ++ rest)
      = (parseSetDiffAux c fuel rest).map (fun fs => (e, chunk) :: fs) := by
  have hk : chunk.length ≤ 32764 := hlen
  have h1 : le16Value ((7 + 2 * chunk.length) % 256) ((7 + 2 * chunk.length) / 256 % 256)
      = 7 + 2 * chunk.length := by
    rw [le16Value_le16]; omega
  have h2 : le16Value (chunk.length % 256) (chunk.length / 256 % 256) = chunk.length := by
    rw [le16Value_le16]; omega
  have hshape : frameOf c e chunk ++ rest
      = c.CMD_MAGIC_NUMBER % 256 :: c.MINING_SET_DIFF % 256
        :: (7 + 2 * chunk.length) % 256 :: (7 + 2 * chunk.length) / 256 % 256
        :: e % 256 :: chunk.length % 256 :: chunk.length / 256 % 256
        :: (chunk.flatMap (fun id => le16 id) ++ rest) := by
    simp [frameOf, le16]
  have hcond : (c.CMD_MAGIC_NUMBER % 256 = c.CMD_MAGIC_NUMBER % 256
      ∧ c.MINING_SET_DIFF % 256 = c.MINING_SET_DIFF % 256
      ∧ 7 + 2 * chunk.length = 7 + 2 * chunk.length
      ∧ 2 * chunk.length ≤ (chunk.flatMap (fun id => le16 id) ++ rest).length) := by
    refine ⟨rfl, rfl, rfl, ?_⟩
    rw [List.length_append, flatMap_le16_length]; omega
  rw [hshape, parseSetDiffAux_cons, h1, h2, Nat.mod_eq_of_lt he, if_pos hcond,
    drop_flatMap_le16, readIds_flatMap_le16 _ _ hids]

theorem parseSetDiffAux_frames (c : ExConsts) (chunks : List (Nat × List Nat))
    (hgood : ∀ f ∈ chunks, GoodChunk f) (fuel : Nat) (hfuel : chunks.length ≤ fuel) :
    parseSetDiffAux c fuel ((chunks.map (fun f => frameOf c f.1 f.2)).flatten) = some chunks := by
  induction chunks generalizing fuel with
  | nil => cases fuel <;> rfl
  | cons f fs ih =>
    obtain ⟨he, hlen, hids⟩ := hgood f (List.mem_cons_self _ _)
    cases fuel with
    | zero => simp at hfuel
    | succ n =>
      rw [List.map_cons, List.flatten_cons, parseSetDiffAux_frameOf c n f.1 f.2 _ he hlen hids,
        ih (fun g hg => hgood g (List.mem_cons_of_mem _ hg)) n (by simpa using hfuel)]
      rfl

/-! ## How a vector is cut into frames -/

theorem splitIds_nil (fuel : Nat) : splitIds fuel [] = [] := by
  cases fuel <;> rfl

theorem splitIds_flatten (fuel : Nat) (ids : List Nat) (h : ids.length ≤ fuel) :
    (splitIds fuel ids).flatten = ids := by
  induction fuel generalizing ids with
  | zero =>
    have : ids = [] := List.length_eq_zero.mp (by omega)
    subst this; rfl
  | succ n ih =>
    cases ids with
    | nil => rfl
    | cons id ids =>
      have hk : 0 < kMaxCount := by decide
      have hdrop : ((id :: ids).drop kMaxCount).length ≤ n := by
        rw [List.length_drop]; simp only [List.length_cons] at h ⊢; omega
      simp only [splitIds, List.flatten_cons]
      rw [ih _ hdrop, List.take_append_drop]

theorem splitIds_mem (fuel : Nat) (ids ch : List Nat) (h : ch ∈ splitIds fuel ids) :
    ch.length ≤ kMaxCount ∧ 0 < ch.length ∧ ∀ id ∈ ch, id ∈ ids := by
  induction fuel generalizing ids with
  | zero => simp [splitIds] at h
  | succ n ih =>
    cases ids with
    | nil => simp [splitIds] at h
    | cons id ids =>
      simp only [splitIds, List.mem_cons] at h
      rcases h with h | h
      · subst h
        refine ⟨by rw [List.length_take]; omega, ?_, fun x hx => List.mem_of_mem_take hx⟩
        rw [List.length_take]
        have hk : 0 < kMaxCount := by decide
        simp only [List.length_cons]; omega
      · obtain ⟨h1, h2, h3⟩ := ih _ h
        exact ⟨h1, h2, fun x hx => List.mem_of_mem_drop (h3 x hx)⟩

/-- The sizes of the pieces: full pieces of `kMaxCount` ids, then the
remainder when there is one. -/
theorem splitIds_lengths (fuel : Nat) (ids : List Nat) (h : ids.length ≤ fuel) :
    (splitIds fuel ids).map List.length
      = List.replicate (ids.length / kMaxCount) kMaxCount
        ++ (if ids.length % kMaxCount = 0 then [] else [ids.length % kMaxCount]) := by
  induction fuel generalizing ids with
  | zero =>
    have : ids = [] := List.length_eq_zero.mp (by omega)
    subst this; simp [splitIds]
  | succ n ih =>
    cases ids with
    | nil => simp [splitIds]
    | cons id ids =>
      have hdrop : ((id :: ids).drop kMaxCount).length ≤ n := by
        rw [List.length_drop]; simp only [List.length_cons] at h ⊢
        unfold kMaxCount; omega
      simp only [splitIds, List.map_cons]
      rw [ih _ hdrop, List.length_take, List.length_drop]
      generalize hL : (id :: ids).length = L
      have hLpos : 0 < L := by rw [← hL]; simp
      unfold kMaxCount
      by_cases hbig : 32764 ≤ L
      · have h1 : min 32764 L = 32764 := by omega
        have h2 : L / 32764 = (L - 32764) / 32764 + 1 := by omega
        have h3 : (L - 32764) % 32764 = L % 32764 := by omega
        rw [h1, h2, h3, List.replicate_succ, List.cons_append]
      · have h1 : min 32764 L = L := by omega
        have h2 : L / 32764 = 0 := by omega
        have h3 : L - 32764 = 0 := by omega
        have h4 : L % 32764 = L := by omega
        have h5 : L ≠ 0 := by omega
        rw [h1, h2, h3, h4]
        simp [h5]

theorem chunksOf_cons (p : Nat × List Nat) (m : List (Nat × List Nat)) :
    chunksOf (p :: m) = (splitIds p.2.length p.2).map (fun ch => (p.1, ch)) ++ chunksOf m := by
  simp [chunksOf, List.flatMap_cons]

theorem chunksOf_good (m : List (Nat × List Nat))
    (h : ∀ p ∈ m, p.1 < 256 ∧ ∀ id ∈ p.2, id < 65536) :
    ∀ f ∈ chunksOf m, GoodChunk f := by
  intro f hf
  simp only [chunksOf, List.mem_flatMap, List.mem_map] at hf
  obtain ⟨p, hp, ch, hch, rfl⟩ := hf
  obtain ⟨h1, _, h3⟩ := splitIds_mem _ _ _ hch
  exact ⟨(h p hp).1, h1, fun id hid => (h p hp).2 id (h3 id hid)⟩

theorem filter_key_map_eq (e : Nat) (chs : List (List Nat)) :
    (chs.map (fun ch => (e, ch))).filter (fun f => f.1 == e) = chs.map (fun ch => (e, ch)) := by
  induction chs with
  | nil => rfl
  | cons ch chs ih => simp [List.filter_cons, ih]

theorem filter_key_map_ne (k e : Nat) (hne : k ≠ e) (chs : List (List Nat)) :
    (chs.map (fun ch => (k, ch))).filter (fun f => f.1 == e) = [] := by
  induction chs with
  | nil => rfl
  | cons ch chs ih => simp [List.filter_cons, ih, hne]

/-- The frames that carry exponent `e` are the pieces of the vectors stored
under `e`, in map order. -/
theorem filter_chunksOf (m : List (Nat × List Nat)) (e : Nat) :
    (chunksOf m).filter (fun f => f.1 == e)
      = (m.filter (fun p => p.1 == e)).flatMap
          (fun p => (splitIds p.2.length p.2).map (fun ch => (e, ch))) := by
  induction m with
  | nil => rfl
  | cons p m ih =>
    rw [chunksOf_cons, List.filter_append, ih]
    by_cases hpe : p.1 = e
    · rw [List.filter_cons_of_pos (by simp [hpe]), List.flatMap_cons, hpe, filter_key_map_eq]
    · rw [List.filter_cons_of_neg (by simp [hpe]), filter_key_map_ne _ _ hpe, List.nil_append]

theorem filter_key_of_pairwise (m : List (Nat × List Nat))
    (hp : m.Pairwise (fun p q => p.1 < q.1)) (p : Nat × List Nat) (hmem : p ∈ m) :
    m.filter (fun q => q.1 == p.1) = [p] := by
  induction m with
  | nil => simp at hmem
  | cons q m ih =>
    rw [List.pairwise_cons] at hp
    rcases List.mem_cons.mp hmem with h | h
    · subst h
      rw [List.filter_cons_of_pos (by simp)]
      congr 1
      apply List.filter_eq_nil_iff.mpr
      intro r hr
      have := hp.1 r hr
      simp only [beq_iff_eq]; omega
    · have hlt := hp.1 p h
      rw [List.filter_cons_of_neg (by simp only [beq_iff_eq]; omega)]
      exact ih hp.2 h

theorem filter_key_of_absent (m : List (Nat × List Nat)) (e : Nat)
    (h : ∀ p ∈ m, p.1 ≠ e) : m.filter (fun q => q.1 == e) = [] := by
  apply List.filter_eq_nil_iff.mpr
  intro r hr
  simpa using h r hr

theorem idsAt_of_mem (m : List (Nat × List Nat))
    (hp : m.Pairwise (fun p q => p.1 < q.1)) (p : Nat × List Nat) (hmem : p ∈ m) :
    idsAt m p.1 = p.2 := by
  induction m with
  | nil => simp at hmem
  | cons q m ih =>
    rw [List.pairwise_cons] at hp
    rcases List.mem_cons.mp hmem with h | h
    · subst h
      simp [idsAt, List.find?_cons]
    · have hlt := hp.1 p h
      have hne : (q.1 == p.1) = false := by simp only [beq_eq_false_iff_ne, ne_eq]; omega
      have := ih hp.2 h
      simp only [idsAt, List.find?_cons, hne] at this ⊢
      exact this

theorem idsAt_of_absent (m : List (Nat × List Nat)) (e : Nat)
    (h : ∀ p ∈ m, p.1 ≠ e) : idsAt m e = [] := by
  have : m.find? (fun p => p.1 == e) = none := by
    apply List.find?_eq_none.mpr
    intro r hr
    simpa using h r hr
  simp [idsAt, this]

theorem flatMap_snd_map_pair (e : Nat) (chs : List (List Nat)) :
    (chs.map (fun ch => (e, ch))).flatMap (fun f => f.2) = chs.flatten := by
  induction chs with
  | nil => rfl
  | cons ch chs ih => simp [List.flatMap_cons, ih]

/-- Joined per exponent, the pieces give back the vector of that exponent. -/
theorem idsUnder_chunksOf (m : List (Nat × List Nat))
    (hp : m.Pairwise (fun p q => p.1 < q.1)) (e : Nat) :
    idsUnder (chunksOf m) e = idsAt m e := by
  unfold idsUnder
  rw [filter_chunksOf]
  by_cases hex : ∃ p ∈ m, p.1 = e
  · obtain ⟨p, hmem, rfl⟩ := hex
    rw [filter_key_of_pairwise m hp p hmem, idsAt_of_mem m hp p hmem]
    simp only [List.flatMap_cons, List.flatMap_nil, List.append_nil]
    rw [flatMap_snd_map_pair, splitIds_flatten _ _ (Nat.le_refl _)]
  · have habs : ∀ p ∈ m, p.1 ≠ e := fun p hmem hpe => hex ⟨p, hmem, hpe⟩
    rw [filter_key_of_absent m e habs, idsAt_of_absent m e habs]
    rfl

theorem countsUnder_chunksOf (m : List (Nat × List Nat))
    (hp : m.Pairwise (fun p q => p.1 < q.1)) (p : Nat × List Nat) (hmem : p ∈ m) :
    countsUnder (chunksOf m) p.1
      = List.replicate (p.2.length / kMaxCount) kMaxCount
        ++ (if p.2.length % kMaxCount = 0 then [] else [p.2.length % kMaxCount]) := by
  unfold countsUnder
  rw [filter_chunksOf, filter_key_of_pairwise m hp p hmem]
  simp only [List.flatMap_cons, List.flatMap_nil, List.append_nil, List.map_map]
  rw [← splitIds_lengths _ _ (Nat.le_refl _)]
  rfl

theorem flatten_length_ge (frames : List Bytes) (h : ∀ f ∈ frames, 0 < f.length) :
    frames.length ≤ frames.flatten.length := by
  induction frames with
  | nil => simp
  | cons f fs ih =>
    have h1 := h f (List.mem_cons_self _ _)
    have h2 := ih (fun g hg => h g (List.mem_cons_of_mem _ hg))
    simp only [List.flatten_cons, List.length_append, List.length_cons]
    omega

/-- The output of `getSetDiffCommand` parses, for every well-formed argument,
into the pieces of its vectors. -/
theorem parseSetDiff_getSetDiffCommand (c : ExConsts) (m : List (Nat × List Nat))
    (h : ∀ p ∈ m, p.1 < 256 ∧ ∀ id ∈ p.2, id < 65536) :
    parseSetDiff c (getSetDiffCommand c m) = some (chunksOf m) := by
  unfold parseSetDiff getSetDiffCommand
  rw [setDiffFrames_eq]
  apply parseSetDiffAux_frames c _ (chunksOf_good m h)
  have := flatten_length_ge ((chunksOf m).map (fun f => frameOf c f.1 f.2)) (by
    intro f hf
    obtain ⟨g, _, rfl⟩ := List.mem_map.mp hf
    rw [frameOf_length]; omega)
  simpa using this

theorem sampleDiffMap_isDiffMap : IsDiffMap sampleDiffMap := by
  unfold IsDiffMap sampleDiffMap
  decide

/-! ## SET_DIFF encoder: the claims -/

/-- C1. SET_DIFF round trip: for every map from 8-bit exponents to lists of
16-bit session ids, the bytes produced by `getSetDiffCommand` parse as a
sequence of SET_DIFF frames, and the ids of the frames of each exponent,
joined in order, are exactly the input list of that exponent (the empty list
for an exponent that is no key of the map). Nothing bounds the length of a
list, so lists longer than one frame are covered. -/
theorem getSetDiffCommand_round_trip (c : ExConsts) (m : List (Nat × List Nat))
    (h : IsDiffMap m) :
    ∃ frames, parseSetDiff c (getSetDiffCommand c m) = some frames
      ∧ ∀ e, idsUnder frames e = idsAt m e :=
  ⟨chunksOf m, parseSetDiff_getSetDiffCommand c m h.2, idsUnder_chunksOf m h.1⟩

theorem getSetDiffCommand_round_trip_witness :
    IsDiffMap sampleDiffMap
      ∧ ∃ frames, parseSetDiff testConsts (getSetDiffCommand testConsts sampleDiffMap) = some frames
        ∧ ∀ e, idsUnder frames e = idsAt sampleDiffMap e :=
  ⟨sampleDiffMap_isDiffMap,
    getSetDiffCommand_round_trip testConsts sampleDiffMap sampleDiffMap_isDiffMap⟩

/-- C2. SET_DIFF splitting is minimal: the strings appended by
`getSetDiffCommand` are exactly the frames its output parses into; for every
entry `(e, ids)` of the map the frames of `e` carry 32764 ids each,
`ids.length / 32764` times, followed by one frame with the remainder when the
remainder is not zero, which makes `ceil (ids.length / 32764)` frames; an
empty list gives no frame, 40,000 ids give frames of 32764 and 7236 ids, and
the empty map gives the empty output. -/
theorem getSetDiffCommand_split_minimal (c : ExConsts) (m : List (Nat × List Nat))
    (h : IsDiffMap m) :
    ∃ frames, parseSetDiff c (getSetDiffCommand c m) = some frames
      ∧ setDiffFrames c m = frames.map (fun f => frameOf c f.1 f.2)
      ∧ (∀ e ids, (e, ids) ∈ m →
          countsUnder frames e
              = List.replicate (ids.length / 32764) 32764
                ++ (if ids.length % 32764 = 0 then [] else [ids.length % 32764])
          ∧ (countsUnder frames e).length = (ids.length + 32763) / 32764
          ∧ (ids = [] → countsUnder frames e = [])
          ∧ (ids.length = 40000 → countsUnder frames e = [32764, 7236]))
      ∧ getSetDiffCommand c [] = [] := by
  refine ⟨chunksOf m, parseSetDiff_getSetDiffCommand c m h.2, setDiffFrames_eq c m, ?_, rfl⟩
  intro e ids hmem
  have hc := countsUnder_chunksOf m h.1 (e, ids) hmem
  simp only [kMaxCount] at hc
  refine ⟨hc, ?_, ?_, ?_⟩
  · rw [hc, List.length_append, List.length_replicate]
    split <;> simp only [List.length_nil, List.length_cons] <;> omega
  · intro hnil
    rw [hc, hnil]
    simp
  · intro hlen
    rw [hc, hlen]
    simp

theorem getSetDiffCommand_split_minimal_witness :
    IsDiffMap sampleDiffMap
      ∧ ∃ frames, parseSetDiff testConsts (getSetDiffCommand testConsts sampleDiffMap) = some frames
        ∧ setDiffFrames testConsts sampleDiffMap = frames.map (fun f => frameOf testConsts f.1 f.2)
        ∧ (∀ e ids, (e, ids) ∈ sampleDiffMap →
            countsUnder frames e
                = List.replicate (ids.length / 32764) 32764
                  ++ (if ids.length % 32764 = 0 then [] else [ids.length % 32764])
            ∧ (countsUnder frames e).length = (ids.length + 32763) / 32764
            ∧ (ids = [] → countsUnder frames e = [])
            ∧ (ids.length = 40000 → countsUnder frames e = [32764, 7236]))
        ∧ getSetDiffCommand testConsts [] = [] :=
  ⟨sampleDiffMap_isDiffMap,
    getSetDiffCommand_split_minimal testConsts sampleDiffMap sampleDiffMap_isDiffMap⟩

/-- C3. Frame length: every string appended by `getSetDiffCommand`, for every
argument, lists `count <= 32764` ids, has `7 + 2 * count` bytes, which is at
most 65535, and carries that byte count in its length field (bytes 2..3) and
`count` in its count field (bytes 5..6); the 16-bit computation of the length
does not wrap. -/
theorem getSetDiffCommand_frame_length (c : ExConsts) (m : List (Nat × List Nat)) (buf : Bytes)
    (hbuf : buf ∈ setDiffFrames c m) :
    ∃ count, count ≤ 32764
      ∧ buf.length = 7 + 2 * count
      ∧ buf.length ≤ 65535
      ∧ (1 + 1 + 2 + 1 + 2 + count * 2) % 65536 = 1 + 1 + 2 + 1 + 2 + count * 2
      ∧ le16Value (buf.getD 2 0) (buf.getD 3 0) = buf.length
      ∧ le16Value (buf.getD 5 0) (buf.getD 6 0) = count := by
  rw [setDiffFrames_eq] at hbuf
  obtain ⟨f, hf, rfl⟩ := List.mem_map.mp hbuf
  simp only [chunksOf, List.mem_flatMap, List.mem_map] at hf
  obtain ⟨p, _, ch, hch, rfl⟩ := hf
  have hk : ch.length ≤ 32764 := (splitIds_mem _ _ _ hch).1
  dsimp only
  refine ⟨ch.length, hk, frameOf_length c _ ch, ?_, by omega, ?_, ?_⟩
  · rw [frameOf_length]; omega
  · rw [frameOf_length]
    simp only [frameOf, le16, List.cons_append, List.nil_append, List.getD_cons_succ,
      List.getD_cons_zero]
    rw [le16Value_le16]; omega
  · simp only [frameOf, le16, List.cons_append, List.nil_append, List.getD_cons_succ,
      List.getD_cons_zero]
    rw [le16Value_le16]; omega

theorem getSetDiffCommand_frame_length_witness :
    [127, 5, 9, 0, 9, 1, 0, 255, 255] ∈ setDiffFrames testConsts sampleDiffMap
      ∧ ∃ count, count ≤ 32764
        ∧ [127, 5, 9, 0, 9, 1, 0, 255, 255].length = 7 + 2 * count
        ∧ [127, 5, 9, 0, 9, 1, 0, 255, 255].length ≤ 65535
        ∧ (1 + 1 + 2 + 1 + 2 + count * 2) % 65536 = 1 + 1 + 2 + 1 + 2 + count * 2
        ∧ le16Value (([127, 5, 9, 0, 9, 1, 0, 255, 255] : Bytes).getD 2 0)
            (([127, 5, 9, 0, 9, 1, 0, 255, 255] : Bytes).getD 3 0)
          = [127, 5, 9, 0, 9, 1, 0, 255, 255].length
        ∧ le16Value (([127, 5, 9, 0, 9, 1, 0, 255, 255] : Bytes).getD 5 0)
            (([127, 5, 9, 0, 9, 1, 0, 255, 255] : Bytes).getD 6 0) = count :=
  ⟨by decide, getSetDiffCommand_frame_length testConsts sampleDiffMap _ (by decide)⟩


/-- The case of 40,000 ids under one exponent: the output parses into frames
that list the ids in order, in two frames of 32764 and 7236 ids. -/
theorem getSetDiffCommand_forty_thousand (c : ExConsts) (e : Nat) (ids : List Nat)
    (he : e < 256) (hlen : ids.length = 40000) (hids : ∀ id ∈ ids, id < 65536) :
    ∃ frames, parseSetDiff c (getSetDiffCommand c [(e, ids)]) = some frames
      ∧ idsUnder frames e = ids
      ∧ countsUnder frames e = [32764, 7236] := by
  have hsorted : ([(e, ids)] : List (Nat × List Nat)).Pairwise
      (fun p q => p.1 < q.1) := List.pairwise_singleton _ _
  have hbound : ∀ p ∈ ([(e, ids)] : List (Nat × List Nat)),
      p.1 < 256 ∧ ∀ id ∈ p.2, id < 65536 := by
    intro p hp
    rw [List.mem_singleton.mp hp]
    exact ⟨he, hids⟩
  have hmem : (e, ids) ∈ ([(e, ids)] : List (Nat × List Nat)) :=
    List.mem_singleton.mpr rfl
  refine ⟨_, parseSetDiff_getSetDiffCommand c _ hbound, ?_, ?_⟩
  · rw [idsUnder_chunksOf _ hsorted]
    exact idsAt_of_mem _ hsorted (e, ids) hmem
  · have hc := countsUnder_chunksOf _ hsorted (e, ids) hmem
    simp only [hlen, kMaxCount] at hc
    rw [hc]
    simp

/-! ## The miner table -/

theorem mapFind_nil {α : Type} (k : Nat) : mapFind ([] : List (Nat × α)) k = none := rfl

theorem mapFind_cons {α : Type} (p : Nat × α) (m : List (Nat × α)) (k : Nat) :
    mapFind (p :: m) k = if p.1 = k then some p.2 else mapFind m k := by
  unfold mapFind
  rw [List.find?_cons]
  by_cases hk : p.1 = k
  · simp [hk]
  · have : (p.1 == k) = false := by simpa using hk
    simp [hk, this]

theorem mapFind_eq_none_iff {α : Type} (m : List (Nat × α)) (k : Nat) :
    mapFind m k = none ↔ ∀ p ∈ m, p.1 ≠ k := by
  induction m with
  | nil => simp [mapFind_nil]
  | cons p m ih =>
    rw [mapFind_cons]
    by_cases hk : p.1 = k
    · simp [hk]
    · simp [hk, ih]

/-- When the key is free, `emplace` stores the value under it. -/
theorem mapFind_mapEmplace_of_absent {α : Type} (m : List (Nat × α)) (k : Nat) (v : α)
    (h : mapFind m k = none) : mapFind (mapEmplace k v m) k = some v := by
  induction m with
  | nil => simp [mapEmplace, mapFind_cons]
  | cons p m ih =>
    rw [mapFind_cons] at h
    by_cases hk : p.1 = k
    · simp [hk] at h
    · rw [if_neg hk] at h
      unfold mapEmplace
      by_cases hlt : k < p.1
      · simp [hlt, mapFind_cons]
      · have hne : ¬ k = p.1 := fun e => hk e.symm
        simp only [hlt, hne, if_false]
        rw [mapFind_cons, if_neg hk]
        exact ih h

/-- When the key is taken, `emplace` leaves the map as it is. -/
theorem mapEmplace_of_present {α : Type} (m : List (Nat × α)) (k : Nat) (v v0 : α)
    (hsorted : m.Pairwise (fun p q => p.1 < q.1)) (h : mapFind m k = some v0) :
    mapEmplace k v m = m := by
  induction m with
  | nil => simp [mapFind_nil] at h
  | cons p m ih =>
    rw [List.pairwise_cons] at hsorted
    rw [mapFind_cons] at h
    unfold mapEmplace
    by_cases hk : p.1 = k
    · have h1 : ¬ k < p.1 := by omega
      simp [h1, hk.symm]
    · rw [if_neg hk] at h
      have hmem : ∃ q ∈ m, q.1 = k := by
        by_contra hno
        have : mapFind m k = none :=
          (mapFind_eq_none_iff m k).mpr (fun q hq hqk => hno ⟨q, hq, hqk⟩)
        rw [this] at h
        cases h
      obtain ⟨q, hq, hqk⟩ := hmem
      have hlt := hsorted.1 q hq
      have h1 : ¬ k < p.1 := by omega
      have h2 : ¬ k = p.1 := fun e => hk e.symm
      simp only [h1, h2, if_false]
      rw [ih hsorted.2 h]

theorem mapFind_mapUpdate {α : Type} (m : List (Nat × α)) (k : Nat) (f : α → α) :
    mapFind (mapUpdate k f m) k = (mapFind m k).map f := by
  induction m with
  | nil => rfl
  | cons p m ih =>
    unfold mapUpdate
    by_cases hk : p.1 = k
    · simp [hk, mapFind_cons]
    · simp [hk, mapFind_cons, ih]

theorem mapFind_mapErase_self {α : Type} (m : List (Nat × α)) (k : Nat) :
    mapFind (mapErase k m) k = none := by
  rw [mapFind_eq_none_iff]
  intro p hp
  unfold mapErase at hp
  have := (List.mem_filter.mp hp).2
  simpa using this

theorem mapErase_eq_self_iff {α : Type} (m : List (Nat × α)) (k : Nat) :
    mapErase k m = m ↔ mapFind m k = none := by
  rw [mapFind_eq_none_iff]
  unfold mapErase
  rw [List.filter_eq_self]
  constructor
  · intro h p hp; simpa using h p hp
  · intro h p hp; simpa using h p hp

/-- A second `registerWorker` for a session id that is in the table leaves the
table as it is, and still reports the new worker to the session. -/
theorem registerWorker_of_present {M Job : Type} (env : Collab M Job) (d : StratumMessageAgentDispatcher M)
    (sessionId : Nat) (clientAgent workerName : Bytes) (workerId : Int) (old : M)
    (htable : IsMinerTable d.miners_) (h : mapFind d.miners_ (sessionId % 65536) = some old) :
    (registerWorker env d sessionId clientAgent workerName workerId).miners_ = d.miners_
      ∧ (registerWorker env d sessionId clientAgent workerName workerId).calls
        = d.calls ++ [SessionCall.createMiner clientAgent workerName workerId,
            SessionCall.addWorker clientAgent workerName workerId] :=
  ⟨mapEmplace_of_present d.miners_ _ _ old htable.1 h, rfl⟩

/-- A `registerWorker` for a session id that is not in the table stores the
miner created by this call under it. -/
theorem registerWorker_of_absent {M Job : Type} (env : Collab M Job) (d : StratumMessageAgentDispatcher M)
    (sessionId : Nat) (clientAgent workerName : Bytes) (workerId : Int)
    (h : mapFind d.miners_ (sessionId % 65536) = none) :
    mapFind (registerWorker env d sessionId clientAgent workerName workerId).miners_
        (sessionId % 65536)
      = some (env.createMiner clientAgent workerName workerId) :=
  mapFind_mapEmplace_of_absent d.miners_ _ _ h

/-- C4, at the failing input. A second `registerWorker` for session id 7 does
not replace the miner: the table still maps 7 to the miner of the first call
(worker id 315), not to the miner created by the second call (worker id 316),
although `createMiner` and `addWorker` were called for the second worker; a
following `setMinDiff` reaches the first miner. -/
theorem registerWorker_second_call_keeps_first_miner :
    mapFind agentAfterC.miners_ 7 = some (mockEnv.createMiner [97] [98] 315)
      ∧ mapFind agentAfterC.miners_ 7 ≠ some (mockEnv.createMiner [97] [99] 316)
      ∧ agentAfterC.calls
        = [SessionCall.createMiner [97] [98] 315, SessionCall.addWorker [97] [98] 315,
           SessionCall.createMiner [97] [99] 316, SessionCall.addWorker [97] [99] 316]
      ∧ (setMinDiff mockEnv agentAfterC 1024).miners_
        = [(7, ⟨[97], [98], 315, 1, 1024, []⟩)] := by
  decide

/-! ## `handleExMessage`: which handler runs -/

theorem le16Value_lt (lo hi : Nat) : le16Value lo hi < 65536 := by
  unfold le16Value; omega

theorem sessionIdField_lt (exMessage : Bytes) : sessionIdField exMessage < 65536 :=
  le16Value_lt _ _

theorem handleExMessage_of_register {M Job : Type} (c : ExConsts) (h : Helpers)
    (env : Collab M Job) (d : StratumMessageAgentDispatcher M) (exMessage : Bytes)
    (hvalid : ValidFrame exMessage) (hcmd : commandOf exMessage = c.CMD_REGISTER_WORKER) :
    handleExMessage c h env d exMessage
      = some (handleExMessage_RegisterWorker c h env d exMessage) := by
  obtain ⟨h4, hlen⟩ := hvalid
  unfold commandOf at hcmd
  unfold handleExMessage
  rw [if_neg (by omega)]
  simp only []
  rw [if_neg (by omega), if_pos hcmd]

theorem handleExMessage_of_unregister {M Job : Type} (c : ExConsts) (h : Helpers)
    (env : Collab M Job) (d : StratumMessageAgentDispatcher M) (exMessage : Bytes) (hdist : c.Distinct)
    (hvalid : ValidFrame exMessage) (hcmd : commandOf exMessage = c.CMD_UNREGISTER_WORKER) :
    handleExMessage c h env d exMessage
      = some (handleExMessage_UnregisterWorker d exMessage) := by
  obtain ⟨h4, hlen⟩ := hvalid
  unfold commandOf at hcmd
  have hne : ¬ exMessage.getD 1 0 % 256 = c.CMD_REGISTER_WORKER := by
    rw [hcmd]; exact fun e => hdist.1 e.symm
  unfold handleExMessage
  rw [if_neg (by omega)]
  simp only []
  rw [if_neg (by omega), if_neg hne, if_pos hcmd]

theorem handleExMessage_of_submit {M Job : Type} (c : ExConsts) (h : Helpers)
    (env : Collab M Job) (d : StratumMessageAgentDispatcher M) (exMessage : Bytes) (hdist : c.Distinct)
    (hvalid : ValidFrame exMessage)
    (hcmd : commandOf exMessage = c.CMD_SUBMIT_SHARE
      ∨ commandOf exMessage = c.CMD_SUBMIT_SHARE_WITH_TIME) :
    handleExMessage c h env d exMessage
      = some (handleExMessage_SessionSpecific env d exMessage) := by
  obtain ⟨h4, hlen⟩ := hvalid
  obtain ⟨d1, d2, d3, d4, d5, _⟩ := hdist
  unfold commandOf at hcmd
  have hne1 : ¬ exMessage.getD 1 0 % 256 = c.CMD_REGISTER_WORKER := by
    rcases hcmd with e | e <;> rw [e] <;> intro e2
    · exact d2 e2.symm
    · exact d3 e2.symm
  have hne2 : ¬ exMessage.getD 1 0 % 256 = c.CMD_UNREGISTER_WORKER := by
    rcases hcmd with e | e <;> rw [e] <;> intro e2
    · exact d4 e2.symm
    · exact d5 e2.symm
  unfold handleExMessage
  rw [if_neg (by omega)]
  simp only []
  rw [if_neg (by omega), if_neg hne1, if_neg hne2, if_pos hcmd]

theorem testConsts_distinct : testConsts.Distinct := by
  unfold ExConsts.Distinct testConsts
  decide

theorem mapFind_mapErase_of_ne {α : Type} (m : List (Nat × α)) (k k0 : Nat) (hne : k0 ≠ k) :
    mapFind (mapErase k m) k0 = mapFind m k0 := by
  induction m with
  | nil => rfl
  | cons p m ih =>
    unfold mapErase at ih ⊢
    by_cases hk : p.1 = k
    · have hk0 : ¬ p.1 = k0 := by omega
      rw [List.filter_cons_of_neg (by simp [hk]), ih, mapFind_cons, if_neg hk0]
    · rw [List.filter_cons_of_pos (by simpa using hk), mapFind_cons, mapFind_cons, ih]

/-! ## Registration frames -/

/-- C5, at the failing input. After a REGISTER_WORKER frame for session id 7
and worker `b`, a second REGISTER_WORKER frame for session id 7 and worker `c`
is accepted (the session is told of worker `c`, worker id 316), and the
SUBMIT_SHARE frame that follows for session id 7 is delivered to the miner of
worker `b` (worker id 315), not to a miner whose worker id is that of `c`. -/
theorem submit_after_second_register_reaches_first_worker :
    ((handleExMessage testConsts mockHelpers mockEnv (StratumMessageAgentDispatcher.init MockMiner)
          frameRegisterB).bind
        (fun d => handleExMessage testConsts mockHelpers mockEnv d frameRegisterC)).bind
        (fun d => handleExMessage testConsts mockHelpers mockEnv d frameSubmit7)
      = some ⟨[(7, ⟨[97], [98], 315, 1, 1, [frameSubmit7]⟩)],
          [SessionCall.createMiner [97] [98] 315, SessionCall.addWorker [97] [98] 315,
           SessionCall.createMiner [97] [99] 316, SessionCall.addWorker [97] [99] 316,
           SessionCall.decodeSessionId frameSubmit7]⟩
      ∧ sessionIdField frameRegisterC = 7
      ∧ mockEnv.decodeSessionId frameSubmit7 = 7
      ∧ workerNameOf mockHelpers frameRegisterC = [99]
      ∧ mockHelpers.calcWorkerId (workerNameOf mockHelpers frameRegisterC) = 316 := by
  decide

/-- A REGISTER_WORKER frame that is accepted for a session id not in the table,
followed by a SUBMIT_SHARE frame for that session id: the frame is handed to
the miner created with the worker id of the parsed worker name. -/
theorem submit_after_register_of_absent {M Job : Type} (c : ExConsts) (h : Helpers)
    (env : Collab M Job) (d : StratumMessageAgentDispatcher M) (reg sub : Bytes) (hdist : c.Distinct)
    (hreg : ValidFrame reg) (hregcmd : commandOf reg = c.CMD_REGISTER_WORKER)
    (hsize : 8 ≤ reg.length ∧ reg.length ≤ 100)
    (hsid : sessionIdField reg ≤ c.AGENT_MAX_SESSION_ID)
    (hfresh : mapFind d.miners_ (sessionIdField reg) = none)
    (hsub : ValidFrame sub)
    (hsubcmd : commandOf sub = c.CMD_SUBMIT_SHARE ∨ commandOf sub = c.CMD_SUBMIT_SHARE_WITH_TIME)
    (hto : env.decodeSessionId sub = sessionIdField reg) :
    ∃ d1 d2, handleExMessage c h env d reg = some d1
      ∧ handleExMessage c h env d1 sub = some d2
      ∧ mapFind d1.miners_ (sessionIdField reg)
        = some (env.createMiner (clientAgentOf h reg) (workerNameOf h reg)
            (h.calcWorkerId (workerNameOf h reg)))
      ∧ mapFind d2.miners_ (sessionIdField reg)
        = some (env.minerHandleExMessage
            (env.createMiner (clientAgentOf h reg) (workerNameOf h reg)
              (h.calcWorkerId (workerNameOf h reg))) sub) := by
  have hmod : sessionIdField reg % 65536 = sessionIdField reg :=
    Nat.mod_eq_of_lt (sessionIdField_lt reg)
  have hd1 : handleExMessage_RegisterWorker c h env d reg
      = registerWorker env d (sessionIdField reg) (clientAgentOf h reg) (workerNameOf h reg)
          (h.calcWorkerId (workerNameOf h reg)) := by
    unfold handleExMessage_RegisterWorker
    rw [if_neg (by omega)]
    simp only []
    rw [if_neg (by omega)]
  have hfind := registerWorker_of_absent env d (sessionIdField reg) (clientAgentOf h reg)
    (workerNameOf h reg) (h.calcWorkerId (workerNameOf h reg)) (by rw [hmod]; exact hfresh)
  rw [hmod] at hfind
  refine ⟨_, _, handleExMessage_of_register c h env d reg hreg hregcmd,
    handleExMessage_of_submit c h env _ sub hdist hsub hsubcmd, ?_, ?_⟩
  · rw [hd1]; exact hfind
  · unfold handleExMessage_SessionSpecific
    simp only []
    rw [hto, hmod, mapFind_mapUpdate, hd1, hfind]
    rfl

theorem submit_after_register_of_absent_witness :
    ∃ d1 d2, handleExMessage testConsts mockHelpers mockEnv (StratumMessageAgentDispatcher.init MockMiner)
          frameRegisterB = some d1
      ∧ handleExMessage testConsts mockHelpers mockEnv d1 frameSubmit7 = some d2
      ∧ mapFind d1.miners_ (sessionIdField frameRegisterB)
        = some (mockEnv.createMiner (clientAgentOf mockHelpers frameRegisterB)
            (workerNameOf mockHelpers frameRegisterB)
            (mockHelpers.calcWorkerId (workerNameOf mockHelpers frameRegisterB)))
      ∧ mapFind d2.miners_ (sessionIdField frameRegisterB)
        = some (mockEnv.minerHandleExMessage
            (mockEnv.createMiner (clientAgentOf mockHelpers frameRegisterB)
              (workerNameOf mockHelpers frameRegisterB)
              (mockHelpers.calcWorkerId (workerNameOf mockHelpers frameRegisterB)))
            frameSubmit7) :=
  submit_after_register_of_absent testConsts mockHelpers mockEnv (StratumMessageAgentDispatcher.init MockMiner)
    frameRegisterB frameSubmit7 testConsts_distinct (by decide) (by decide) (by decide)
    (by decide) (by decide) (by decide) (by decide) (by decide)

/-- C8. A REGISTER_WORKER frame of fewer than 8 or more than 100 bytes leaves
the dispatcher as it is: the same table, and no call on the session, so neither
`createMiner` nor `addWorker`. A frame of 8 to 100 bytes, the two bounds
included, whose session id is not above the maximum is accepted:
`registerWorker` runs, which calls `createMiner` and `addWorker`. -/
theorem handleExMessage_register_size_limits {M Job : Type} (c : ExConsts) (h : Helpers)
    (env : Collab M Job) (d : StratumMessageAgentDispatcher M) (exMessage : Bytes)
    (hvalid : ValidFrame exMessage) (hcmd : commandOf exMessage = c.CMD_REGISTER_WORKER) :
    ((exMessage.length < 8 ∨ exMessage.length > 100) →
        handleExMessage c h env d exMessage = some d)
      ∧ ((8 ≤ exMessage.length ∧ exMessage.length ≤ 100) →
          sessionIdField exMessage ≤ c.AGENT_MAX_SESSION_ID →
          ∃ d1, handleExMessage c h env d exMessage = some d1
            ∧ d1 = registerWorker env d (sessionIdField exMessage) (clientAgentOf h exMessage)
                (workerNameOf h exMessage) (h.calcWorkerId (workerNameOf h exMessage))
            ∧ d1.calls = d.calls
                ++ [SessionCall.createMiner (clientAgentOf h exMessage) (workerNameOf h exMessage)
                      (h.calcWorkerId (workerNameOf h exMessage)),
                    SessionCall.addWorker (clientAgentOf h exMessage) (workerNameOf h exMessage)
                      (h.calcWorkerId (workerNameOf h exMessage))]) := by
  rw [handleExMessage_of_register c h env d exMessage hvalid hcmd]
  constructor
  · intro hsize
    unfold handleExMessage_RegisterWorker
    rw [if_pos hsize]
  · intro hsize hsid
    refine ⟨_, rfl, ?_, ?_⟩
    · unfold handleExMessage_RegisterWorker
      rw [if_neg (by omega)]
      simp only []
      rw [if_neg (by omega)]
    · unfold handleExMessage_RegisterWorker
      rw [if_neg (by omega)]
      simp only []
      rw [if_neg (by omega)]
      rfl

theorem handleExMessage_register_size_limits_witness :
    ((frameRegister7Bytes.length < 8 ∨ frameRegister7Bytes.length > 100) →
        handleExMessage testConsts mockHelpers mockEnv agentWithB frameRegister7Bytes
          = some agentWithB)
      ∧ ((8 ≤ frameRegister7Bytes.length ∧ frameRegister7Bytes.length ≤ 100) →
          sessionIdField frameRegister7Bytes ≤ testConsts.AGENT_MAX_SESSION_ID →
          ∃ d1, handleExMessage testConsts mockHelpers mockEnv agentWithB frameRegister7Bytes
              = some d1
            ∧ d1 = registerWorker mockEnv agentWithB (sessionIdField frameRegister7Bytes)
                (clientAgentOf mockHelpers frameRegister7Bytes)
                (workerNameOf mockHelpers frameRegister7Bytes)
                (mockHelpers.calcWorkerId (workerNameOf mockHelpers frameRegister7Bytes))
            ∧ d1.calls = agentWithB.calls
                ++ [SessionCall.createMiner (clientAgentOf mockHelpers frameRegister7Bytes)
                      (workerNameOf mockHelpers frameRegister7Bytes)
                      (mockHelpers.calcWorkerId (workerNameOf mockHelpers frameRegister7Bytes)),
                    SessionCall.addWorker (clientAgentOf mockHelpers frameRegister7Bytes)
                      (workerNameOf mockHelpers frameRegister7Bytes)
                      (mockHelpers.calcWorkerId
                        (workerNameOf mockHelpers frameRegister7Bytes))]) :=
  handleExMessage_register_size_limits testConsts mockHelpers mockEnv agentWithB
    frameRegister7Bytes (by decide) (by decide)

/-- Frames of 7, 8, 100 and 101 bytes on the empty dispatcher: the frames of 7
and 101 bytes change nothing, those of 8 and 100 bytes register a worker. -/
theorem handleExMessage_register_size_examples :
    handleExMessage testConsts mockHelpers mockEnv (StratumMessageAgentDispatcher.init MockMiner)
        frameRegister7Bytes = some (StratumMessageAgentDispatcher.init MockMiner)
      ∧ handleExMessage testConsts mockHelpers mockEnv (StratumMessageAgentDispatcher.init MockMiner)
        ([127, 1, 101, 0, 7, 0] ++ List.replicate 95 97) = some (StratumMessageAgentDispatcher.init MockMiner)
      ∧ (handleExMessage testConsts mockHelpers mockEnv (StratumMessageAgentDispatcher.init MockMiner)
        [127, 1, 8, 0, 7, 0, 97, 0]).map (fun d => d.miners_.map (fun p => p.1)) = some [7]
      ∧ (handleExMessage testConsts mockHelpers mockEnv (StratumMessageAgentDispatcher.init MockMiner)
        ([127, 1, 100, 0, 7, 0] ++ List.replicate 94 97)).map
          (fun d => d.miners_.map (fun p => p.1)) = some [7] := by
  decide

/-- C9. A REGISTER_WORKER frame of accepted size whose session id field (bytes
4 and 5, little-endian) is above `AGENT_MAX_SESSION_ID` leaves the dispatcher
as it is: the same table and no call on the session. -/
theorem handleExMessage_register_sessionId_above_max {M Job : Type} (c : ExConsts)
    (h : Helpers) (env : Collab M Job) (d : StratumMessageAgentDispatcher M) (exMessage : Bytes)
    (hvalid : ValidFrame exMessage) (hcmd : commandOf exMessage = c.CMD_REGISTER_WORKER)
    (hsize : 8 ≤ exMessage.length ∧ exMessage.length ≤ 100)
    (hsid : le16Value (exMessage.getD 4 0) (exMessage.getD 5 0) > c.AGENT_MAX_SESSION_ID) :
    handleExMessage c h env d exMessage = some d := by
  rw [handleExMessage_of_register c h env d exMessage hvalid hcmd]
  unfold handleExMessage_RegisterWorker
  rw [if_neg (by omega)]
  simp only []
  rw [if_pos (show sessionIdField exMessage > c.AGENT_MAX_SESSION_ID from hsid)]

theorem handleExMessage_register_sessionId_above_max_witness :
    handleExMessage testConsts mockHelpers mockEnv agentWithB frameRegisterMaxId
      = some agentWithB :=
  handleExMessage_register_sessionId_above_max testConsts mockHelpers mockEnv agentWithB
    frameRegisterMaxId (by decide) (by decide) (by decide) (by decide)

/-- C10. An UNREGISTER_WORKER frame makes no call on the session; a frame
whose size is not 6 leaves the table as it is; a frame of 6 bytes removes the
entry at its session id field (bytes 4 and 5, little-endian) and no other
entry; so the table changes exactly when the size is 6 and that session id is
registered. -/
theorem handleExMessage_unregister_effect {M Job : Type} (c : ExConsts) (h : Helpers)
    (env : Collab M Job) (d : StratumMessageAgentDispatcher M) (exMessage : Bytes) (hdist : c.Distinct)
    (hvalid : ValidFrame exMessage) (hcmd : commandOf exMessage = c.CMD_UNREGISTER_WORKER) :
    ∃ d1, handleExMessage c h env d exMessage = some d1
      ∧ d1.calls = d.calls
      ∧ (exMessage.length ≠ 6 → d1.miners_ = d.miners_)
      ∧ (exMessage.length = 6 →
          d1.miners_
              = d.miners_.filter
                  (fun p => p.1 != le16Value (exMessage.getD 4 0) (exMessage.getD 5 0))
          ∧ mapFind d1.miners_ (le16Value (exMessage.getD 4 0) (exMessage.getD 5 0)) = none
          ∧ ∀ k, k ≠ le16Value (exMessage.getD 4 0) (exMessage.getD 5 0) →
              mapFind d1.miners_ k = mapFind d.miners_ k)
      ∧ (d1.miners_ ≠ d.miners_ ↔
          exMessage.length = 6
            ∧ mapFind d.miners_ (le16Value (exMessage.getD 4 0) (exMessage.getD 5 0)) ≠ none) := by
  have hmod : sessionIdField exMessage % 65536 = sessionIdField exMessage :=
    Nat.mod_eq_of_lt (sessionIdField_lt exMessage)
  refine ⟨_, handleExMessage_of_unregister c h env d exMessage hdist hvalid hcmd, ?_⟩
  by_cases h6 : exMessage.length = 6
  · have hd1 : handleExMessage_UnregisterWorker d exMessage
        = { d with miners_ := mapErase (sessionIdField exMessage) d.miners_ } := by
      unfold handleExMessage_UnregisterWorker unregisterWorker
      rw [if_neg (by omega), hmod]
    rw [hd1]
    refine ⟨rfl, fun hne => absurd h6 hne, fun _ => ⟨rfl, ?_, ?_⟩, ?_⟩
    · exact mapFind_mapErase_self d.miners_ _
    · intro k hk
      exact mapFind_mapErase_of_ne d.miners_ _ k hk
    · show mapErase (sessionIdField exMessage) d.miners_ ≠ d.miners_ ↔ _
      rw [Ne, mapErase_eq_self_iff]
      exact ⟨fun hx => ⟨h6, hx⟩, fun hx => hx.2⟩
  · have hd1 : handleExMessage_UnregisterWorker d exMessage = d := by
      unfold handleExMessage_UnregisterWorker
      rw [if_pos h6]
    rw [hd1]
    exact ⟨rfl, fun _ => rfl, fun h6b => absurd h6b h6,
      ⟨fun hx => absurd rfl hx, fun hx => absurd hx.1 h6⟩⟩

theorem handleExMessage_unregister_effect_witness :
    ∃ d1, handleExMessage testConsts mockHelpers mockEnv agentWithB frameUnregister7 = some d1
      ∧ d1.calls = agentWithB.calls
      ∧ (frameUnregister7.length ≠ 6 → d1.miners_ = agentWithB.miners_)
      ∧ (frameUnregister7.length = 6 →
          d1.miners_
              = agentWithB.miners_.filter
                  (fun p => p.1 != le16Value (frameUnregister7.getD 4 0) (frameUnregister7.getD 5 0))
          ∧ mapFind d1.miners_
              (le16Value (frameUnregister7.getD 4 0) (frameUnregister7.getD 5 0)) = none
          ∧ ∀ k, k ≠ le16Value (frameUnregister7.getD 4 0) (frameUnregister7.getD 5 0) →
              mapFind d1.miners_ k = mapFind agentWithB.miners_ k)
      ∧ (d1.miners_ ≠ agentWithB.miners_ ↔
          frameUnregister7.length = 6
            ∧ mapFind agentWithB.miners_
                (le16Value (frameUnregister7.getD 4 0) (frameUnregister7.getD 5 0)) ≠ none) :=
  handleExMessage_unregister_effect testConsts mockHelpers mockEnv agentWithB frameUnregister7
    testConsts_distinct (by decide) (by decide)

/-- The UNREGISTER_WORKER frame for session id 7 empties the table that holds
session id 7 only; a frame of 7 bytes leaves it as it is. -/
theorem handleExMessage_unregister_examples :
    (handleExMessage testConsts mockHelpers mockEnv agentWithB frameUnregister7).map
        (fun d => d.miners_) = some []
      ∧ handleExMessage testConsts mockHelpers mockEnv agentWithB [127, 4, 7, 0, 7, 0, 0]
        = some agentWithB := by
  decide

/-! ## `newDiffs[k].push_back (id)` -/

theorem idsAt_nil (e : Nat) : idsAt [] e = [] := rfl

theorem idsAt_cons (p : Nat × List Nat) (m : List (Nat × List Nat)) (e : Nat) :
    idsAt (p :: m) e = if p.1 = e then p.2 else idsAt m e := by
  unfold idsAt
  rw [List.find?_cons]
  by_cases hk : p.1 = e
  · simp [hk]
  · have : (p.1 == e) = false := by simpa using hk
    simp [hk, this]

theorem mapPushBack_mem (k id : Nat) (m : List (Nat × List Nat)) (p : Nat × List Nat)
    (hp : p ∈ mapPushBack k id m) :
    p ∈ m ∨ p = (k, [id]) ∨ ∃ ids, (k, ids) ∈ m ∧ p = (k, ids ++ [id]) := by
  induction m with
  | nil =>
    simp only [mapPushBack, List.mem_singleton] at hp
    exact Or.inr (Or.inl hp)
  | cons q m ih =>
    unfold mapPushBack at hp
    split at hp
    · rcases List.mem_cons.mp hp with e | e
      · exact Or.inr (Or.inl e)
      · exact Or.inl e
    · split at hp
      · rename_i hnlt heq
        rcases List.mem_cons.mp hp with e | e
        · refine Or.inr (Or.inr ⟨q.2, ?_, ?_⟩)
          · rw [heq]; exact List.mem_cons_self _ _
          · rw [e, heq]
        · exact Or.inl (List.mem_cons_of_mem _ e)
      · rcases List.mem_cons.mp hp with e | e
        · exact Or.inl (by rw [e]; exact List.mem_cons_self _ _)
        · rcases ih e with e2 | e2 | ⟨ids, hids, e2⟩
          · exact Or.inl (List.mem_cons_of_mem _ e2)
          · exact Or.inr (Or.inl e2)
          · exact Or.inr (Or.inr ⟨ids, List.mem_cons_of_mem _ hids, e2⟩)

theorem mapPushBack_keys (k id : Nat) (m : List (Nat × List Nat)) (p : Nat × List Nat)
    (hp : p ∈ mapPushBack k id m) : p.1 = k ∨ ∃ q ∈ m, q.1 = p.1 := by
  rcases mapPushBack_mem k id m p hp with e | e | ⟨ids, _, e⟩
  · exact Or.inr ⟨p, e, rfl⟩
  · exact Or.inl (by rw [e])
  · exact Or.inl (by rw [e])

theorem mapPushBack_sorted (k id : Nat) (m : List (Nat × List Nat))
    (hs : m.Pairwise (fun p q => p.1 < q.1)) :
    (mapPushBack k id m).Pairwise (fun p q => p.1 < q.1) := by
  induction m with
  | nil => simp [mapPushBack]
  | cons q m ih =>
    have hs2 := List.pairwise_cons.mp hs
    unfold mapPushBack
    split
    · rename_i hlt
      refine List.pairwise_cons.mpr ⟨?_, hs⟩
      intro r hr
      rcases List.mem_cons.mp hr with e | e
      · subst e; exact hlt
      · exact Nat.lt_trans hlt (hs2.1 r e)
    · split
      · exact List.pairwise_cons.mpr ⟨hs2.1, hs2.2⟩
      · rename_i hnlt hne
        refine List.pairwise_cons.mpr ⟨?_, ih hs2.2⟩
        intro r hr
        rcases mapPushBack_keys k id m r hr with e | ⟨r2, hr2, hk2⟩
        · rw [e]
          show q.1 < k
          omega
        · rw [← hk2]; exact hs2.1 r2 hr2

theorem mapPushBack_idsAt (k id : Nat) (m : List (Nat × List Nat))
    (hs : m.Pairwise (fun p q => p.1 < q.1)) (e : Nat) :
    idsAt (mapPushBack k id m) e = if e = k then idsAt m e ++ [id] else idsAt m e := by
  induction m with
  | nil =>
    by_cases hek : e = k
    · simp [mapPushBack, idsAt_cons, idsAt_nil, hek]
    · have : ¬ k = e := fun x => hek x.symm
      simp [mapPushBack, idsAt_cons, idsAt_nil, hek, this]
  | cons q m ih =>
    have hs2 := List.pairwise_cons.mp hs
    unfold mapPushBack
    split
    · rename_i hlt
      by_cases hek : e = k
      · subst hek
        have hq : ¬ q.1 = e := by omega
        have hrest : idsAt m e = [] :=
          idsAt_of_absent m e (fun r hr => by have := hs2.1 r hr; omega)
        rw [idsAt_cons, if_pos rfl, if_pos rfl, idsAt_cons, if_neg hq, hrest]
        rfl
      · have : ¬ k = e := fun x => hek x.symm
        rw [idsAt_cons, if_neg this, if_neg hek]
    · split
      · rename_i hnlt heq
        by_cases hek : e = k
        · have hq : q.1 = e := by omega
          rw [idsAt_cons, idsAt_cons, if_pos hek, if_pos hq, if_pos hq]
        · have hq : ¬ q.1 = e := by omega
          rw [idsAt_cons, idsAt_cons, if_neg hek, if_neg hq, if_neg hq]
      · rename_i hnlt hne
        rw [idsAt_cons, idsAt_cons, ih hs2.2]
        by_cases hq : q.1 = e
        · have hek : ¬ e = k := by omega
          rw [if_pos hq, if_pos hq, if_neg hek]
        · rw [if_neg hq, if_neg hq]

/-- The shape of `newDiffs` that `getSetDiffCommand` can rely on: keys in
ascending order and below 2^8, ids below 2^16, no empty vector. -/
theorem mapPushBack_good (k id : Nat) (m : List (Nat × List Nat)) (hk : k < 256)
    (hid : id < 65536) (hm : IsDiffMap m ∧ ∀ p ∈ m, p.2 ≠ []) :
    IsDiffMap (mapPushBack k id m) ∧ ∀ p ∈ mapPushBack k id m, p.2 ≠ [] := by
  obtain ⟨⟨hs, hb⟩, hne⟩ := hm
  refine ⟨⟨mapPushBack_sorted k id m hs, ?_⟩, ?_⟩
  · intro p hp
    rcases mapPushBack_mem k id m p hp with e | e | ⟨ids, hids, e⟩
    · exact hb p e
    · rw [e]
      exact ⟨hk, fun x hx => by rw [List.mem_singleton.mp hx]; exact hid⟩
    · rw [e]
      refine ⟨hk, fun x hx => ?_⟩
      rcases List.mem_append.mp hx with hx | hx
      · exact (hb _ hids).2 x hx
      · rw [List.mem_singleton.mp hx]; exact hid
  · intro p hp
    rcases mapPushBack_mem k id m p hp with e | e | ⟨ids, _, e⟩
    · exact hne p e
    · rw [e]; simp
    · rw [e]; simp

theorem pushAll_nil (m : List (Nat × List Nat)) : pushAll [] m = m := rfl

theorem pushAll_cons (x : Nat × Nat) (l : List (Nat × Nat)) (m : List (Nat × List Nat)) :
    pushAll (x :: l) m = pushAll l (mapPushBack x.1 x.2 m) := rfl

theorem pushAll_good (l : List (Nat × Nat)) (m : List (Nat × List Nat))
    (hl : ∀ x ∈ l, x.1 < 256 ∧ x.2 < 65536) (hm : IsDiffMap m ∧ ∀ p ∈ m, p.2 ≠ []) :
    IsDiffMap (pushAll l m) ∧ ∀ p ∈ pushAll l m, p.2 ≠ [] := by
  induction l generalizing m with
  | nil => exact hm
  | cons x l ih =>
    rw [pushAll_cons]
    have hx := hl x (List.mem_cons_self _ _)
    exact ih _ (fun y hy => hl y (List.mem_cons_of_mem _ hy))
      (mapPushBack_good x.1 x.2 m hx.1 hx.2 hm)

/-- The vector under `e` after a run of `push_back`s: what was there, then the
ids pushed under `e`, in order. -/
theorem pushAll_idsAt (l : List (Nat × Nat)) (m : List (Nat × List Nat))
    (hs : m.Pairwise (fun p q => p.1 < q.1)) (e : Nat) :
    idsAt (pushAll l m) e
      = idsAt m e ++ (l.filter (fun x => x.1 == e)).map (fun x => x.2) := by
  induction l generalizing m with
  | nil => simp [pushAll_nil]
  | cons x l ih =>
    rw [pushAll_cons, ih _ (mapPushBack_sorted x.1 x.2 m hs), mapPushBack_idsAt x.1 x.2 m hs]
    by_cases hxe : x.1 = e
    · rw [if_pos hxe.symm, List.filter_cons_of_pos (by simpa using hxe)]
      simp
    · have : ¬ e = x.1 := fun y => hxe y.symm
      rw [if_neg this, List.filter_cons_of_neg (by simpa using hxe)]

theorem isDiffMap_nil : IsDiffMap [] ∧ ∀ p ∈ ([] : List (Nat × List Nat)), p.2 ≠ [] :=
  ⟨⟨List.Pairwise.nil, fun p hp => by simp at hp⟩, fun p hp => by simp at hp⟩

/-! ## `addLocalJob` -/

theorem addLocalJobLoop_newDiffs {M Job : Type} (h : Helpers) (env : Collab M Job)
    (miners : List (Nat × M)) (localJob : Job) (newDiffs : List (Nat × List Nat)) :
    (addLocalJobLoop h env miners localJob newDiffs).2.2
      = pushAll (changedOf h (jobTrace env miners localJob)) newDiffs := by
  induction miners generalizing localJob newDiffs with
  | nil => rfl
  | cons p rest ih =>
    simp only [addLocalJobLoop, jobTrace]
    rw [ih]
    by_cases hch : h.log2 (env.minerAddLocalJob p.2 localJob).2.2 % 256
        ≠ h.log2 (env.getCurDiff p.2) % 256
    · rw [if_pos hch]
      unfold changedOf
      rw [List.filter_cons_of_pos (by simpa using hch), List.map_cons, pushAll_cons]
    · rw [if_neg hch]
      unfold changedOf
      rw [List.filter_cons_of_neg (by simpa using hch)]

theorem jobTrace_keys {M Job : Type} (env : Collab M Job) (miners : List (Nat × M))
    (localJob : Job) :
    (jobTrace env miners localJob).map (fun t => t.1) = miners.map (fun p => p.1) := by
  induction miners generalizing localJob with
  | nil => rfl
  | cons p rest ih => simp only [jobTrace, List.map_cons, ih]

theorem changedOf_bounds {M Job : Type} (h : Helpers) (env : Collab M Job)
    (miners : List (Nat × M)) (localJob : Job) (hkeys : ∀ p ∈ miners, p.1 < 65536) :
    ∀ x ∈ changedOf h (jobTrace env miners localJob), x.1 < 256 ∧ x.2 < 65536 := by
  intro x hx
  unfold changedOf at hx
  obtain ⟨t, ht, rfl⟩ := List.mem_map.mp hx
  have ht2 := (List.mem_filter.mp ht).1
  have hk : t.1 ∈ miners.map (fun p => p.1) := by
    rw [← jobTrace_keys env miners localJob]
    exact List.mem_map.mpr ⟨t, ht2, rfl⟩
  obtain ⟨p, hp, hpe⟩ := List.mem_map.mp hk
  refine ⟨Nat.mod_lt _ (by decide), ?_⟩
  show t.1 < 65536
  rw [← hpe]; exact hkeys p hp

/-- The payload of `addLocalJob` parses, and under each exponent it lists the
session ids of the miners whose exponent changed to it, in table order. -/
theorem addLocalJob_payload {M Job : Type} (c : ExConsts) (h : Helpers) (env : Collab M Job)
    (d : StratumMessageAgentDispatcher M) (localJob : Job) (htable : IsMinerTable d.miners_) :
    (addLocalJob c h env d localJob).1.calls
        = d.calls ++ [SessionCall.sendData (getSetDiffCommand c
            (pushAll (changedOf h (jobTrace env d.miners_ localJob)) []))]
      ∧ parseSetDiff c (getSetDiffCommand c
            (pushAll (changedOf h (jobTrace env d.miners_ localJob)) []))
          = some (chunksOf (pushAll (changedOf h (jobTrace env d.miners_ localJob)) []))
      ∧ ∀ e, idsUnder (chunksOf (pushAll (changedOf h (jobTrace env d.miners_ localJob)) [])) e
          = ((changedOf h (jobTrace env d.miners_ localJob)).filter
              (fun x => x.1 == e)).map (fun x => x.2) := by
  have hgood := pushAll_good (changedOf h (jobTrace env d.miners_ localJob)) []
    (changedOf_bounds h env d.miners_ localJob htable.2) isDiffMap_nil
  refine ⟨?_, parseSetDiff_getSetDiffCommand c _ hgood.1.2, ?_⟩
  · unfold addLocalJob
    simp only []
    rw [addLocalJobLoop_newDiffs]
  · intro e
    rw [idsUnder_chunksOf _ hgood.1.1, pushAll_idsAt _ _ List.Pairwise.nil, idsAt_nil,
      List.nil_append]

theorem mem_changedOf_filter (h : Helpers) (trace : List (Nat × Nat × Nat)) (e id : Nat) :
    id ∈ ((changedOf h trace).filter (fun x => x.1 == e)).map (fun x => x.2)
      ↔ ∃ t ∈ trace, t.1 = id ∧ h.log2 t.2.2 % 256 ≠ h.log2 t.2.1 % 256
          ∧ h.log2 t.2.2 % 256 = e := by
  unfold changedOf
  constructor
  · intro hid
    obtain ⟨x, hx, hxid⟩ := List.mem_map.mp hid
    obtain ⟨hx1, hx2⟩ := List.mem_filter.mp hx
    obtain ⟨t, ht, rfl⟩ := List.mem_map.mp hx1
    obtain ⟨ht1, ht2⟩ := List.mem_filter.mp ht
    exact ⟨t, ht1, hxid, by simpa using ht2, by simpa using hx2⟩
  · rintro ⟨t, ht, hid, hch, he⟩
    refine List.mem_map.mpr ⟨(h.log2 t.2.2 % 256, t.1), List.mem_filter.mpr ⟨?_, ?_⟩, hid⟩
    · exact List.mem_map.mpr ⟨t, List.mem_filter.mpr ⟨ht, by simpa using hch⟩, rfl⟩
    · simpa using he

theorem jobTrace_registered {M Job : Type} (env : Collab M Job) (miners : List (Nat × M))
    (localJob : Job) (t : Nat × Nat × Nat) (ht : t ∈ jobTrace env miners localJob) :
    mapFind miners t.1 ≠ none := by
  have hk : t.1 ∈ miners.map (fun p => p.1) := by
    rw [← jobTrace_keys env miners localJob]
    exact List.mem_map.mpr ⟨t, ht, rfl⟩
  obtain ⟨p, hp, hpe⟩ := List.mem_map.mp hk
  intro hnone
  exact (mapFind_eq_none_iff miners t.1).mp hnone p hp hpe

theorem jobTrace_unique {M Job : Type} (env : Collab M Job) (miners : List (Nat × M))
    (localJob : Job) (hs : miners.Pairwise (fun p q => p.1 < q.1))
    (t u : Nat × Nat × Nat) (ht : t ∈ jobTrace env miners localJob)
    (hu : u ∈ jobTrace env miners localJob) (hid : t.1 = u.1) : t = u := by
  have hnd : ((jobTrace env miners localJob).map (fun t => t.1)).Nodup := by
    rw [jobTrace_keys]
    exact (List.pairwise_map.mpr (hs.imp (fun hlt => Nat.ne_of_lt hlt)))
  exact List.inj_on_of_nodup_map hnd ht hu hid

theorem splitIds_single (ids : List Nat) (h0 : ids ≠ []) (hk : ids.length ≤ kMaxCount) :
    splitIds ids.length ids = [ids] := by
  cases ids with
  | nil => exact absurd rfl h0
  | cons id rest =>
    simp only [List.length_cons, splitIds]
    rw [List.take_of_length_le hk, List.drop_of_length_le hk, splitIds_nil]

theorem chunksOf_eq_self (m : List (Nat × List Nat))
    (h : ∀ p ∈ m, p.2 ≠ [] ∧ p.2.length ≤ kMaxCount) : chunksOf m = m := by
  induction m with
  | nil => rfl
  | cons p m ih =>
    obtain ⟨h0, hk⟩ := h p (List.mem_cons_self _ _)
    rw [chunksOf_cons, splitIds_single p.2 h0 hk, ih (fun q hq => h q (List.mem_cons_of_mem _ hq))]
    rfl

theorem mem_keys_iff_idsAt (m : List (Nat × List Nat))
    (hs : m.Pairwise (fun p q => p.1 < q.1)) (hne : ∀ p ∈ m, p.2 ≠ []) (e : Nat) :
    e ∈ m.map (fun p => p.1) ↔ idsAt m e ≠ [] := by
  constructor
  · intro he
    obtain ⟨p, hp, rfl⟩ := List.mem_map.mp he
    rw [idsAt_of_mem m hs p hp]
    exact hne p hp
  · intro hids
    by_contra hno
    exact hids (idsAt_of_absent m e (fun p hp hpe => hno (List.mem_map.mpr ⟨p, hp, hpe⟩)))

/-! ## C6: the exponent of a difficulty that is no `double` -/

theorem toDouble_of_small (n : Nat) (h : floorLog2 n < 53) : toDouble n = n := by
  unfold toDouble
  simp only []
  rw [if_pos h]

set_option maxRecDepth 100000 in
/-- The `log2` of the C library at a power of two below 2^64 is exact. -/
theorem cmathLog2_pow_two : ∀ k, k < 64 → cmathLog2 (2 ^ k) = k := by
  decide

set_option maxRecDepth 100000 in
/-- C6, counterexample. The miner at session id 7 goes from difficulty 1 to
difficulty 2^54 - 1. The conversion to `double` rounds that difficulty to
2^54, so the code lists session id 7 under exponent 54, while the integer part
of the base-2 logarithm of 2^54 - 1 is 53. -/
theorem addLocalJob_lists_rounded_exponent :
    jobTrace mockEnv agentWithB.miners_ (2 ^ 54 - 1) = [(7, 1, 2 ^ 54 - 1)]
      ∧ toDouble (2 ^ 54 - 1) = 2 ^ 54
      ∧ cmathLog2 (2 ^ 54 - 1) = 54
      ∧ floorLog2 (2 ^ 54 - 1) = 53
      ∧ (addLocalJob testConsts cmathHelpers mockEnv agentWithB (2 ^ 54 - 1)).1.calls
        = agentWithB.calls ++ [SessionCall.sendData [127, 5, 9, 0, 54, 1, 0, 7, 0]]
      ∧ parseSetDiff testConsts [127, 5, 9, 0, 54, 1, 0, 7, 0] = some [(54, [7])]
      ∧ idsUnder [(54, [7])] 54 = [7]
      ∧ idsUnder [(54, [7])] (floorLog2 (2 ^ 54 - 1)) = [] := by
  decide

/-- C6, as amended. Agent `addLocalJob` reports only real changes. The payload
handed to `sendData` parses as SET_DIFF frames; every session id listed under
an exponent `e` is that of a registered miner whose difficulty returned by the
job differs from its difficulty before, and `e` is the exponent that the code
computes for the new difficulty, `log2` of it stored in a `uint8_t`; when
`log2` is exact at the powers of two, as that of the C library is, and the new
difficulty is 2^k, the exponent is k. A miner whose difficulty is unchanged is
listed under no exponent; and when no exponent collects more than `kMaxCount`
ids, the frames carry pairwise distinct exponents, namely the new exponents of
the miners whose exponent changed. -/
theorem addLocalJob_reports_only_changes {M Job : Type} (c : ExConsts) (h : Helpers)
    (env : Collab M Job) (d : StratumMessageAgentDispatcher M) (localJob : Job)
    (htable : IsMinerTable d.miners_) :
    ∃ payload frames,
      (addLocalJob c h env d localJob).1.calls = d.calls ++ [SessionCall.sendData payload]
        ∧ parseSetDiff c payload = some frames
        ∧ (∀ e id, id ∈ idsUnder frames e →
            ∃ t ∈ jobTrace env d.miners_ localJob,
              t.1 = id ∧ mapFind d.miners_ id ≠ none ∧ t.2.2 ≠ t.2.1
                ∧ e = h.log2 t.2.2 % 256
                ∧ ((∀ k, k < 64 → h.log2 (2 ^ k) = k) →
                    ∀ k, k < 64 → t.2.2 = 2 ^ k → e = k))
        ∧ (∀ t ∈ jobTrace env d.miners_ localJob, t.2.2 = t.2.1 →
            ∀ e, t.1 ∉ idsUnder frames e)
        ∧ ((∀ e, (idsUnder frames e).length ≤ kMaxCount) →
            (frames.map (fun f => f.1)).Nodup
              ∧ ∀ e, e ∈ frames.map (fun f => f.1) ↔
                  ∃ t ∈ jobTrace env d.miners_ localJob,
                    h.log2 t.2.2 % 256 ≠ h.log2 t.2.1 % 256 ∧ e = h.log2 t.2.2 % 256) := by
  obtain ⟨hcalls, hparse, hids⟩ := addLocalJob_payload c h env d localJob htable
  have hgood := pushAll_good (changedOf h (jobTrace env d.miners_ localJob)) []
    (changedOf_bounds h env d.miners_ localJob htable.2) isDiffMap_nil
  refine ⟨_, _, hcalls, hparse, ?_, ?_, ?_⟩
  · intro e id hid
    rw [hids e] at hid
    obtain ⟨t, ht, hte, hch, he⟩ := (mem_changedOf_filter h _ e id).mp hid
    refine ⟨t, ht, hte, ?_, ?_, he.symm, ?_⟩
    · rw [← hte]; exact jobTrace_registered env d.miners_ localJob t ht
    · intro heq
      rw [heq] at hch
      exact hch rfl
    · intro hexact k hk htk
      rw [← he, htk, hexact k hk]
      exact Nat.mod_eq_of_lt (by omega)
  · intro t ht hsame e hmem
    rw [hids e] at hmem
    obtain ⟨u, hu, hut, hch, _⟩ := (mem_changedOf_filter h _ e t.1).mp hmem
    have hEq := jobTrace_unique env d.miners_ localJob htable.1 u t hu ht hut
    rw [hEq, hsame] at hch
    exact hch rfl
  · intro hcap
    have hself : chunksOf (pushAll (changedOf h (jobTrace env d.miners_ localJob)) [])
        = pushAll (changedOf h (jobTrace env d.miners_ localJob)) [] := by
      apply chunksOf_eq_self
      intro p hp
      refine ⟨hgood.2 p hp, ?_⟩
      have := hcap p.1
      rw [idsUnder_chunksOf _ hgood.1.1, idsAt_of_mem _ hgood.1.1 p hp] at this
      exact this
    rw [hself]
    refine ⟨?_, ?_⟩
    · exact List.pairwise_map.mpr (hgood.1.1.imp (fun hlt => Nat.ne_of_lt hlt))
    · intro e
      rw [mem_keys_iff_idsAt _ hgood.1.1 hgood.2 e, pushAll_idsAt _ _ List.Pairwise.nil,
        idsAt_nil, List.nil_append]
      constructor
      · intro hne
        obtain ⟨id, hid⟩ := List.exists_mem_of_ne_nil _ hne
        obtain ⟨t, ht, _, hch, he⟩ := (mem_changedOf_filter h _ e id).mp hid
        exact ⟨t, ht, hch, he.symm⟩
      · rintro ⟨t, ht, hch, he⟩
        have hid := (mem_changedOf_filter h _ e t.1).mpr ⟨t, ht, rfl, hch, he.symm⟩
        exact List.ne_nil_of_mem hid

theorem addLocalJob_reports_only_changes_witness :
    ∃ payload frames,
      (addLocalJob testConsts cmathHelpers mockEnv agentMixed 8).1.calls
          = agentMixed.calls ++ [SessionCall.sendData payload]
        ∧ parseSetDiff testConsts payload = some frames
        ∧ (∀ e id, id ∈ idsUnder frames e →
            ∃ t ∈ jobTrace mockEnv agentMixed.miners_ 8,
              t.1 = id ∧ mapFind agentMixed.miners_ id ≠ none ∧ t.2.2 ≠ t.2.1
                ∧ e = cmathHelpers.log2 t.2.2 % 256
                ∧ ((∀ k, k < 64 → cmathHelpers.log2 (2 ^ k) = k) →
                    ∀ k, k < 64 → t.2.2 = 2 ^ k → e = k))
        ∧ (∀ t ∈ jobTrace mockEnv agentMixed.miners_ 8, t.2.2 = t.2.1 →
            ∀ e, t.1 ∉ idsUnder frames e)
        ∧ ((∀ e, (idsUnder frames e).length ≤ kMaxCount) →
            (frames.map (fun f => f.1)).Nodup
              ∧ ∀ e, e ∈ frames.map (fun f => f.1) ↔
                  ∃ t ∈ jobTrace mockEnv agentMixed.miners_ 8,
                    cmathHelpers.log2 t.2.2 % 256 ≠ cmathHelpers.log2 t.2.1 % 256
                      ∧ e = cmathHelpers.log2 t.2.2 % 256) :=
  addLocalJob_reports_only_changes testConsts cmathHelpers mockEnv agentMixed 8 (by decide)

/-- The payload of `addLocalJob` on the table of four miners at difficulties 4,
4, 8, 2 for a job that sets difficulty 8: one frame, exponent 3, listing the
session ids 1, 2 and 600; session id 3, whose difficulty stays 8, is absent. -/
theorem addLocalJob_mixed_example :
    (addLocalJob testConsts mockHelpers mockEnv agentMixed 8).1.calls
        = [SessionCall.sendData [127, 5, 13, 0, 3, 3, 0, 1, 0, 2, 0, 88, 2]]
      ∧ parseSetDiff testConsts [127, 5, 13, 0, 3, 3, 0, 1, 0, 2, 0, 88, 2]
        = some [(3, [1, 2, 600])] := by
  decide

theorem mapUpdate_keys {α : Type} (k : Nat) (f : α → α) (m : List (Nat × α)) :
    (mapUpdate k f m).map (fun p => p.1) = m.map (fun p => p.1) := by
  induction m with
  | nil => rfl
  | cons p m ih =>
    unfold mapUpdate
    by_cases hk : p.1 = k
    · simp [hk]
    · simp [hk, ih]

theorem mapFind_mapUpdate_of_ne {α : Type} (k k0 : Nat) (f : α → α) (m : List (Nat × α))
    (hne : k0 ≠ k) : mapFind (mapUpdate k f m) k0 = mapFind m k0 := by
  induction m with
  | nil => rfl
  | cons p m ih =>
    unfold mapUpdate
    by_cases hk : p.1 = k
    · have hk0 : ¬ p.1 = k0 := by omega
      simp [hk, mapFind_cons, hk0, hne.symm]
    · simp [hk, mapFind_cons, ih]

theorem mapUpdate_of_absent {α : Type} (k : Nat) (f : α → α) (m : List (Nat × α))
    (h : mapFind m k = none) : mapUpdate k f m = m := by
  induction m with
  | nil => rfl
  | cons p m ih =>
    rw [mapFind_cons] at h
    unfold mapUpdate
    by_cases hk : p.1 = k
    · simp [hk] at h
    · rw [if_neg hk] at h
      rw [if_neg hk, ih h]

/-- What `handleExMessage_SessionSpecific` does to the table, with the key
written as `find` sees it. -/
theorem handleExMessage_SessionSpecific_table {M Job : Type} (env : Collab M Job)
    (d : StratumMessageAgentDispatcher M) (exMessage : Bytes) :
    mapFind (handleExMessage_SessionSpecific env d exMessage).miners_
        (env.decodeSessionId exMessage % 65536)
      = (mapFind d.miners_ (env.decodeSessionId exMessage % 65536)).map
          (fun miner => env.minerHandleExMessage miner exMessage)
    ∧ (∀ k, k ≠ env.decodeSessionId exMessage % 65536 →
        mapFind (handleExMessage_SessionSpecific env d exMessage).miners_ k
          = mapFind d.miners_ k)
    ∧ (handleExMessage_SessionSpecific env d exMessage).miners_.map (fun p => p.1)
        = d.miners_.map (fun p => p.1)
    ∧ (mapFind d.miners_ (env.decodeSessionId exMessage % 65536) = none →
        (handleExMessage_SessionSpecific env d exMessage).miners_ = d.miners_) :=
  ⟨mapFind_mapUpdate _ _ _, fun k hk => mapFind_mapUpdate_of_ne _ k _ _ hk,
    mapUpdate_keys _ _ _, fun h => mapUpdate_of_absent _ _ _ h⟩

/-- C11. A SUBMIT_SHARE or SUBMIT_SHARE_WITH_TIME frame, for the 16-bit id
`sid` that the session's `decodeSessionId` returns: the miner registered at
`sid` is replaced by its state after `handleExMessage (exMessage)`; the miner
at every other id is as before; the set of registered ids is as before; and
when no miner is registered at `sid` the table is unchanged, so no miner
received the frame. -/
theorem handleExMessage_submit_routing {M Job : Type} (c : ExConsts) (h : Helpers)
    (env : Collab M Job) (d : StratumMessageAgentDispatcher M) (exMessage : Bytes)
    (hdist : c.Distinct) (hvalid : ValidFrame exMessage)
    (hcmd : commandOf exMessage = c.CMD_SUBMIT_SHARE
      ∨ commandOf exMessage = c.CMD_SUBMIT_SHARE_WITH_TIME)
    (hid : env.decodeSessionId exMessage < 65536) :
    ∃ d1, handleExMessage c h env d exMessage = some d1
      ∧ mapFind d1.miners_ (env.decodeSessionId exMessage)
        = (mapFind d.miners_ (env.decodeSessionId exMessage)).map
            (fun miner => env.minerHandleExMessage miner exMessage)
      ∧ (∀ k, k ≠ env.decodeSessionId exMessage → mapFind d1.miners_ k = mapFind d.miners_ k)
      ∧ d1.miners_.map (fun p => p.1) = d.miners_.map (fun p => p.1)
      ∧ (mapFind d.miners_ (env.decodeSessionId exMessage) = none → d1.miners_ = d.miners_) := by
  have hmod : env.decodeSessionId exMessage % 65536 = env.decodeSessionId exMessage :=
    Nat.mod_eq_of_lt hid
  have ht := handleExMessage_SessionSpecific_table env d exMessage
  rw [hmod] at ht
  exact ⟨_, handleExMessage_of_submit c h env d exMessage hdist hvalid hcmd, ht⟩

theorem handleExMessage_submit_routing_witness :
    ∃ d1, handleExMessage testConsts mockHelpers mockEnv agentWithB frameSubmit7 = some d1
      ∧ mapFind d1.miners_ (mockEnv.decodeSessionId frameSubmit7)
        = (mapFind agentWithB.miners_ (mockEnv.decodeSessionId frameSubmit7)).map
            (fun miner => mockEnv.minerHandleExMessage miner frameSubmit7)
      ∧ (∀ k, k ≠ mockEnv.decodeSessionId frameSubmit7 →
          mapFind d1.miners_ k = mapFind agentWithB.miners_ k)
      ∧ d1.miners_.map (fun p => p.1) = agentWithB.miners_.map (fun p => p.1)
      ∧ (mapFind agentWithB.miners_ (mockEnv.decodeSessionId frameSubmit7) = none →
          d1.miners_ = agentWithB.miners_) :=
  handleExMessage_submit_routing testConsts mockHelpers mockEnv agentWithB frameSubmit7
    testConsts_distinct (by decide) (by decide) (by decide)

/-- A share for session id 7 reaches the miner at 7; a share for session id 9,
where no miner is, changes no miner. -/
theorem handleExMessage_submit_examples :
    (handleExMessage testConsts mockHelpers mockEnv agentWithB frameSubmit7).map
        (fun d => d.miners_) = some [(7, ⟨[97], [98], 315, 1, 1, [frameSubmit7]⟩)]
      ∧ (handleExMessage testConsts mockHelpers mockEnv agentWithB frameSubmit9).map
        (fun d => d.miners_) = some agentWithB.miners_ := by
  decide

/-! ## `unregisterWorker` -/

/-- What `unregisterWorker` does for any `uint32_t` argument: the key it
erases is the argument as a `uint16_t`. -/
theorem unregisterWorker_table {M : Type} (d : StratumMessageAgentDispatcher M)
    (sessionId : Nat) :
    (unregisterWorker d sessionId).miners_
        = d.miners_.filter (fun p => p.1 != sessionId % 65536)
      ∧ (unregisterWorker d sessionId).calls = d.calls
      ∧ mapFind (unregisterWorker d sessionId).miners_ (sessionId % 65536) = none
      ∧ (∀ k, k ≠ sessionId % 65536 →
          mapFind (unregisterWorker d sessionId).miners_ k = mapFind d.miners_ k) :=
  ⟨rfl, rfl, mapFind_mapErase_self _ _, fun k hk => mapFind_mapErase_of_ne _ _ k hk⟩

/-- C12. `unregisterWorker (sessionId)` for a 16-bit session id: the entry at
`sessionId` is gone, the miner at every other id is as before and so is
every other entry of the table, nothing is called on the session; when
`sessionId` is not registered the dispatcher is unchanged; and a second call
with the same id changes nothing more. -/
theorem unregisterWorker_effect {M : Type} (d : StratumMessageAgentDispatcher M)
    (sessionId : Nat) (hid : sessionId < 65536) :
    mapFind (unregisterWorker d sessionId).miners_ sessionId = none
      ∧ (∀ k, k ≠ sessionId →
          mapFind (unregisterWorker d sessionId).miners_ k = mapFind d.miners_ k)
      ∧ (unregisterWorker d sessionId).miners_ = d.miners_.filter (fun p => p.1 != sessionId)
      ∧ (unregisterWorker d sessionId).calls = d.calls
      ∧ (mapFind d.miners_ sessionId = none → unregisterWorker d sessionId = d)
      ∧ unregisterWorker (unregisterWorker d sessionId) sessionId
          = unregisterWorker d sessionId := by
  have hmod : sessionId % 65536 = sessionId := Nat.mod_eq_of_lt hid
  have ht := unregisterWorker_table d sessionId
  rw [hmod] at ht
  refine ⟨ht.2.2.1, ht.2.2.2, ht.1, ht.2.1, ?_, ?_⟩
  · intro habs
    have : mapErase sessionId d.miners_ = d.miners_ := (mapErase_eq_self_iff _ _).mpr habs
    unfold unregisterWorker
    rw [hmod, this]
  · have : mapErase sessionId (mapErase sessionId d.miners_) = mapErase sessionId d.miners_ :=
      (mapErase_eq_self_iff _ _).mpr (mapFind_mapErase_self _ _)
    unfold unregisterWorker
    simp only [hmod, this]

theorem unregisterWorker_effect_witness :
    mapFind (unregisterWorker agentMixed 2).miners_ 2 = none
      ∧ (∀ k, k ≠ 2 → mapFind (unregisterWorker agentMixed 2).miners_ k
          = mapFind agentMixed.miners_ k)
      ∧ (unregisterWorker agentMixed 2).miners_ = agentMixed.miners_.filter (fun p => p.1 != 2)
      ∧ (unregisterWorker agentMixed 2).calls = agentMixed.calls
      ∧ (mapFind agentMixed.miners_ 2 = none → unregisterWorker agentMixed 2 = agentMixed)
      ∧ unregisterWorker (unregisterWorker agentMixed 2) 2 = unregisterWorker agentMixed 2 :=
  unregisterWorker_effect agentMixed 2 (by decide)

/-- Removing session id 2 from the table of ids 1, 2, 3, 600 leaves 1, 3, 600;
removing the unknown id 5 leaves the table as it is. -/
theorem unregisterWorker_examples :
    (unregisterWorker agentMixed 2).miners_.map (fun p => p.1) = [1, 3, 600]
      ∧ unregisterWorker agentMixed 5 = agentMixed := by
  decide

/-! ## The table invariant -/

theorem mapEmplace_mem {α : Type} (k : Nat) (v : α) (m : List (Nat × α)) (p : Nat × α)
    (hp : p ∈ mapEmplace k v m) : p ∈ m ∨ p.1 = k := by
  induction m with
  | nil =>
    simp only [mapEmplace, List.mem_singleton] at hp
    exact Or.inr (by rw [hp])
  | cons q m ih =>
    unfold mapEmplace at hp
    split at hp
    · rcases List.mem_cons.mp hp with e | e
      · exact Or.inr (by rw [e])
      · exact Or.inl e
    · split at hp
      · exact Or.inl hp
      · rcases List.mem_cons.mp hp with e | e
        · exact Or.inl (by rw [e]; exact List.mem_cons_self _ _)
        · rcases ih e with e2 | e2
          · exact Or.inl (List.mem_cons_of_mem _ e2)
          · exact Or.inr e2

theorem mapEmplace_sorted {α : Type} (k : Nat) (v : α) (m : List (Nat × α))
    (hs : m.Pairwise (fun p q => p.1 < q.1)) :
    (mapEmplace k v m).Pairwise (fun p q => p.1 < q.1) := by
  induction m with
  | nil => simp [mapEmplace]
  | cons q m ih =>
    have hs2 := List.pairwise_cons.mp hs
    unfold mapEmplace
    split
    · rename_i hlt
      refine List.pairwise_cons.mpr ⟨?_, hs⟩
      intro r hr
      rcases List.mem_cons.mp hr with e | e
      · rw [e]; exact hlt
      · exact Nat.lt_trans hlt (hs2.1 r e)
    · split
      · exact hs
      · rename_i hnlt hne
        refine List.pairwise_cons.mpr ⟨?_, ih hs2.2⟩
        intro r hr
        rcases mapEmplace_mem k v m r hr with e | e
        · exact hs2.1 r e
        · rw [e]
          show q.1 < k
          omega

theorem addLocalJobLoop_keys {M Job : Type} (h : Helpers) (env : Collab M Job)
    (miners : List (Nat × M)) (localJob : Job) (newDiffs : List (Nat × List Nat)) :
    (addLocalJobLoop h env miners localJob newDiffs).1.map (fun p => p.1)
      = miners.map (fun p => p.1) := by
  induction miners generalizing localJob newDiffs with
  | nil => rfl
  | cons p rest ih => simp only [addLocalJobLoop, List.map_cons, ih]

theorem removeLocalJobLoop_keys {M Job : Type} (env : Collab M Job)
    (miners : List (Nat × M)) (localJob : Job) :
    (removeLocalJobLoop env miners localJob).1.map (fun p => p.1)
      = miners.map (fun p => p.1) := by
  induction miners generalizing localJob with
  | nil => rfl
  | cons p rest ih => simp only [removeLocalJobLoop, List.map_cons, ih]

/-- The invariant only looks at the keys, in order. -/
theorem agentInv_of_keys {M : Type} (c : ExConsts) (d d1 : StratumMessageAgentDispatcher M)
    (hkeys : d1.miners_.map (fun p => p.1) = d.miners_.map (fun p => p.1))
    (hinv : AgentInv c d) : AgentInv c d1 := by
  obtain ⟨⟨hs, hb⟩, hmax⟩ := hinv
  have hs1 : (d1.miners_.map (fun p => p.1)).Pairwise (fun a b => a < b) := by
    rw [hkeys]; exact List.pairwise_map.mpr hs
  have hmem : ∀ p ∈ d1.miners_, ∃ q ∈ d.miners_, q.1 = p.1 := by
    intro p hp
    have : p.1 ∈ d1.miners_.map (fun p => p.1) := List.mem_map.mpr ⟨p, hp, rfl⟩
    rw [hkeys] at this
    exact List.mem_map.mp this
  refine ⟨⟨List.pairwise_map.mp hs1, ?_⟩, ?_⟩
  · intro p hp
    obtain ⟨q, hq, hqp⟩ := hmem p hp
    rw [← hqp]; exact hb q hq
  · intro p hp
    obtain ⟨q, hq, hqp⟩ := hmem p hp
    rw [← hqp]; exact hmax q hq

theorem agentInv_registerWorker {M Job : Type} (c : ExConsts) (env : Collab M Job)
    (d : StratumMessageAgentDispatcher M) (sessionId : Nat) (clientAgent workerName : Bytes)
    (workerId : Int) (hsid : sessionId % 65536 ≤ c.AGENT_MAX_SESSION_ID)
    (hinv : AgentInv c d) :
    AgentInv c (registerWorker env d sessionId clientAgent workerName workerId) := by
  obtain ⟨⟨hs, hb⟩, hmax⟩ := hinv
  refine ⟨⟨mapEmplace_sorted _ _ _ hs, ?_⟩, ?_⟩
  · intro p hp
    rcases mapEmplace_mem _ _ _ p hp with e | e
    · exact hb p e
    · rw [e]; exact Nat.mod_lt _ (by decide)
  · intro p hp
    rcases mapEmplace_mem _ _ _ p hp with e | e
    · exact hmax p e
    · rw [e]; exact hsid

theorem agentInv_unregisterWorker {M : Type} (c : ExConsts)
    (d : StratumMessageAgentDispatcher M) (sessionId : Nat) (hinv : AgentInv c d) :
    AgentInv c (unregisterWorker d sessionId) := by
  obtain ⟨⟨hs, hb⟩, hmax⟩ := hinv
  refine ⟨⟨hs.sublist (List.filter_sublist _), ?_⟩, ?_⟩
  · intro p hp
    exact hb p (List.mem_filter.mp hp).1
  · intro p hp
    exact hmax p (List.mem_filter.mp hp).1

/-- Every call on the dispatcher keeps the invariant. -/
theorem agentInv_step {M Job : Type} (c : ExConsts) (h : Helpers) (env : Collab M Job)
    (d d1 : StratumMessageAgentDispatcher M) (op : AgentOp Job)
    (hstep : agentStep c h env d op = some d1) (hinv : AgentInv c d) : AgentInv c d1 := by
  cases op with
  | handleExMessage exMessage =>
    simp only [agentStep, handleExMessage] at hstep
    split at hstep
    · cases hstep
    · split at hstep
      · cases hstep
      · split at hstep
        · cases hstep
          unfold handleExMessage_RegisterWorker
          split
          · exact hinv
          · simp only []
            split
            · exact hinv
            · rename_i hsid
              apply agentInv_registerWorker c env d _ _ _ _ _ hinv
              rw [Nat.mod_eq_of_lt (sessionIdField_lt exMessage)]
              omega
        · split at hstep
          · cases hstep
            unfold handleExMessage_UnregisterWorker
            split
            · exact hinv
            · exact agentInv_unregisterWorker c d _ hinv
          · split at hstep
            · cases hstep
              exact agentInv_of_keys c d _ (mapUpdate_keys _ _ _) hinv
            · cases hstep
              exact hinv
  | setMinDiff minDiff =>
    cases hstep
    exact agentInv_of_keys c d _ (by simp [setMinDiff]) hinv
  | resetCurDiff curDiff =>
    cases hstep
    exact agentInv_of_keys c d _ (by simp [resetCurDiff]) hinv
  | addLocalJob localJob =>
    cases hstep
    exact agentInv_of_keys c d _ (addLocalJobLoop_keys h env _ _ _) hinv
  | removeLocalJob localJob =>
    cases hstep
    exact agentInv_of_keys c d _ (removeLocalJobLoop_keys env _ _) hinv

theorem agentInv_run {M Job : Type} (c : ExConsts) (h : Helpers) (env : Collab M Job)
    (ops : List (AgentOp Job)) (d d1 : StratumMessageAgentDispatcher M)
    (hrun : agentRun c h env d ops = some d1) (hinv : AgentInv c d) : AgentInv c d1 := by
  induction ops generalizing d with
  | nil =>
    simp only [agentRun, Option.some.injEq] at hrun
    rw [← hrun]; exact hinv
  | cons op ops ih =>
    simp only [agentRun] at hrun
    cases hstep : agentStep c h env d op with
    | none => rw [hstep] at hrun; cases hrun
    | some d2 =>
      rw [hstep] at hrun
      exact ih d2 hrun (agentInv_step c h env d d2 op hstep hinv)

theorem agentInv_init (M : Type) (c : ExConsts) :
    AgentInv c (StratumMessageAgentDispatcher.init M) :=
  ⟨⟨List.Pairwise.nil, fun p hp => by simp [StratumMessageAgentDispatcher.init] at hp⟩,
    fun p hp => by simp [StratumMessageAgentDispatcher.init] at hp⟩

/-- C13. Table invariant: whatever sequence of `handleExMessage`, `setMinDiff`,
`resetCurDiff`, `addLocalJob` and `removeLocalJob` calls is made on a new agent
dispatcher, in every state that is reached every session id of the table is at
most `AGENT_MAX_SESSION_ID` (and the table is a well-formed map with 16-bit
keys). -/
theorem agentRun_sessionId_le_max {M Job : Type} (c : ExConsts) (h : Helpers)
    (env : Collab M Job) (ops : List (AgentOp Job)) (d1 : StratumMessageAgentDispatcher M)
    (hrun : agentRun c h env (StratumMessageAgentDispatcher.init M) ops = some d1) :
    (∀ p ∈ d1.miners_, p.1 ≤ c.AGENT_MAX_SESSION_ID) ∧ IsMinerTable d1.miners_ :=
  have hinv := agentInv_run c h env ops _ d1 hrun (agentInv_init M c)
  ⟨hinv.2, hinv.1⟩

theorem agentRun_sessionId_le_max_witness :
    (∀ p ∈ ([(7, ⟨[97], [98], 315, 4, 2, [frameSubmit7]⟩),
          (65534, ⟨[97], [99], 316, 4, 2, []⟩)] : List (Nat × MockMiner)),
        p.1 ≤ testConsts.AGENT_MAX_SESSION_ID)
      ∧ IsMinerTable ([(7, ⟨[97], [98], 315, 4, 2, [frameSubmit7]⟩),
          (65534, ⟨[97], [99], 316, 4, 2, []⟩)] : List (Nat × MockMiner)) :=
  agentRun_sessionId_le_max testConsts mockHelpers mockEnv sampleOps
    ⟨[(7, ⟨[97], [98], 315, 4, 2, [frameSubmit7]⟩), (65534, ⟨[97], [99], 316, 4, 2, []⟩)],
      [SessionCall.createMiner [97] [98] 315, SessionCall.addWorker [97] [98] 315,
       SessionCall.createMiner [97] [99] 316, SessionCall.addWorker [97] [99] 316,
       SessionCall.sendData [127, 5, 11, 0, 3, 2, 0, 7, 0, 254, 255],
       SessionCall.decodeSessionId frameSubmit7]⟩
    (by decide)

/-! ## `StratumMessageMinerDispatcher::addLocalJob` -/

/-- C14. Miner dispatcher `addLocalJob`: the calls on the session grow by one
`sendSetDifficulty (localJob, newDiff)` when the difficulty that the miner's
`addLocalJob` returns differs from the difficulty `getCurDiff` gave before,
and by nothing when the two are equal; so at most one call is made, and the
job passed is the job the miner was notified of, as the miner left it. -/
theorem minerDispatcher_addLocalJob_calls {M Job : Type} (env : Collab M Job)
    (sendSetDifficulty : Job → Nat → Job) (d : StratumMessageMinerDispatcher M Job)
    (localJob : Job) :
    (StratumMessageMinerDispatcher.addLocalJob env sendSetDifficulty d localJob).1.calls
        = d.calls
          ++ (if (env.minerAddLocalJob d.miner_ localJob).2.2 ≠ env.getCurDiff d.miner_ then
                [MinerSessionCall.sendSetDifficulty (env.minerAddLocalJob d.miner_ localJob).2.1
                  (env.minerAddLocalJob d.miner_ localJob).2.2]
              else [])
      ∧ (StratumMessageMinerDispatcher.addLocalJob env sendSetDifficulty d localJob).1.calls.length
          ≤ d.calls.length + 1
      ∧ (StratumMessageMinerDispatcher.addLocalJob env sendSetDifficulty d localJob).1.miner_
          = (env.minerAddLocalJob d.miner_ localJob).1 := by
  unfold StratumMessageMinerDispatcher.addLocalJob
  simp only []
  split <;> simp

/-- A miner at difficulty 4: a job that sets difficulty 8 makes one
`sendSetDifficulty (job, 8)` call, a job that keeps difficulty 4 makes none. -/
theorem minerDispatcher_addLocalJob_examples :
    (StratumMessageMinerDispatcher.addLocalJob mockEnv (fun job _ => job)
        minerDispatcherAt4 8).1.calls = [MinerSessionCall.sendSetDifficulty 8 8]
      ∧ (StratumMessageMinerDispatcher.addLocalJob mockEnv (fun job _ => job)
        minerDispatcherAt4 4).1.calls = [] := by
  decide


/-! ## `stripEthAddrFromFullName` -/

theorem findChar_of_not_mem (ch : Nat) (l : Bytes) (h : ch ∉ l) : findChar ch l = none := by
  induction l with
  | nil => rfl
  | cons b l ih =>
    have hb : ¬ b = ch := fun e => h (by rw [e]; exact List.mem_cons_self _ _)
    have hl : ch ∉ l := fun hm => h (List.mem_cons_of_mem _ hm)
    simp [findChar, hb, ih hl]

theorem findChar_append (ch : Nat) (l rest : Bytes) (h : ch ∉ l) :
    findChar ch (l ++ ch :: rest) = some l.length := by
  induction l with
  | nil => simp [findChar]
  | cons b l ih =>
    have hb : ¬ b = ch := fun e => h (by rw [e]; exact List.mem_cons_self _ _)
    have hl : ch ∉ l := fun hm => h (List.mem_cons_of_mem _ hm)
    simp [findChar, hb, ih hl]

theorem take_two_eq (l : Bytes) (a b : Nat) (hlen : 2 ≤ l.length) :
    l.take 2 = [a, b] ↔ l.getD 0 0 = a ∧ l.getD 1 0 = b := by
  match l, hlen with
  | x :: y :: rest, _ => simp

/-- C15. `stripEthAddrFromFullName` on a name whose first `.` follows the
segment `addr`: the result is the text after that `.` when `addr` has 42
characters and begins with `0x` or `0X`, and the name itself in every other
case; a name without `.` is returned as it is. -/
theorem stripEthAddrFromFullName_spec (addr rest : Bytes) (hfirst : 46 ∉ addr) :
    ((addr.length = 42 ∧ (addr.take 2 = ascii "0x" ∨ addr.take 2 = ascii "0X")) →
        stripEthAddrFromFullName (addr ++ 46 :: rest) = rest)
      ∧ (¬ (addr.length = 42 ∧ (addr.take 2 = ascii "0x" ∨ addr.take 2 = ascii "0X")) →
        stripEthAddrFromFullName (addr ++ 46 :: rest) = addr ++ 46 :: rest)
      ∧ stripEthAddrFromFullName addr = addr := by
  have h0x : ascii "0x" = [48, 120] := by decide
  have h0X : ascii "0X" = [48, 88] := by decide
  rw [h0x, h0X]
  refine ⟨?_, ?_, ?_⟩
  · rintro ⟨hlen, hpre⟩
    have h2 : 2 ≤ addr.length := by omega
    rw [take_two_eq addr 48 120 h2, take_two_eq addr 48 88 h2] at hpre
    have hg0 : (addr ++ 46 :: rest).getD 0 0 = addr.getD 0 0 :=
      List.getD_append _ _ _ _ (by omega)
    have hg1 : (addr ++ 46 :: rest).getD 1 0 = addr.getD 1 0 :=
      List.getD_append _ _ _ _ (by omega)
    unfold stripEthAddrFromFullName
    simp only []
    rw [findChar_append 46 addr rest hfirst, hg0, hg1, hlen]
    have hc : (some 42 = some 42 ∧ addr.getD 0 0 = 48
        ∧ (addr.getD 1 0 = 120 ∨ addr.getD 1 0 = 88)) := by
      rcases hpre with hp | hp
      · exact ⟨rfl, hp.1, Or.inl hp.2⟩
      · exact ⟨rfl, hp.1, Or.inr hp.2⟩
    rw [if_pos hc]
    have hdrop : (addr ++ 46 :: rest).drop 42 = 46 :: rest := List.drop_left' hlen
    have : (addr ++ 46 :: rest).drop (42 + 1) = ((addr ++ 46 :: rest).drop 42).drop 1 := by
      rw [List.drop_drop]
    rw [this, hdrop]
    rfl
  · intro hnot
    unfold stripEthAddrFromFullName
    simp only []
    rw [findChar_append 46 addr rest hfirst]
    by_cases hlen : addr.length = 42
    · have h2 : 2 ≤ addr.length := by omega
      rw [take_two_eq addr 48 120 h2, take_two_eq addr 48 88 h2] at hnot
      have hg0 : (addr ++ 46 :: rest).getD 0 0 = addr.getD 0 0 :=
        List.getD_append _ _ _ _ (by omega)
      have hg1 : (addr ++ 46 :: rest).getD 1 0 = addr.getD 1 0 :=
        List.getD_append _ _ _ _ (by omega)
      rw [hg0, hg1]
      rw [if_neg]
      rintro ⟨_, h0, h1⟩
      rcases h1 with h1 | h1
      · exact hnot ⟨hlen, Or.inl ⟨h0, h1⟩⟩
      · exact hnot ⟨hlen, Or.inr ⟨h0, h1⟩⟩
    · rw [if_neg]
      rintro ⟨hpos, _⟩
      exact hlen (Option.some.inj hpos)
  · unfold stripEthAddrFromFullName
    simp only []
    rw [findChar_of_not_mem 46 addr hfirst, if_neg]
    rintro ⟨hpos, _⟩
    cases hpos

theorem stripEthAddrFromFullName_spec_witness :
    ((sampleEthAddr.length = 42
          ∧ (sampleEthAddr.take 2 = ascii "0x" ∨ sampleEthAddr.take 2 = ascii "0X")) →
        stripEthAddrFromFullName (sampleEthAddr ++ 46 :: ascii "test.aaa") = ascii "test.aaa")
      ∧ (¬ (sampleEthAddr.length = 42
          ∧ (sampleEthAddr.take 2 = ascii "0x" ∨ sampleEthAddr.take 2 = ascii "0X")) →
        stripEthAddrFromFullName (sampleEthAddr ++ 46 :: ascii "test.aaa")
          = sampleEthAddr ++ 46 :: ascii "test.aaa")
      ∧ stripEthAddrFromFullName sampleEthAddr = sampleEthAddr :=
  stripEthAddrFromFullName_spec sampleEthAddr (ascii "test.aaa") (by decide)

/-- The example of the source comment, and names that are left as they are: a
plain name, a first segment of 41 characters, a 42-character first segment
that does not begin with `0x`. -/
theorem stripEthAddrFromFullName_examples :
    stripEthAddrFromFullName (ascii "0x00d8c82Eb65124Ea3452CaC59B64aCC230AA3482.test.aaa")
        = ascii "test.aaa"
      ∧ stripEthAddrFromFullName (ascii "0X00d8c82Eb65124Ea3452CaC59B64aCC230AA3482.w")
        = ascii "w"
      ∧ stripEthAddrFromFullName (ascii "test.aaa") = ascii "test.aaa"
      ∧ stripEthAddrFromFullName (ascii "0x00d8c82Eb65124Ea3452CaC59B64aCC230AA348.test.aaa")
        = ascii "0x00d8c82Eb65124Ea3452CaC59B64aCC230AA348.test.aaa"
      ∧ stripEthAddrFromFullName (ascii "1x00d8c82Eb65124Ea3452CaC59B64aCC230AA3482.test.aaa")
        = ascii "1x00d8c82Eb65124Ea3452CaC59B64aCC230AA3482.test.aaa" := by
  decide

/-! ## `handleRequest_Authorize` -/

/-- C18, counterexample. An authenticated ETHPROXY session (build without
`WORK_WITH_STRATUM_SWITCHER`) that receives `eth_submitLogin` with the
parameter `test`: the call returns `true` with the full name `test`, nothing
is sent, and the state afterwards is SUBSCRIBED, not AUTHENTICATED. -/
theorem handleRequest_Authorize_leaves_authenticated :
    sessionAuthenticated.state_ = State.AUTHENTICATED
      ∧ sessionAuthenticated.ethProtocol_ = StratumProtocolEth.ETHPROXY
      ∧ handleRequest_Authorize false sessionAuthenticated (ascii "1") requestLogin [] []
        = ({ sessionAuthenticated with state_ := State.SUBSCRIBED }, true, ascii "test", []) := by
  decide

/-- C18, as amended. A request that is an `eth_submitLogin` on an ETHPROXY
session, in a build without `WORK_WITH_STRATUM_SWITCHER`, leaves the session in
state SUBSCRIBED whatever its state was, and returns `true` exactly when there
is a first parameter. For every other request the state is left as it is; in
a state other than SUBSCRIBED the session responds NOT_SUBSCRIBED, `false` is
returned and `fullName` and `password` keep their values; `true` is returned
only from SUBSCRIBED. -/
theorem handleRequest_Authorize_states (switcher : Bool) (s : StratumSessionEth)
    (idStr : Bytes) (req : Request) (fullName password : Bytes) :
    ((switcher = false ∧ s.ethProtocol_ = StratumProtocolEth.ETHPROXY
          ∧ req.method.str = ascii "eth_submitLogin") →
        (handleRequest_Authorize switcher s idStr req fullName password).1.state_
            = State.SUBSCRIBED
          ∧ ((handleRequest_Authorize switcher s idStr req fullName password).2.1 = true
              ↔ 1 ≤ req.params.length))
      ∧ (¬ (switcher = false ∧ s.ethProtocol_ = StratumProtocolEth.ETHPROXY
          ∧ req.method.str = ascii "eth_submitLogin") →
        (handleRequest_Authorize switcher s idStr req fullName password).1.state_ = s.state_
          ∧ (s.state_ ≠ State.SUBSCRIBED →
              handleRequest_Authorize switcher s idStr req fullName password
                = (s.responseError idStr StratumStatus.NOT_SUBSCRIBED, false, fullName,
                    password))
          ∧ ((handleRequest_Authorize switcher s idStr req fullName password).2.1 = true →
              s.state_ = State.SUBSCRIBED)) := by
  constructor
  · intro hex
    unfold handleRequest_Authorize
    simp only []
    rw [if_pos hex]
    simp only [ne_eq, not_true_eq_false, if_false]
    by_cases hp : req.params.length < 1
    · rw [if_pos hp]
      refine ⟨rfl, ⟨fun h => ?_, fun h => ?_⟩⟩
      · cases h
      · omega
    · rw [if_neg hp]
      exact ⟨rfl, ⟨fun _ => by omega, fun _ => rfl⟩⟩
  · intro hex
    unfold handleRequest_Authorize
    simp only []
    rw [if_neg hex]
    by_cases hst : s.state_ = State.SUBSCRIBED
    · by_cases hp : req.params.length < 1
      · simp [hst, hp, StratumSessionEth.responseError]
      · simp [hst, hp]
    · simp [hst, StratumSessionEth.responseError]

/-- Authorize on a session that has subscribed succeeds; on a new STRATUM
session it is refused with NOT_SUBSCRIBED; on a new ETHPROXY session
`eth_submitLogin` succeeds and moves the session to SUBSCRIBED. -/
theorem handleRequest_Authorize_examples :
    handleRequest_Authorize false sessionSubscribed (ascii "3") requestAuthorize [] []
        = (sessionSubscribed, true, ascii "test.aaa", ascii "x")
      ∧ handleRequest_Authorize false
          { StratumSessionEth.init 1 with ethProtocol_ := StratumProtocolEth.STRATUM }
          (ascii "3") requestAuthorize [] []
        = (({ StratumSessionEth.init 1 with
              ethProtocol_ := StratumProtocolEth.STRATUM }).responseError (ascii "3")
            StratumStatus.NOT_SUBSCRIBED, false, [], [])
      ∧ handleRequest_Authorize false (StratumSessionEth.init 1) (ascii "1") requestLogin [] []
        = ({ StratumSessionEth.init 1 with state_ := State.SUBSCRIBED }, true, ascii "test",
            []) := by
  decide

/-! ## `handleRequest_Subscribe` -/

theorem subscribeSetClientAgent_out (eh : EthHelpers) (s : StratumSessionEth)
    (params : List JsonNode) : (subscribeSetClientAgent eh s params).out = s.out := by
  unfold subscribeSetClientAgent
  split <;> rfl

theorem subscribeProtocolStr_nicehash (params : List JsonNode) :
    (subscribeProtocolStr params).take 16 = ascii "ethereumstratum/"
      ↔ (2 ≤ params.length
          ∧ ((params.getD 1 JsonNode.absent).str.map tolower).take 16
              = ascii "ethereumstratum/") := by
  have hne : ¬ (([] : Bytes).take 16 = ascii "ethereumstratum/") := by decide
  unfold subscribeProtocolStr
  by_cases h2 : params.length ≥ 2
  · rw [if_pos h2]
    exact ⟨fun h => ⟨h2, h⟩, fun h => h.2⟩
  · rw [if_neg h2]
    exact ⟨fun h => absurd h hne, fun h => absurd h.1 h2⟩

/-- The build without `WORK_WITH_STRATUM_SWITCHER`, from CONNECTED: the client
agent is set, the dialect is chosen, the state becomes SUBSCRIBED. -/
theorem handleRequest_Subscribe_plain (eh : EthHelpers) (s : StratumSessionEth)
    (idStr : Bytes) (params : List JsonNode) (hstate : s.state_ = State.CONNECTED) :
    handleRequest_Subscribe false eh s idStr params
      = { subscribeSelect false (subscribeSetClientAgent eh s params) idStr
            (subscribeProtocolStr params) with state_ := State.SUBSCRIBED } := by
  unfold handleRequest_Subscribe
  rw [if_neg (by rw [hstate]; simp)]
  simp

/-- C19. `handleRequest_Subscribe` in a state other than CONNECTED, in either
build: the session responds with the error UNKNOWN and does nothing else;
neither `sendData` nor `responseTrue` is called, and the state, the dialect and
the client agent are as before. -/
theorem handleRequest_Subscribe_not_connected (switcher : Bool) (eh : EthHelpers)
    (s : StratumSessionEth) (idStr : Bytes) (params : List JsonNode)
    (hstate : s.state_ ≠ State.CONNECTED) :
    handleRequest_Subscribe switcher eh s idStr params
        = s.responseError idStr StratumStatus.UNKNOWN
      ∧ (handleRequest_Subscribe switcher eh s idStr params).out
        = s.out ++ [SessionOut.responseError idStr StratumStatus.UNKNOWN]
      ∧ (handleRequest_Subscribe switcher eh s idStr params).state_ = s.state_
      ∧ (handleRequest_Subscribe switcher eh s idStr params).ethProtocol_ = s.ethProtocol_
      ∧ (handleRequest_Subscribe switcher eh s idStr params).clientAgent_ = s.clientAgent_ := by
  have h : handleRequest_Subscribe switcher eh s idStr params
      = s.responseError idStr StratumStatus.UNKNOWN := by
    unfold handleRequest_Subscribe
    rw [if_pos hstate]
  rw [h]
  exact ⟨rfl, rfl, rfl, rfl, rfl⟩

theorem handleRequest_Subscribe_not_connected_witness :
    handleRequest_Subscribe false mockEth sessionSubscribed (ascii "1") paramsNiceHash
        = sessionSubscribed.responseError (ascii "1") StratumStatus.UNKNOWN
      ∧ (handleRequest_Subscribe false mockEth sessionSubscribed (ascii "1") paramsNiceHash).out
        = sessionSubscribed.out ++ [SessionOut.responseError (ascii "1") StratumStatus.UNKNOWN]
      ∧ (handleRequest_Subscribe false mockEth sessionSubscribed (ascii "1") paramsNiceHash).state_
        = sessionSubscribed.state_
      ∧ (handleRequest_Subscribe false mockEth sessionSubscribed (ascii "1")
          paramsNiceHash).ethProtocol_ = sessionSubscribed.ethProtocol_
      ∧ (handleRequest_Subscribe false mockEth sessionSubscribed (ascii "1")
          paramsNiceHash).clientAgent_ = sessionSubscribed.clientAgent_ :=
  handleRequest_Subscribe_not_connected false mockEth sessionSubscribed (ascii "1")
    paramsNiceHash (by decide)

theorem tolower_eq_iff (t p : Nat) (hp : ¬ (65 ≤ p ∧ p ≤ 90)) :
    tolower t = p ↔ (t = p ∨ ((97 ≤ p ∧ p ≤ 122) ∧ t + 32 = p)) := by
  unfold tolower
  split <;> omega

theorem take_map_tolower_iff (pattern text : Bytes)
    (hp : ∀ p ∈ pattern, ¬ (65 ≤ p ∧ p ≤ 90)) :
    (text.map tolower).take pattern.length = pattern
      ↔ beginsIgnoringCase pattern text = true := by
  induction pattern generalizing text with
  | nil => simp [beginsIgnoringCase]
  | cons p ps ih =>
    cases text with
    | nil => simp [beginsIgnoringCase]
    | cons t ts =>
      have hp0 := hp p (List.mem_cons_self _ _)
      have ih1 := ih ts (fun q hq => hp q (List.mem_cons_of_mem _ hq))
      simp only [List.map_cons, List.length_cons, List.take_succ_cons, List.cons.injEq,
        beginsIgnoringCase, Bool.and_eq_true, Bool.or_eq_true, beq_iff_eq, decide_eq_true_eq]
      rw [tolower_eq_iff t p hp0, ih1]

theorem subscribeProtocolStr_ignoring_case (params : List JsonNode) :
    (subscribeProtocolStr params).take 16 = ascii "ethereumstratum/"
      ↔ (2 ≤ params.length
          ∧ beginsIgnoringCase (ascii "ethereumstratum/")
              (params.getD 1 JsonNode.absent).str = true) := by
  have h16 := take_map_tolower_iff (ascii "ethereumstratum/")
    (params.getD 1 JsonNode.absent).str (by decide)
  rw [show (ascii "ethereumstratum/").length = 16 from by decide] at h16
  rw [subscribeProtocolStr_nicehash, h16]

/-- C20. `handleRequest_Subscribe` from CONNECTED, in the build without
`WORK_WITH_STRATUM_SWITCHER`: the state becomes SUBSCRIBED; the dialect
becomes NICEHASH_STRATUM exactly when there is a second parameter that begins
with `ethereumstratum/`, each of its first 16 characters being the character
of that text or the upper-case form of it, and STRATUM in every other case, a
missing second parameter included; and for STRATUM the one thing handed to the
transport is `responseTrue (idStr)`. -/
theorem handleRequest_Subscribe_dialect (eh : EthHelpers) (s : StratumSessionEth)
    (idStr : Bytes) (params : List JsonNode) (hstate : s.state_ = State.CONNECTED) :
    (handleRequest_Subscribe false eh s idStr params).state_ = State.SUBSCRIBED
      ∧ ((handleRequest_Subscribe false eh s idStr params).ethProtocol_
            = StratumProtocolEth.NICEHASH_STRATUM
          ↔ (2 ≤ params.length
              ∧ beginsIgnoringCase (ascii "ethereumstratum/")
                  (params.getD 1 JsonNode.absent).str = true))
      ∧ ((handleRequest_Subscribe false eh s idStr params).ethProtocol_
            = StratumProtocolEth.STRATUM
          ↔ ¬ (2 ≤ params.length
              ∧ beginsIgnoringCase (ascii "ethereumstratum/")
                  (params.getD 1 JsonNode.absent).str = true))
      ∧ ((handleRequest_Subscribe false eh s idStr params).ethProtocol_
            = StratumProtocolEth.STRATUM →
          (handleRequest_Subscribe false eh s idStr params).out
            = s.out ++ [SessionOut.responseTrue idStr]) := by
  have hplain := handleRequest_Subscribe_plain eh s idStr params hstate
  have hout := subscribeSetClientAgent_out eh s params
  have hiff := subscribeProtocolStr_ignoring_case params
  by_cases hp : (subscribeProtocolStr params).take 16 = ascii "ethereumstratum/"
  · have hsel : subscribeSelect false (subscribeSetClientAgent eh s params) idStr
          (subscribeProtocolStr params)
        = ({ subscribeSetClientAgent eh s params with
              ethProtocol_ := StratumProtocolEth.NICEHASH_STRATUM }).sendData
            (subscribeNiceHashAck (subscribeSetClientAgent eh s params) idStr) := by
      unfold subscribeSelect
      rw [if_pos hp]
    rw [hplain, hsel]
    refine ⟨rfl, ⟨fun _ => hiff.mp hp, fun _ => rfl⟩, ⟨fun h => ?_, fun h => ?_⟩, fun h => ?_⟩
    · cases h
    · exact absurd (hiff.mp hp) h
    · cases h
  · have hsel : subscribeSelect false (subscribeSetClientAgent eh s params) idStr
          (subscribeProtocolStr params)
        = ({ subscribeSetClientAgent eh s params with
              ethProtocol_ := StratumProtocolEth.STRATUM }).responseTrue idStr := by
      unfold subscribeSelect
      rw [if_neg hp, if_neg (by simp)]
    rw [hplain, hsel]
    refine ⟨rfl, ⟨fun h => ?_, fun h => ?_⟩, ⟨fun _ h => hp (hiff.mpr h), fun _ => rfl⟩,
      fun _ => ?_⟩
    · cases h
    · exact absurd (hiff.mpr h) hp
    · show (subscribeSetClientAgent eh s params).out ++ [SessionOut.responseTrue idStr] = _
      rw [hout]

theorem handleRequest_Subscribe_dialect_witness :
    (handleRequest_Subscribe false mockEth (StratumSessionEth.init 5162741) (ascii "1")
        paramsNiceHash).state_ = State.SUBSCRIBED
      ∧ (handleRequest_Subscribe false mockEth (StratumSessionEth.init 5162741) (ascii "1")
          paramsNiceHash).ethProtocol_ = StratumProtocolEth.NICEHASH_STRATUM
      ∧ (handleRequest_Subscribe false mockEth (StratumSessionEth.init 5162741) (ascii "1")
          [⟨true, ascii "miner/1.0", 0⟩]).ethProtocol_ = StratumProtocolEth.STRATUM
      ∧ (handleRequest_Subscribe false mockEth (StratumSessionEth.init 5162741) (ascii "1")
          [⟨true, ascii "miner/1.0", 0⟩]).out
        = (StratumSessionEth.init 5162741).out ++ [SessionOut.responseTrue (ascii "1")] :=
  ⟨(handleRequest_Subscribe_dialect mockEth (StratumSessionEth.init 5162741) (ascii "1")
      paramsNiceHash (by decide)).1,
    (handleRequest_Subscribe_dialect mockEth (StratumSessionEth.init 5162741) (ascii "1")
      paramsNiceHash (by decide)).2.1.mpr ⟨by decide, by decide⟩,
    (handleRequest_Subscribe_dialect mockEth (StratumSessionEth.init 5162741) (ascii "1")
      [⟨true, ascii "miner/1.0", 0⟩] (by decide)).2.2.1.mpr (by decide),
    (handleRequest_Subscribe_dialect mockEth (StratumSessionEth.init 5162741) (ascii "1")
      [⟨true, ascii "miner/1.0", 0⟩] (by decide)).2.2.2
      ((handleRequest_Subscribe_dialect mockEth (StratumSessionEth.init 5162741) (ascii "1")
        [⟨true, ascii "miner/1.0", 0⟩] (by decide)).2.2.1.mpr (by decide))⟩

/-- The second parameter in upper case, in lower case and in mixed case
selects NICEHASH_STRATUM; without the `/`, with a character in front, or
shorter than 16 characters it selects STRATUM. -/
theorem handleRequest_Subscribe_case_examples :
    (handleRequest_Subscribe false mockEth (StratumSessionEth.init 5162741) (ascii "1")
        [⟨true, ascii "miner/1.0", 0⟩, ⟨true, ascii "ETHEREUMSTRATUM/1.0.0", 0⟩]).ethProtocol_
      = StratumProtocolEth.NICEHASH_STRATUM
      ∧ (handleRequest_Subscribe false mockEth (StratumSessionEth.init 5162741) (ascii "1")
        [⟨true, ascii "miner/1.0", 0⟩, ⟨true, ascii "ethereumstratum/", 0⟩]).ethProtocol_
      = StratumProtocolEth.NICEHASH_STRATUM
      ∧ (handleRequest_Subscribe false mockEth (StratumSessionEth.init 5162741) (ascii "1")
        [⟨true, ascii "miner/1.0", 0⟩, ⟨true, ascii "eThErEuMsTrAtUm/2", 0⟩]).ethProtocol_
      = StratumProtocolEth.NICEHASH_STRATUM
      ∧ (handleRequest_Subscribe false mockEth (StratumSessionEth.init 5162741) (ascii "1")
        [⟨true, ascii "miner/1.0", 0⟩, ⟨true, ascii "EthereumStratum-1.0.0", 0⟩]).ethProtocol_
      = StratumProtocolEth.STRATUM
      ∧ (handleRequest_Subscribe false mockEth (StratumSessionEth.init 5162741) (ascii "1")
        [⟨true, ascii "miner/1.0", 0⟩, ⟨true, ascii " EthereumStratum/1.0.0", 0⟩]).ethProtocol_
      = StratumProtocolEth.STRATUM
      ∧ (handleRequest_Subscribe false mockEth (StratumSessionEth.init 5162741) (ascii "1")
        [⟨true, ascii "miner/1.0", 0⟩, ⟨true, ascii "EthereumStratum", 0⟩]).ethProtocol_
      = StratumProtocolEth.STRATUM
      ∧ beginsIgnoringCase (ascii "ethereumstratum/") (ascii "ETHEREUMSTRATUM/1.0.0") = true
      ∧ beginsIgnoringCase (ascii "ethereumstratum/") (ascii "EthereumStratum?") = false := by
  decide

/-- A subscribe with the protocol `EthereumStratum/1.0.0` selects
NICEHASH_STRATUM and sends the acknowledgment with the nonce prefix `4ec6f5`;
a subscribe with one parameter, or with another protocol, selects STRATUM and
responds `true`. -/
theorem handleRequest_Subscribe_examples :
    (handleRequest_Subscribe false mockEth (StratumSessionEth.init 5162741) (ascii "1")
        paramsNiceHash)
      = { StratumSessionEth.init 5162741 with
          state_ := State.SUBSCRIBED
          ethProtocol_ := StratumProtocolEth.NICEHASH_STRATUM
          clientAgent_ := ascii "miner/1.0"
          out := [SessionOut.sendData (ascii
            "\x7b\"id\":1,\"result\":[[\"mining.notify\",\"4ec6f5\",\"EthereumStratum/1.0.0\"],\"4ec6f5\"],\"error\":null\x7d\n")] }
      ∧ (handleRequest_Subscribe false mockEth (StratumSessionEth.init 5162741) (ascii "1")
        [⟨true, ascii "miner/1.0", 0⟩])
      = { StratumSessionEth.init 5162741 with
          state_ := State.SUBSCRIBED
          ethProtocol_ := StratumProtocolEth.STRATUM
          clientAgent_ := ascii "miner/1.0"
          out := [SessionOut.responseTrue (ascii "1")] }
      ∧ (handleRequest_Subscribe false mockEth (StratumSessionEth.init 5162741) (ascii "1")
        [⟨true, ascii "miner/1.0", 0⟩, ⟨true, ascii "EthProxy/1.0.0", 0⟩]).ethProtocol_
      = StratumProtocolEth.STRATUM := by
  decide


/-! ## `sendMiningNotify` -/

theorem ascii_open : ascii "\x7b\"id\":" = [123, 34, 105, 100, 34, 58] := by decide

theorem cstr_of_no_nul (l : Bytes) (h : ∀ b ∈ l, b % 256 ≠ 0) : cstr l = l := by
  unfold cstr
  apply List.takeWhile_eq_self_iff.mpr
  intro b hb
  simpa using h b hb

theorem isHexDigit_bounds (b : Nat) (h : isHexDigit b = true) : b % 256 ≠ 0 ∧ b ≠ 34 := by
  unfold isHexDigit at h
  simp only [Bool.or_eq_true, Bool.and_eq_true, decide_eq_true_eq] at h
  omega

theorem cstr_of_hex (l : Bytes) (h : ∀ b ∈ l, isHexDigit b = true) : cstr l = l :=
  cstr_of_no_nul l (fun b hb => (isHexDigit_bounds b (h b hb)).1)

theorem strip0x_of_prefixed (h64 : Bytes) (hlen : h64.length = 64) :
    strip0x (ascii "0x" ++ h64) = h64 := by
  have h0x : ascii "0x" = [48, 120] := by decide
  unfold strip0x
  rw [h0x]
  have hl : ([48, 120] ++ h64).length = 66 := by simp [hlen]
  rw [if_pos hl.symm]
  show (h64).take 64 = h64
  rw [← hlen, List.take_length]

theorem notifyFinish_of_nonempty (s : StratumSessionEth) (jobs : List LocalJobEth)
    (r : Bytes × Nat) (hne : r.1 ≠ []) :
    notifyFinish s jobs r
      = { s with localJobs_ := [], nicehashLastSentDiff_ := r.2
                 out := s.out ++ [SessionOut.sendData r.1] } := by
  unfold notifyFinish
  simp only []
  rw [if_pos hne]
  rfl

theorem sendMiningNotifyWithId_of_job (eh : EthHelpers) (s : StratumSessionEth)
    (exJob : StratumJobEx) (ethJob : StratumJobEth) (idStr : Bytes)
    (hauth : s.state_ = State.AUTHENTICATED) (hjob : exJob.sjob_ = some ethJob) :
    sendMiningNotifyWithId eh s (some exJob) idStr
      = (strNotifyOf eh s idStr (strip0x ethJob.headerHash_) (strip0x ethJob.seedHash_)
          (shareTargetOf eh s.localJobs_ ethJob) (effectiveDiff eh s.localJobs_ ethJob)
          exJob.isClean_ ethJob.height_).map
          (notifyFinish s (setLjobDiff (strip0x ethJob.headerHash_)
            (effectiveDiff eh s.localJobs_ ethJob)
            (localJobsWith eh s.localJobs_ ethJob.jobId_ (strip0x ethJob.headerHash_)))) := by
  unfold sendMiningNotifyWithId
  simp only [hauth, hjob, State.rank, Nat.lt_irrefl, if_false]

theorem notifyStratum_ne_nil (idStr header seed target : Bytes) (isClean : Bool) (height : Nat) :
    notifyStratum idStr header seed target isClean height ≠ [] := by
  unfold notifyStratum
  rw [ascii_open]
  simp

theorem notifyEthProxy_ne_nil (idStr header seed target : Bytes) (nonce height : Nat) :
    notifyEthProxy idStr header seed target nonce height ≠ [] := by
  unfold notifyEthProxy
  rw [ascii_open]
  simp

theorem notifyNiceHash_ne_nil (idStr header seed : Bytes) (isClean : Bool) (height : Nat) :
    notifyNiceHash idStr header seed isClean height ≠ [] := by
  unfold notifyNiceHash
  rw [ascii_open]
  simp

theorem strNotifyOf_stratum (eh : EthHelpers) (s : StratumSessionEth) (idStr header seed
    target : Bytes) (diff : Nat) (isClean : Bool) (height : Nat)
    (hproto : s.ethProtocol_ = StratumProtocolEth.STRATUM) :
    strNotifyOf eh s idStr header seed target diff isClean height
      = some (notifyStratum idStr header seed target isClean height,
          s.nicehashLastSentDiff_) := by
  unfold strNotifyOf
  rw [hproto]

theorem strNotifyOf_ethproxy (eh : EthHelpers) (s : StratumSessionEth) (idStr header seed
    target : Bytes) (diff : Nat) (isClean : Bool) (height : Nat)
    (hproto : s.ethProtocol_ = StratumProtocolEth.ETHPROXY) (htarget : 6 ≤ target.length) :
    strNotifyOf eh s idStr header seed target diff isClean height
      = some (notifyEthProxy idStr header seed ((target.drop 6).take 58) s.extraNonce1_ height,
          s.nicehashLastSentDiff_) := by
  unfold strNotifyOf
  rw [hproto]
  simp only []
  rw [if_neg (by omega)]

theorem strNotifyOf_nicehash (eh : EthHelpers) (s : StratumSessionEth) (idStr header seed
    target : Bytes) (diff : Nat) (isClean : Bool) (height : Nat)
    (hproto : s.ethProtocol_ = StratumProtocolEth.NICEHASH_STRATUM) :
    strNotifyOf eh s idStr header seed target diff isClean height
      = some ((if diff ≠ s.nicehashLastSentDiff_ then nicehashSetDifficulty eh idStr diff
                else [])
              ++ notifyNiceHash idStr header seed isClean height, diff) := by
  unfold strNotifyOf
  rw [hproto]
  simp only []
  by_cases hd : diff ≠ s.nicehashLastSentDiff_
  · rw [if_pos hd, if_pos hd]
  · rw [if_neg hd, if_neg hd, List.nil_append]
    have hEq : s.nicehashLastSentDiff_ = diff := by
      by_contra hne
      exact hd (fun e => hne e.symm)
    rw [hEq]

theorem sendMiningNotify_stratum (eh : EthHelpers) (s : StratumSessionEth)
    (exJob : StratumJobEx) (ethJob : StratumJobEth)
    (hauth : s.state_ = State.AUTHENTICATED) (hjob : exJob.sjob_ = some ethJob)
    (hproto : s.ethProtocol_ = StratumProtocolEth.STRATUM) :
    sendMiningNotify eh s (some exJob)
      = some { s with
          localJobs_ := []
          out := s.out ++ [SessionOut.sendData (notifyStratum (ascii "null")
            (strip0x ethJob.headerHash_) (strip0x ethJob.seedHash_)
            (shareTargetOf eh s.localJobs_ ethJob) exJob.isClean_ ethJob.height_)] } := by
  unfold sendMiningNotify
  rw [if_neg (by rw [hproto]; decide), sendMiningNotifyWithId_of_job eh s exJob ethJob _ hauth hjob,
    strNotifyOf_stratum eh s _ _ _ _ _ _ _ hproto]
  simp only [Option.map_some']
  rw [notifyFinish_of_nonempty _ _ _ (notifyStratum_ne_nil _ _ _ _ _ _)]

theorem sendMiningNotify_ethproxy (eh : EthHelpers) (s : StratumSessionEth)
    (exJob : StratumJobEx) (ethJob : StratumJobEth)
    (hauth : s.state_ = State.AUTHENTICATED) (hjob : exJob.sjob_ = some ethJob)
    (hproto : s.ethProtocol_ = StratumProtocolEth.ETHPROXY)
    (htarget : 6 ≤ (shareTargetOf eh s.localJobs_ ethJob).length) :
    sendMiningNotify eh s (some exJob)
      = some { s with
          localJobs_ := []
          out := s.out ++ [SessionOut.sendData (notifyEthProxy (ascii "0")
            (strip0x ethJob.headerHash_) (strip0x ethJob.seedHash_)
            (((shareTargetOf eh s.localJobs_ ethJob).drop 6).take 58) s.extraNonce1_
            ethJob.height_)] } := by
  unfold sendMiningNotify
  rw [if_pos hproto.symm, sendMiningNotifyWithId_of_job eh s exJob ethJob _ hauth hjob,
    strNotifyOf_ethproxy eh s _ _ _ _ _ _ _ hproto htarget]
  simp only [Option.map_some']
  rw [notifyFinish_of_nonempty _ _ _ (notifyEthProxy_ne_nil _ _ _ _ _ _)]

theorem sendMiningNotify_nicehash (eh : EthHelpers) (s : StratumSessionEth)
    (exJob : StratumJobEx) (ethJob : StratumJobEth)
    (hauth : s.state_ = State.AUTHENTICATED) (hjob : exJob.sjob_ = some ethJob)
    (hproto : s.ethProtocol_ = StratumProtocolEth.NICEHASH_STRATUM) :
    sendMiningNotify eh s (some exJob)
      = some { s with
          localJobs_ := []
          nicehashLastSentDiff_ := effectiveDiff eh s.localJobs_ ethJob
          out := s.out ++ [SessionOut.sendData
            ((if effectiveDiff eh s.localJobs_ ethJob ≠ s.nicehashLastSentDiff_ then
                nicehashSetDifficulty eh (ascii "null") (effectiveDiff eh s.localJobs_ ethJob)
              else [])
              ++ notifyNiceHash (ascii "null") (strip0x ethJob.headerHash_)
                  (strip0x ethJob.seedHash_) exJob.isClean_ ethJob.height_)] } := by
  unfold sendMiningNotify
  rw [if_neg (by rw [hproto]; decide), sendMiningNotifyWithId_of_job eh s exJob ethJob _ hauth hjob,
    strNotifyOf_nicehash eh s _ _ _ _ _ _ _ hproto]
  simp only [Option.map_some']
  rw [notifyFinish_of_nonempty _ _ _ (by
    simp only [ne_eq, List.append_eq_nil, not_and]
    exact fun _ => notifyNiceHash_ne_nil _ _ _ _ _)]

/-! ## The header field of the notify -/

theorem stratum_open :
    ascii "\x7b\"id\":" ++ cstr (ascii "null")
        ++ ascii ",\"method\":\"mining.notify\",\"params\":[\""
      = ascii "\x7b\"id\":null,\"method\":\"mining.notify\",\"params\":[\"" := by
  decide

theorem ethproxy_open :
    ascii "\x7b\"id\":" ++ cstr (ascii "0") ++ ascii ",\"jsonrpc\":\"2.0\",\"result\":[\"0x"
      = ascii "\x7b\"id\":0,\"jsonrpc\":\"2.0\",\"result\":[\"" ++ ascii "0x" := by
  decide

theorem ascii_sep : ascii "\",\"" = 34 :: ascii ",\"" := by decide

set_option maxRecDepth 100000 in
/-- C16, counterexample. An authenticated ETHPROXY session and a job whose
header hash is `0x` followed by 64 hex characters: the first element of the
result array of the payload is `0x` followed by the 64 characters, not the 64
characters alone. -/
theorem sendMiningNotify_ethproxy_header_keeps_0x :
    (sessionNotify StratumProtocolEth.ETHPROXY).state_ = State.AUTHENTICATED
      ∧ (sampleJob (2 ^ 254)).sjob_.map (fun j => j.headerHash_)
        = some (ascii "0x" ++ sampleHeader64)
      ∧ (sendMiningNotify mockEth (sessionNotify StratumProtocolEth.ETHPROXY)
          (some (sampleJob (2 ^ 254)))).map (fun s => s.out)
        = some [SessionOut.sendData
            (ascii "\x7b\"id\":0,\"jsonrpc\":\"2.0\",\"result\":[\"" ++ (ascii "0x" ++ sampleHeader64)
              ++ 34 :: ascii ",\"0x1261dfe17d0bf58cb2861ae84734488b1463d282b7ee88ccfa18b7a92a7b77f7\",\"0x0000000000000000000000000000000000000000000000000000000000\",\"4ec6f5\"],\"height\":6000000\x7d\n")]
      ∧ ascii "0x" ++ sampleHeader64 ≠ sampleHeader64 := by
  decide

theorem setDifficulty_open :
    ascii "\x7b\"id\":" ++ cstr (ascii "null")
        ++ ascii ",\"method\":\"mining.set_difficulty\",\"params\":["
      = ascii "\x7b\"id\":null,\"method\":\"mining.set_difficulty\",\"params\":[" := by
  decide

theorem ethproxy_open_0x :
    ascii "\x7b\"id\":" ++ cstr (ascii "0") ++ ascii ",\"jsonrpc\":\"2.0\",\"result\":[\"0x"
      = ascii "\x7b\"id\":0,\"jsonrpc\":\"2.0\",\"result\":[\"0x" := by
  decide

theorem nicehashSetDifficulty_null (eh : EthHelpers) (diff : Nat) :
    nicehashSetDifficulty eh (ascii "null") diff = setDifficultyText eh diff := by
  unfold nicehashSetDifficulty setDifficultyText
  rw [setDifficulty_open]

theorem notifyNiceHash_null (j : StratumJobEth × Bool) :
    notifyNiceHash (ascii "null") (strip0x j.1.headerHash_) (strip0x j.1.seedHash_) j.2
        j.1.height_
      = nicehashNotifyOf j := by
  unfold notifyNiceHash nicehashNotifyOf boolText
  rw [stratum_open]

theorem hex_not_0x (h64 : Bytes) (hhex : ∀ b ∈ h64, isHexDigit b = true) :
    h64.take 2 ≠ ascii "0x" := by
  have h0x : ascii "0x" = [48, 120] := by decide
  rw [h0x]
  intro htake
  cases h64 with
  | nil => simp at htake
  | cons a rest =>
    cases rest with
    | nil => simp at htake
    | cons b rest2 =>
      simp only [List.take_succ_cons, List.take_zero, List.cons.injEq, and_true] at htake
      have hb := hhex b (by simp)
      rw [htake.2] at hb
      exact absurd hb (by decide)

/-- C16, as amended. For an authenticated session and a job whose header hash
is `0x` followed by the 64 hex characters `h64`, the payload that
`sendMiningNotify` sends is, written out: in the STRATUM dialect the
`mining.notify` whose job id and header, the first and the second parameter,
are both exactly `h64`; in the NICEHASH_STRATUM dialect the `mining.notify`
(after a `mining.set_difficulty` when the difficulty differs from the one sent
last) whose job id and header, the first and the third parameter, are both
exactly `h64`; in the ETHPROXY dialect (share target of at least 6 characters)
the result array whose first element is `0x` followed by `h64`. The text `h64`
itself does not begin with `0x`. -/
theorem sendMiningNotify_header_field (eh : EthHelpers) (s : StratumSessionEth)
    (exJob : StratumJobEx) (ethJob : StratumJobEth) (h64 : Bytes)
    (hauth : s.state_ = State.AUTHENTICATED) (hjob : exJob.sjob_ = some ethJob)
    (hhdr : ethJob.headerHash_ = ascii "0x" ++ h64) (hlen : h64.length = 64)
    (hhex : ∀ b ∈ h64, isHexDigit b = true) :
    (s.ethProtocol_ = StratumProtocolEth.STRATUM →
        ∃ s1, sendMiningNotify eh s (some exJob) = some s1
          ∧ s1.out = s.out ++ [SessionOut.sendData
              (ascii "\x7b\"id\":null,\"method\":\"mining.notify\",\"params\":[\"" ++ h64
                ++ ascii "\",\"" ++ h64
                ++ ascii "\",\"" ++ cstr (strip0x ethJob.seedHash_)
                ++ ascii "\",\"" ++ cstr (shareTargetOf eh s.localJobs_ ethJob)
                ++ ascii "\"," ++ (if exJob.isClean_ = true then ascii "true" else ascii "false")
                ++ ascii "],\"height\":" ++ fmtLu ethJob.height_ ++ ascii "\x7d\n")])
      ∧ (s.ethProtocol_ = StratumProtocolEth.NICEHASH_STRATUM →
        ∃ s1, sendMiningNotify eh s (some exJob) = some s1
          ∧ s1.out = s.out ++ [SessionOut.sendData
              ((if effectiveDiff eh s.localJobs_ ethJob ≠ s.nicehashLastSentDiff_ then
                  setDifficultyText eh (effectiveDiff eh s.localJobs_ ethJob)
                else [])
                ++ (ascii "\x7b\"id\":null,\"method\":\"mining.notify\",\"params\":[\"" ++ h64
                  ++ ascii "\",\"" ++ cstr (strip0x ethJob.seedHash_)
                  ++ ascii "\",\"" ++ h64
                  ++ ascii "\"," ++ (if exJob.isClean_ = true then ascii "true" else ascii "false")
                  ++ ascii "],\"height\":" ++ fmtLu ethJob.height_ ++ ascii "\x7d\n"))])
      ∧ (s.ethProtocol_ = StratumProtocolEth.ETHPROXY →
        6 ≤ (shareTargetOf eh s.localJobs_ ethJob).length →
        ∃ s1, sendMiningNotify eh s (some exJob) = some s1
          ∧ s1.out = s.out ++ [SessionOut.sendData
              (ascii "\x7b\"id\":0,\"jsonrpc\":\"2.0\",\"result\":[\"0x" ++ h64
                ++ ascii "\",\"0x" ++ cstr (strip0x ethJob.seedHash_)
                ++ ascii "\",\"0x"
                ++ cstr (((shareTargetOf eh s.localJobs_ ethJob).drop 6).take 58)
                ++ ascii "\",\"" ++ fmt06x s.extraNonce1_
                ++ ascii "\"],\"height\":" ++ fmtLu ethJob.height_ ++ ascii "\x7d\n")])
      ∧ h64.take 2 ≠ ascii "0x" := by
  have hstrip : strip0x ethJob.headerHash_ = h64 := by
    rw [hhdr]; exact strip0x_of_prefixed h64 hlen
  have hc : cstr h64 = h64 := cstr_of_hex h64 hhex
  refine ⟨fun hproto => ?_, fun hproto => ?_, fun hproto htarget => ?_, hex_not_0x h64 hhex⟩
  · refine ⟨_, sendMiningNotify_stratum eh s exJob ethJob hauth hjob hproto, ?_⟩
    show s.out ++ _ = _
    rw [hstrip]
    unfold notifyStratum boolText
    rw [stratum_open, hc]
  · refine ⟨_, sendMiningNotify_nicehash eh s exJob ethJob hauth hjob hproto, ?_⟩
    show s.out ++ _ = _
    rw [hstrip, nicehashSetDifficulty_null]
    unfold notifyNiceHash boolText
    rw [stratum_open, hc]
  · refine ⟨_, sendMiningNotify_ethproxy eh s exJob ethJob hauth hjob hproto htarget, ?_⟩
    show s.out ++ _ = _
    rw [hstrip]
    unfold notifyEthProxy
    rw [ethproxy_open_0x, hc]

theorem sendMiningNotify_header_field_witness :
    (∃ s1, sendMiningNotify mockEth (sessionNotify StratumProtocolEth.STRATUM)
          (some (sampleJob (2 ^ 254))) = some s1
        ∧ s1.out = (sessionNotify StratumProtocolEth.STRATUM).out ++ [SessionOut.sendData
            (ascii "\x7b\"id\":null,\"method\":\"mining.notify\",\"params\":[\"" ++ sampleHeader64
              ++ ascii "\",\"" ++ sampleHeader64
              ++ ascii "\",\"" ++ cstr (strip0x (sampleEthJob (2 ^ 254)).seedHash_)
              ++ ascii "\",\""
              ++ cstr (shareTargetOf mockEth (sessionNotify StratumProtocolEth.STRATUM).localJobs_
                  (sampleEthJob (2 ^ 254)))
              ++ ascii "\","
              ++ (if (sampleJob (2 ^ 254)).isClean_ = true then ascii "true" else ascii "false")
              ++ ascii "],\"height\":" ++ fmtLu (sampleEthJob (2 ^ 254)).height_
              ++ ascii "\x7d\n")])
      ∧ (∃ s1, sendMiningNotify mockEth (sessionNotify StratumProtocolEth.NICEHASH_STRATUM)
          (some (sampleJob (2 ^ 254))) = some s1
        ∧ s1.out = (sessionNotify StratumProtocolEth.NICEHASH_STRATUM).out
          ++ [SessionOut.sendData
            ((if effectiveDiff mockEth
                  (sessionNotify StratumProtocolEth.NICEHASH_STRATUM).localJobs_
                  (sampleEthJob (2 ^ 254))
                ≠ (sessionNotify StratumProtocolEth.NICEHASH_STRATUM).nicehashLastSentDiff_ then
                setDifficultyText mockEth (effectiveDiff mockEth
                  (sessionNotify StratumProtocolEth.NICEHASH_STRATUM).localJobs_
                  (sampleEthJob (2 ^ 254)))
              else [])
              ++ (ascii "\x7b\"id\":null,\"method\":\"mining.notify\",\"params\":[\""
                ++ sampleHeader64
                ++ ascii "\",\"" ++ cstr (strip0x (sampleEthJob (2 ^ 254)).seedHash_)
                ++ ascii "\",\"" ++ sampleHeader64
                ++ ascii "\","
                ++ (if (sampleJob (2 ^ 254)).isClean_ = true then ascii "true" else ascii "false")
                ++ ascii "],\"height\":" ++ fmtLu (sampleEthJob (2 ^ 254)).height_
                ++ ascii "\x7d\n"))])
      ∧ (∃ s1, sendMiningNotify mockEth (sessionNotify StratumProtocolEth.ETHPROXY)
          (some (sampleJob (2 ^ 254))) = some s1
        ∧ s1.out = (sessionNotify StratumProtocolEth.ETHPROXY).out ++ [SessionOut.sendData
            (ascii "\x7b\"id\":0,\"jsonrpc\":\"2.0\",\"result\":[\"0x" ++ sampleHeader64
              ++ ascii "\",\"0x" ++ cstr (strip0x (sampleEthJob (2 ^ 254)).seedHash_)
              ++ ascii "\",\"0x"
              ++ cstr (((shareTargetOf mockEth
                  (sessionNotify StratumProtocolEth.ETHPROXY).localJobs_
                  (sampleEthJob (2 ^ 254))).drop 6).take 58)
              ++ ascii "\",\"" ++ fmt06x (sessionNotify StratumProtocolEth.ETHPROXY).extraNonce1_
              ++ ascii "\"],\"height\":" ++ fmtLu (sampleEthJob (2 ^ 254)).height_
              ++ ascii "\x7d\n")]) :=
  ⟨(sendMiningNotify_header_field mockEth (sessionNotify StratumProtocolEth.STRATUM)
      (sampleJob (2 ^ 254)) (sampleEthJob (2 ^ 254)) sampleHeader64 rfl rfl rfl (by decide)
      (by decide)).1 rfl,
    (sendMiningNotify_header_field mockEth (sessionNotify StratumProtocolEth.NICEHASH_STRATUM)
      (sampleJob (2 ^ 254)) (sampleEthJob (2 ^ 254)) sampleHeader64 rfl rfl rfl (by decide)
      (by decide)).2.1 rfl,
    (sendMiningNotify_header_field mockEth (sessionNotify StratumProtocolEth.ETHPROXY)
      (sampleJob (2 ^ 254)) (sampleEthJob (2 ^ 254)) sampleHeader64 rfl rfl rfl (by decide)
      (by decide)).2.2.1 rfl (by decide)⟩

set_option maxRecDepth 100000 in
/-- The payloads of the three dialects for the sample job, written out: the
header is without `0x` at both of its places in the STRATUM and in the
NICEHASH_STRATUM `mining.notify`, and with `0x` in the ETHPROXY result. -/
theorem sendMiningNotify_header_examples :
    (sendMiningNotify mockEth (sessionNotify StratumProtocolEth.STRATUM)
        (some (sampleJob (2 ^ 254)))).map (fun s => s.out)
      = some [SessionOut.sendData (ascii "\x7b\"id\":null,\"method\":\"mining.notify\",\"params\":[\"599fffbc07777d4b6455c0e7ca479c9edbceef6c3fec956fecaaf4f2c727a492\",\"599fffbc07777d4b6455c0e7ca479c9edbceef6c3fec956fecaaf4f2c727a492\",\"1261dfe17d0bf58cb2861ae84734488b1463d282b7ee88ccfa18b7a92a7b77f7\",\"4000000000000000000000000000000000000000000000000000000000000000\",true],\"height\":6000000\x7d\n")]
      ∧ (sendMiningNotify mockEth (sessionNotify StratumProtocolEth.NICEHASH_STRATUM)
          (some (sampleJob (2 ^ 254)))).map (fun s => s.out)
        = some [SessionOut.sendData (ascii "\x7b\"id\":null,\"method\":\"mining.set_difficulty\",\"params\":[4]\x7d\n\x7b\"id\":null,\"method\":\"mining.notify\",\"params\":[\"599fffbc07777d4b6455c0e7ca479c9edbceef6c3fec956fecaaf4f2c727a492\",\"1261dfe17d0bf58cb2861ae84734488b1463d282b7ee88ccfa18b7a92a7b77f7\",\"599fffbc07777d4b6455c0e7ca479c9edbceef6c3fec956fecaaf4f2c727a492\",true],\"height\":6000000\x7d\n")]
      ∧ (sendMiningNotify mockEth (sessionNotify StratumProtocolEth.ETHPROXY)
          (some (sampleJob (2 ^ 254)))).map (fun s => s.out)
        = some [SessionOut.sendData (ascii "\x7b\"id\":0,\"jsonrpc\":\"2.0\",\"result\":[\"0x599fffbc07777d4b6455c0e7ca479c9edbceef6c3fec956fecaaf4f2c727a492\",\"0x1261dfe17d0bf58cb2861ae84734488b1463d282b7ee88ccfa18b7a92a7b77f7\",\"0x0000000000000000000000000000000000000000000000000000000000\",\"4ec6f5\"],\"height\":6000000\x7d\n")] := by
  decide

/-! ## NICEHASH_STRATUM: when `mining.set_difficulty` is sent -/

/-- A run of notifies on a NICEHASH_STRATUM session, from any value of
`nicehashLastSentDiff_`: what is sent, and the value afterwards. -/
theorem notifyRun_nicehash (eh : EthHelpers) (jobs : List (StratumJobEth × Bool))
    (s : StratumSessionEth) (hproto : s.ethProtocol_ = StratumProtocolEth.NICEHASH_STRATUM)
    (hauth : s.state_ = State.AUTHENTICATED) :
    ∃ s1, notifyRun eh s (jobs.map toJobEx) = some s1
      ∧ s1.out = s.out
          ++ (nicehashSent eh s.nicehashLastSentDiff_ s.localJobs_ jobs).map SessionOut.sendData
      ∧ s1.nicehashLastSentDiff_ = nicehashLastOf eh s.nicehashLastSentDiff_ s.localJobs_ jobs
      ∧ s1.ethProtocol_ = StratumProtocolEth.NICEHASH_STRATUM
      ∧ s1.state_ = State.AUTHENTICATED := by
  induction jobs generalizing s with
  | nil => exact ⟨s, rfl, by simp [nicehashSent], rfl, hproto, hauth⟩
  | cons j rest ih =>
    have hstep := sendMiningNotify_nicehash eh s (toJobEx j) j.1 hauth rfl hproto
    obtain ⟨s1, hrun, hout, hlast, hp1, ha1⟩ := ih
      { s with
        localJobs_ := []
        nicehashLastSentDiff_ := effectiveDiff eh s.localJobs_ j.1
        out := s.out ++ [SessionOut.sendData
          ((if effectiveDiff eh s.localJobs_ j.1 ≠ s.nicehashLastSentDiff_ then
              nicehashSetDifficulty eh (ascii "null") (effectiveDiff eh s.localJobs_ j.1)
            else [])
            ++ notifyNiceHash (ascii "null") (strip0x j.1.headerHash_)
                (strip0x j.1.seedHash_) (toJobEx j).isClean_ j.1.height_)] }
      hproto hauth
    refine ⟨s1, ?_, ?_, hlast, hp1, ha1⟩
    · simp only [List.map_cons, notifyRun]
      rw [hstep]
      exact hrun
    · rw [hout]
      have htext : (if effectiveDiff eh s.localJobs_ j.1 ≠ s.nicehashLastSentDiff_ then
              nicehashSetDifficulty eh (ascii "null") (effectiveDiff eh s.localJobs_ j.1)
            else [])
            ++ notifyNiceHash (ascii "null") (strip0x j.1.headerHash_)
                (strip0x j.1.seedHash_) (toJobEx j).isClean_ j.1.height_
          = (if effectiveDiff eh s.localJobs_ j.1 ≠ s.nicehashLastSentDiff_ then
              setDifficultyText eh (effectiveDiff eh s.localJobs_ j.1) ++ nicehashNotifyOf j
            else nicehashNotifyOf j) := by
        show _ ++ notifyNiceHash (ascii "null") (strip0x j.1.headerHash_)
                (strip0x j.1.seedHash_) j.2 j.1.height_ = _
        rw [notifyNiceHash_null, nicehashSetDifficulty_null]
        split
        · rfl
        · rfl
      rw [htext]
      simp only [nicehashSent, List.map_cons, List.append_assoc, List.singleton_append]

set_option maxRecDepth 100000 in
/-- C17, counterexample. A new NICEHASH_STRATUM session, whose
`nicehashLastSentDiff_` is 0, and a first notify whose difficulty is 0: what
is sent is the `mining.notify` alone, with no `mining.set_difficulty` before
it. -/
theorem notifyRun_nicehash_first_notify_alone :
    (sessionNotify StratumProtocolEth.NICEHASH_STRATUM).nicehashLastSentDiff_ = 0
      ∧ effectiveDiff mockEth (sessionNotify StratumProtocolEth.NICEHASH_STRATUM).localJobs_
          (sampleEthJob (2 ^ 192)) = 0
      ∧ (notifyRun mockEth (sessionNotify StratumProtocolEth.NICEHASH_STRATUM)
          [sampleJob (2 ^ 192)]).map (fun s => s.out)
        = some [SessionOut.sendData (ascii "\x7b\"id\":null,\"method\":\"mining.notify\",\"params\":[\"599fffbc07777d4b6455c0e7ca479c9edbceef6c3fec956fecaaf4f2c727a492\",\"1261dfe17d0bf58cb2861ae84734488b1463d282b7ee88ccfa18b7a92a7b77f7\",\"599fffbc07777d4b6455c0e7ca479c9edbceef6c3fec956fecaaf4f2c727a492\",true],\"height\":6000000\x7d\n")]
      ∧ (notifyRun mockEth (sessionNotify StratumProtocolEth.NICEHASH_STRATUM)
          [sampleJob (2 ^ 192)]).map (fun s => s.out)
        ≠ some ((nicehashExpected mockEth [] [sampleJobPair (2 ^ 192)]).map
            SessionOut.sendData) := by
  decide

/-- C17, as amended. NICEHASH_STRATUM, any sequence of notifies on an
authenticated session: all the notifies are sent, one string each, and a
`mining.set_difficulty` goes before the `mining.notify` on exactly those
notifies whose difficulty differs from the difficulty sent last, which is
`nicehashLastSentDiff_` at the start and the difficulty of the notify before
afterwards; at the end `nicehashLastSentDiff_` is the difficulty of the last
notify. On a new session, where the difficulty sent last is 0, the first
notify carries a `mining.set_difficulty` when its difficulty is not 0, and is
the `mining.notify` alone when its difficulty is 0. -/
theorem notifyRun_nicehash_set_difficulty (eh : EthHelpers)
    (jobs : List (StratumJobEth × Bool)) (s : StratumSessionEth)
    (hproto : s.ethProtocol_ = StratumProtocolEth.NICEHASH_STRATUM)
    (hauth : s.state_ = State.AUTHENTICATED) :
    ∃ s1, notifyRun eh s (jobs.map toJobEx) = some s1
      ∧ s1.out = s.out
          ++ (nicehashSent eh s.nicehashLastSentDiff_ s.localJobs_ jobs).map SessionOut.sendData
      ∧ s1.nicehashLastSentDiff_ = nicehashLastOf eh s.nicehashLastSentDiff_ s.localJobs_ jobs
      ∧ (∀ j rest, jobs = j :: rest → s.nicehashLastSentDiff_ = 0 →
          (effectiveDiff eh s.localJobs_ j.1 ≠ 0 →
              nicehashSent eh s.nicehashLastSentDiff_ s.localJobs_ jobs
                = nicehashExpected eh s.localJobs_ jobs)
            ∧ (effectiveDiff eh s.localJobs_ j.1 = 0 →
              nicehashSent eh s.nicehashLastSentDiff_ s.localJobs_ jobs
                = nicehashNotifyOf j :: nicehashSent eh 0 [] rest)) := by
  obtain ⟨s1, hrun, hout, hlast, _, _⟩ := notifyRun_nicehash eh jobs s hproto hauth
  refine ⟨s1, hrun, hout, hlast, ?_⟩
  intro j rest hjobs hnone
  rw [hjobs, hnone]
  constructor
  · intro hd
    simp only [nicehashSent, nicehashExpected]
    rw [if_pos hd]
  · intro hd
    simp only [nicehashSent]
    rw [if_neg (by rw [hd]; simp), hd]

theorem notifyRun_nicehash_set_difficulty_witness :
    ∃ s1, notifyRun mockEth (sessionNotify StratumProtocolEth.NICEHASH_STRATUM)
          (sampleJobs.map toJobEx) = some s1
      ∧ s1.out = (sessionNotify StratumProtocolEth.NICEHASH_STRATUM).out
          ++ (nicehashSent mockEth
                (sessionNotify StratumProtocolEth.NICEHASH_STRATUM).nicehashLastSentDiff_
                (sessionNotify StratumProtocolEth.NICEHASH_STRATUM).localJobs_
                sampleJobs).map SessionOut.sendData
      ∧ s1.nicehashLastSentDiff_
        = nicehashLastOf mockEth
            (sessionNotify StratumProtocolEth.NICEHASH_STRATUM).nicehashLastSentDiff_
            (sessionNotify StratumProtocolEth.NICEHASH_STRATUM).localJobs_ sampleJobs :=
  (notifyRun_nicehash_set_difficulty mockEth sampleJobs
    (sessionNotify StratumProtocolEth.NICEHASH_STRATUM) rfl rfl).imp
    (fun _ h => ⟨h.1, h.2.1, h.2.2.1⟩)

set_option maxRecDepth 100000 in
/-- What is to be sent for the notifies of difficulties 4, 4 and 8 on a new
session, written out: the first and the third string begin with a
`mining.set_difficulty`, of 4 and of 8, the second is the `mining.notify`
alone. -/
theorem nicehashSent_example :
    nicehashSent mockEth 0 [] sampleJobs
      = [ascii "\x7b\"id\":null,\"method\":\"mining.set_difficulty\",\"params\":[4]\x7d\n\x7b\"id\":null,\"method\":\"mining.notify\",\"params\":[\"599fffbc07777d4b6455c0e7ca479c9edbceef6c3fec956fecaaf4f2c727a492\",\"1261dfe17d0bf58cb2861ae84734488b1463d282b7ee88ccfa18b7a92a7b77f7\",\"599fffbc07777d4b6455c0e7ca479c9edbceef6c3fec956fecaaf4f2c727a492\",true],\"height\":6000000\x7d\n",
         ascii "\x7b\"id\":null,\"method\":\"mining.notify\",\"params\":[\"599fffbc07777d4b6455c0e7ca479c9edbceef6c3fec956fecaaf4f2c727a492\",\"1261dfe17d0bf58cb2861ae84734488b1463d282b7ee88ccfa18b7a92a7b77f7\",\"599fffbc07777d4b6455c0e7ca479c9edbceef6c3fec956fecaaf4f2c727a492\",true],\"height\":6000000\x7d\n",
         ascii "\x7b\"id\":null,\"method\":\"mining.set_difficulty\",\"params\":[8]\x7d\n\x7b\"id\":null,\"method\":\"mining.notify\",\"params\":[\"599fffbc07777d4b6455c0e7ca479c9edbceef6c3fec956fecaaf4f2c727a492\",\"1261dfe17d0bf58cb2861ae84734488b1463d282b7ee88ccfa18b7a92a7b77f7\",\"599fffbc07777d4b6455c0e7ca479c9edbceef6c3fec956fecaaf4f2c727a492\",true],\"height\":6000000\x7d\n"]
      ∧ nicehashLastOf mockEth 0 [] sampleJobs = 8 := by
  decide

set_option maxRecDepth 100000 in
/-- Three notifies of difficulties 4, 4 and 8 on a new NICEHASH_STRATUM
session: `mining.set_difficulty` is sent with the first and the third, not
with the second, and the difficulty sent last is 8 afterwards. -/
theorem notifyRun_nicehash_example :
    (notifyRun mockEth (sessionNotify StratumProtocolEth.NICEHASH_STRATUM)
        (sampleJobs.map toJobEx)).map (fun s => (s.out.map (fun o =>
          match o with
          | SessionOut.sendData d => d.take 44
          | _ => []), s.nicehashLastSentDiff_))
      = some ([ascii "\x7b\"id\":null,\"method\":\"mining.set_difficulty\",",
               ascii "\x7b\"id\":null,\"method\":\"mining.notify\",\"params\"",
               ascii "\x7b\"id\":null,\"method\":\"mining.set_difficulty\","], 8) := by
  decide

/-! ## C24: `registerWorker` and the worker registry -/

/-- C24, at the failing input. The second `registerWorker` for session id 7
(client agent `a`, worker `c`, worker id 316) ends with `addWorker` for that
worker, yet the table does not hold the miner created by that call: it maps 7
to the miner of the first call, and no entry of the table is the new miner. -/
theorem registerWorker_notifies_worker_the_table_drops :
    agentAfterC = registerWorker mockEnv agentWithB 7 [97] [99] 316
      ∧ agentAfterC.calls.getLast? = some (SessionCall.addWorker [97] [99] 316)
      ∧ mapFind agentAfterC.miners_ 7 ≠ some (mockEnv.createMiner [97] [99] 316)
      ∧ (∀ p ∈ agentAfterC.miners_, p.2 ≠ mockEnv.createMiner [97] [99] 316)
      ∧ agentAfterC.miners_ = agentWithB.miners_ := by
  decide

/-! ## C25: the fan-out calls -/

theorem mapFind_map_snd {α : Type} (f : α → α) (m : List (Nat × α)) (k : Nat) :
    mapFind (m.map (fun p => (p.1, f p.2))) k = (mapFind m k).map f := by
  induction m with
  | nil => rfl
  | cons p rest ih =>
    unfold mapFind at ih ⊢
    rw [List.map_cons]
    by_cases hk : p.1 = k
    · rw [List.find?_cons_of_pos _ (by simpa using hk),
        List.find?_cons_of_pos _ (by simpa using hk)]
      rfl
    · rw [List.find?_cons_of_neg _ (by simpa using hk),
        List.find?_cons_of_neg _ (by simpa using hk)]
      exact ih

theorem removeLocalJobLoop_eq_zipWith {M Job : Type} (env : Collab M Job)
    (miners : List (Nat × M)) (localJob : Job) :
    (removeLocalJobLoop env miners localJob).1
      = List.zipWith (fun p j => (p.1, (env.minerRemoveLocalJob p.2 j).1)) miners
          (removeTrace env miners localJob) := by
  induction miners generalizing localJob with
  | nil => rfl
  | cons p rest ih => simp only [removeLocalJobLoop, removeTrace, List.zipWith_cons_cons, ih]

theorem removeTrace_length {M Job : Type} (env : Collab M Job)
    (miners : List (Nat × M)) (localJob : Job) :
    (removeTrace env miners localJob).length = miners.length := by
  induction miners generalizing localJob with
  | nil => rfl
  | cons p rest ih => simp only [removeTrace, List.length_cons, ih]

theorem removeTrace_of_job_kept {M Job : Type} (env : Collab M Job)
    (hkept : ∀ m j, (env.minerRemoveLocalJob m j).2 = j)
    (miners : List (Nat × M)) (localJob : Job) :
    removeTrace env miners localJob = miners.map (fun _ => localJob) := by
  induction miners with
  | nil => rfl
  | cons p rest ih => simp only [removeTrace, List.map_cons, hkept, ih]

theorem zipWith_map_const {α β γ : Type} (f : α → β → γ) (l : List α) (b : β) :
    List.zipWith f l (l.map (fun _ => b)) = l.map (fun a => f a b) := by
  induction l with
  | nil => rfl
  | cons a l ih => simp only [List.map_cons, List.zipWith_cons_cons, ih]

/-- C25. The agent dispatcher's `setMinDiff`, `resetCurDiff` and
`removeLocalJob` call the miner method of the same name once on every entry of
the table, with the argument of the call, and do nothing else: the table is
the old one with each miner replaced by its state after that one call (for
`removeLocalJob` the job is the one object passed by reference, seen by each
miner as the miners before it left it), a lookup of any session id gives the
old miner after the call or nothing as before, the session ids are the same,
no call is made on the session, and an empty table is left as it is. -/
theorem agent_fan_out_every_miner_once {M Job : Type} (env : Collab M Job)
    (d : StratumMessageAgentDispatcher M) (diff : Nat) (localJob : Job) :
    ((setMinDiff env d diff).miners_
          = d.miners_.map (fun p => (p.1, env.minerSetMinDiff p.2 diff))
        ∧ (∀ sid, mapFind (setMinDiff env d diff).miners_ sid
            = (mapFind d.miners_ sid).map (fun m => env.minerSetMinDiff m diff))
        ∧ (setMinDiff env d diff).miners_.map (fun p => p.1) = d.miners_.map (fun p => p.1)
        ∧ (setMinDiff env d diff).calls = d.calls)
      ∧ ((resetCurDiff env d diff).miners_
          = d.miners_.map (fun p => (p.1, env.minerResetCurDiff p.2 diff))
        ∧ (∀ sid, mapFind (resetCurDiff env d diff).miners_ sid
            = (mapFind d.miners_ sid).map (fun m => env.minerResetCurDiff m diff))
        ∧ (resetCurDiff env d diff).miners_.map (fun p => p.1) = d.miners_.map (fun p => p.1)
        ∧ (resetCurDiff env d diff).calls = d.calls)
      ∧ ((removeLocalJob env d localJob).1.miners_
          = List.zipWith (fun p j => (p.1, (env.minerRemoveLocalJob p.2 j).1)) d.miners_
              (removeTrace env d.miners_ localJob)
        ∧ (removeTrace env d.miners_ localJob).length = d.miners_.length
        ∧ ((∀ m j, (env.minerRemoveLocalJob m j).2 = j) →
            (removeLocalJob env d localJob).1.miners_
                = d.miners_.map (fun p => (p.1, (env.minerRemoveLocalJob p.2 localJob).1))
              ∧ ∀ sid, mapFind (removeLocalJob env d localJob).1.miners_ sid
                = (mapFind d.miners_ sid).map (fun m => (env.minerRemoveLocalJob m localJob).1))
        ∧ (removeLocalJob env d localJob).1.miners_.map (fun p => p.1)
            = d.miners_.map (fun p => p.1)
        ∧ (removeLocalJob env d localJob).1.calls = d.calls)
      ∧ (d.miners_ = [] →
          setMinDiff env d diff = d ∧ resetCurDiff env d diff = d
            ∧ removeLocalJob env d localJob = (d, localJob)) := by
  refine ⟨⟨rfl, fun sid => mapFind_map_snd (fun m => env.minerSetMinDiff m diff) d.miners_ sid,
      ?_, rfl⟩,
    ⟨rfl, fun sid => mapFind_map_snd (fun m => env.minerResetCurDiff m diff) d.miners_ sid,
      ?_, rfl⟩,
    ⟨removeLocalJobLoop_eq_zipWith env d.miners_ localJob, removeTrace_length env d.miners_ localJob,
      ?_, removeLocalJobLoop_keys env d.miners_ localJob, rfl⟩, ?_⟩
  · show (d.miners_.map _).map _ = _
    rw [List.map_map]; rfl
  · show (d.miners_.map _).map _ = _
    rw [List.map_map]; rfl
  · intro hkept
    have hEq : (removeLocalJob env d localJob).1.miners_
        = d.miners_.map (fun p => (p.1, (env.minerRemoveLocalJob p.2 localJob).1)) := by
      show (removeLocalJobLoop env d.miners_ localJob).1 = _
      rw [removeLocalJobLoop_eq_zipWith, removeTrace_of_job_kept env hkept, zipWith_map_const]
    refine ⟨hEq, fun sid => ?_⟩
    rw [hEq]
    exact mapFind_map_snd (fun m => (env.minerRemoveLocalJob m localJob).1) d.miners_ sid
  · intro hempty
    cases d with
    | mk miners calls =>
      simp only at hempty
      subst hempty
      exact ⟨rfl, rfl, rfl⟩

/-- The three fan-out calls on a table of four miners. -/
theorem agent_fan_out_examples :
    (setMinDiff mockEnv agentMixed 16).miners_.map (fun p => (p.1, p.2.minDiff))
        = [(1, 16), (2, 16), (3, 16), (600, 16)]
      ∧ (resetCurDiff mockEnv agentMixed 32).miners_.map (fun p => (p.1, p.2.curDiff))
        = [(1, 32), (2, 32), (3, 32), (600, 32)]
      ∧ removeLocalJob mockEnv agentMixed 5 = (agentMixed, 5)
      ∧ removeTrace mockEnv agentMixed.miners_ 5 = [5, 5, 5, 5] := by
  decide

/-! ## C29: one `sendData` per `addLocalJob` -/

theorem changedOf_eq_nil (h : Helpers) (trace : List (Nat × Nat × Nat))
    (hsame : ∀ t ∈ trace, h.log2 t.2.2 % 256 = h.log2 t.2.1 % 256) :
    changedOf h trace = [] := by
  unfold changedOf
  rw [List.map_eq_nil_iff, List.filter_eq_nil_iff]
  intro t ht
  simpa using hsame t ht

theorem getSetDiffCommand_nil (c : ExConsts) : getSetDiffCommand c [] = [] := rfl

/-- C29. Every call of the agent dispatcher's `addLocalJob` adds exactly one
call to the session, a `sendData`, however many frames there are: its argument
is the concatenation, in order, of the SET_DIFF frames of the buckets; it is
the empty string when no miner's exponent changed, in particular when the
table is empty; and the session ids of the table are the same afterwards. -/
theorem addLocalJob_sends_once {M Job : Type} (c : ExConsts) (h : Helpers) (env : Collab M Job)
    (d : StratumMessageAgentDispatcher M) (localJob : Job) :
    (addLocalJob c h env d localJob).1.calls
        = d.calls ++ [SessionCall.sendData
            (((chunksOf (pushAll (changedOf h (jobTrace env d.miners_ localJob)) [])).map
              (fun f => frameOf c f.1 f.2)).flatten)]
      ∧ ((∀ t ∈ jobTrace env d.miners_ localJob, h.log2 t.2.2 % 256 = h.log2 t.2.1 % 256) →
          (addLocalJob c h env d localJob).1.calls = d.calls ++ [SessionCall.sendData []])
      ∧ (d.miners_ = [] →
          (addLocalJob c h env d localJob).1 = ⟨[], d.calls ++ [SessionCall.sendData []]⟩)
      ∧ (addLocalJob c h env d localJob).1.miners_.map (fun p => p.1)
          = d.miners_.map (fun p => p.1) := by
  have hcalls : (addLocalJob c h env d localJob).1.calls
      = d.calls ++ [SessionCall.sendData (getSetDiffCommand c
          (pushAll (changedOf h (jobTrace env d.miners_ localJob)) []))] := by
    unfold addLocalJob
    simp only []
    rw [addLocalJobLoop_newDiffs]
  refine ⟨?_, ?_, ?_, addLocalJobLoop_keys h env d.miners_ localJob []⟩
  · rw [hcalls]
    unfold getSetDiffCommand
    rw [setDiffFrames_eq]
  · intro hsame
    rw [hcalls, changedOf_eq_nil h _ hsame, pushAll_nil, getSetDiffCommand_nil]
  · intro hempty
    unfold addLocalJob
    rw [hempty]
    rfl

/-- One `sendData` for the table of four miners, with the frame of the two
miners that move to exponent 2, and one `sendData` of the empty string when no
exponent changes. -/
theorem addLocalJob_one_sendData_examples :
    (addLocalJob testConsts mockHelpers mockEnv agentMixed 4).1.calls
        = [SessionCall.sendData [127, 5, 11, 0, 2, 2, 0, 3, 0, 88, 2]]
      ∧ (addLocalJob testConsts mockHelpers mockEnv agentAtDiff4 5).1.calls
        = agentAtDiff4.calls ++ [SessionCall.sendData []]
      ∧ (addLocalJob testConsts mockHelpers mockEnv
          (StratumMessageAgentDispatcher.init MockMiner) 5).1
        = ⟨[], [SessionCall.sendData []]⟩ := by
  decide

/-! ## C27, C28: the body of a REGISTER_WORKER frame -/

theorem handleExMessage_register_accepted {M Job : Type} (c : ExConsts) (h : Helpers)
    (env : Collab M Job) (d : StratumMessageAgentDispatcher M) (exMessage : Bytes)
    (hvalid : ValidFrame exMessage) (hcmd : commandOf exMessage = c.CMD_REGISTER_WORKER)
    (hsize : 8 ≤ exMessage.length ∧ exMessage.length ≤ 100)
    (hsid : sessionIdField exMessage ≤ c.AGENT_MAX_SESSION_ID) :
    handleExMessage c h env d exMessage
      = some (registerWorker env d (sessionIdField exMessage) (clientAgentOf h exMessage)
          (workerNameOf h exMessage) (h.calcWorkerId (workerNameOf h exMessage))) := by
  rw [handleExMessage_of_register c h env d exMessage hvalid hcmd]
  unfold handleExMessage_RegisterWorker
  rw [if_neg (by omega)]
  simp only []
  rw [if_neg (by omega)]

theorem set_last_append (l : Bytes) (x y : Nat) : (l ++ [x]).set l.length y = l ++ [y] := by
  induction l with
  | nil => rfl
  | cons a l ih => simp only [List.cons_append, List.length_cons, List.set_cons_succ, ih]

theorem clientStrOf_append (pre : Bytes) (x : Nat) (hpre : 6 ≤ pre.length) :
    clientStrOf (pre ++ [x]) = pre.drop 6 ++ [0] := by
  unfold clientStrOf
  simp only []
  rw [List.drop_append_of_le_length hpre]
  have hl : (pre.drop 6 ++ [x]).length - 1 = (pre.drop 6).length := by simp
  rw [hl, set_last_append]

theorem cstr_append_nul (l r : Bytes) (hl : ∀ b ∈ l, b % 256 ≠ 0) :
    cstr (l ++ 0 :: r) = l := by
  unfold cstr
  induction l with
  | nil => simp
  | cons a l ih =>
    have ha : a % 256 ≠ 0 := hl a (List.mem_cons_self a l)
    rw [List.cons_append, List.takeWhile_cons_of_pos (by simpa using ha),
      ih (fun b hb => hl b (List.mem_cons_of_mem a hb))]

theorem cstr_length_le (l : Bytes) : (cstr l).length ≤ l.length := by
  unfold cstr
  exact (List.takeWhile_sublist _).length_le

theorem cstr_append_nul_length (l : Bytes) : (cstr (l ++ [0])).length ≤ l.length := by
  unfold cstr
  induction l with
  | nil => simp
  | cons a l ih =>
    by_cases ha : a % 256 = 0
    · rw [List.cons_append, List.takeWhile_cons_of_neg (by simpa using ha)]
      simp
    · rw [List.cons_append, List.takeWhile_cons_of_pos (by simpa using ha)]
      simp only [List.length_cons]
      omega

theorem getD_header_append (hdr rest : Bytes) (i : Nat) (hi : i < hdr.length) :
    (hdr ++ rest).getD i 0 = hdr.getD i 0 :=
  List.getD_append hdr rest 0 i hi

/-- The two strings that `handleExMessage_RegisterWorker` reads from a body
`clientAgent NUL workerName NUL`. -/
theorem register_body_two_strings (h : Helpers) (hdr agent name : Bytes)
    (hhdr : hdr.length = 6)
    (hagent : ∀ b ∈ agent, b % 256 ≠ 0) (hname : ∀ b ∈ name, b % 256 ≠ 0) :
    clientAgentOf h (hdr ++ agent ++ [0] ++ name ++ [0]) = h.filterWorkerName agent
      ∧ workerNameOf h (hdr ++ agent ++ [0] ++ name ++ [0])
        = if name = [] then h.DEFAULT_WORKER_NAME else finalWorkerName h name := by
  have hstr : clientStrOf (hdr ++ agent ++ [0] ++ name ++ [0]) = agent ++ 0 :: (name ++ [0]) := by
    rw [clientStrOf_append _ _ (by simp [hhdr])]
    have hd : (hdr ++ agent ++ [0] ++ name).drop 6 = agent ++ [0] ++ name := by
      rw [List.append_assoc hdr, List.append_assoc hdr, ← hhdr, List.drop_left]
    rw [hd]
    simp
  have hc : cstr (agent ++ 0 :: (name ++ [0])) = agent := cstr_append_nul agent _ hagent
  constructor
  · unfold clientAgentOf
    rw [hstr, hc]
  · unfold workerNameOf
    simp only []
    rw [hstr, hc]
    have hdrop : (agent ++ 0 :: (name ++ [0])).drop (agent.length + 1) = name ++ [0] := by
      have : agent ++ 0 :: (name ++ [0]) = (agent ++ [0]) ++ (name ++ [0]) := by simp
      rw [this]
      have hl : agent.length + 1 = (agent ++ [0]).length := by simp
      rw [hl, List.drop_left]
    rw [hdrop, cstr_append_nul name [] hname]
    have hlen : (agent ++ 0 :: (name ++ [0])).length - 2 = agent.length + name.length := by
      simp only [List.length_append, List.length_cons, List.length_nil]
      omega
    rw [hlen]
    by_cases hn : name = []
    · subst hn
      simp
    · have hpos : 0 < name.length := List.length_pos.mpr hn
      rw [if_pos (show agent.length < agent.length + name.length by omega), if_neg hn]
      rfl

/-- The two strings that `handleExMessage_RegisterWorker` reads from a body
that is only `clientAgent NUL`. -/
theorem register_body_one_string (h : Helpers) (hdr agent : Bytes)
    (hhdr : hdr.length = 6) (hagent : ∀ b ∈ agent, b % 256 ≠ 0) :
    clientAgentOf h (hdr ++ agent ++ [0]) = h.filterWorkerName agent
      ∧ workerNameOf h (hdr ++ agent ++ [0]) = h.DEFAULT_WORKER_NAME := by
  have hstr : clientStrOf (hdr ++ agent ++ [0]) = agent ++ 0 :: [] := by
    rw [clientStrOf_append _ _ (by simp [hhdr])]
    have hd : (hdr ++ agent).drop 6 = agent := by
      rw [← hhdr, List.drop_left]
    rw [hd]
  have hc : cstr (agent ++ 0 :: []) = agent := cstr_append_nul agent _ hagent
  constructor
  · unfold clientAgentOf
    rw [hstr, hc]
  · unfold workerNameOf
    simp only []
    rw [hstr, hc]
    have hlen : ¬ agent.length < (agent ++ 0 :: []).length - 2 := by
      simp only [List.length_append, List.length_cons, List.length_nil]
      omega
    rw [if_neg hlen]
    simp

theorem sessionIdField_header (hdr rest : Bytes) (hhdr : hdr.length = 6) :
    sessionIdField (hdr ++ rest) = le16Value (hdr.getD 4 0) (hdr.getD 5 0) := by
  unfold sessionIdField
  rw [getD_header_append hdr rest 4 (by omega), getD_header_append hdr rest 5 (by omega)]

/-- C27. An accepted REGISTER_WORKER frame made of a 6-byte header and the
body `clientAgent NUL workerName NUL`, neither string holding a NUL, makes
`handleExMessage` call `registerWorker` with the little-endian session id of
bytes 4 and 5, the sanitized client agent, the sanitized worker name or the
default name when that is empty, and `calcWorkerId` of that final name. For a
non-empty worker name this holds for any sanitizer; an empty worker name gives
the default name without a call of the sanitizer, which is the same name when
the sanitizer maps the empty string to the empty string. A body that is only
`clientAgent NUL` gives the default name. -/
theorem handleExMessage_register_body {M Job : Type} (c : ExConsts) (h : Helpers)
    (env : Collab M Job) (d : StratumMessageAgentDispatcher M) (hdr agent name : Bytes)
    (hhdr : hdr.length = 6)
    (hagent : ∀ b ∈ agent, b % 256 ≠ 0) (hname : ∀ b ∈ name, b % 256 ≠ 0) :
    (ValidFrame (hdr ++ agent ++ [0] ++ name ++ [0]) →
        commandOf (hdr ++ agent ++ [0] ++ name ++ [0]) = c.CMD_REGISTER_WORKER →
        (hdr ++ agent ++ [0] ++ name ++ [0]).length ≤ 100 →
        le16Value (hdr.getD 4 0) (hdr.getD 5 0) ≤ c.AGENT_MAX_SESSION_ID →
        (name ≠ [] ∨ h.filterWorkerName [] = [] →
          handleExMessage c h env d (hdr ++ agent ++ [0] ++ name ++ [0])
            = some (registerWorker env d (le16Value (hdr.getD 4 0) (hdr.getD 5 0))
                (h.filterWorkerName agent) (finalWorkerName h name)
                (h.calcWorkerId (finalWorkerName h name))))
          ∧ (name = [] →
            handleExMessage c h env d (hdr ++ agent ++ [0] ++ name ++ [0])
              = some (registerWorker env d (le16Value (hdr.getD 4 0) (hdr.getD 5 0))
                  (h.filterWorkerName agent) h.DEFAULT_WORKER_NAME
                  (h.calcWorkerId h.DEFAULT_WORKER_NAME))))
      ∧ (ValidFrame (hdr ++ agent ++ [0]) →
          commandOf (hdr ++ agent ++ [0]) = c.CMD_REGISTER_WORKER →
          8 ≤ (hdr ++ agent ++ [0]).length ∧ (hdr ++ agent ++ [0]).length ≤ 100 →
          le16Value (hdr.getD 4 0) (hdr.getD 5 0) ≤ c.AGENT_MAX_SESSION_ID →
          handleExMessage c h env d (hdr ++ agent ++ [0])
            = some (registerWorker env d (le16Value (hdr.getD 4 0) (hdr.getD 5 0))
                (h.filterWorkerName agent) h.DEFAULT_WORKER_NAME
                (h.calcWorkerId h.DEFAULT_WORKER_NAME))) := by
  constructor
  · intro hvalid hcmd hsize hsid
    have hsidf : sessionIdField (hdr ++ agent ++ [0] ++ name ++ [0])
        = le16Value (hdr.getD 4 0) (hdr.getD 5 0) := by
      rw [List.append_assoc hdr, List.append_assoc hdr, List.append_assoc hdr]
      exact sessionIdField_header hdr _ hhdr
    have hlen8 : 8 ≤ (hdr ++ agent ++ [0] ++ name ++ [0]).length := by
      simp only [List.length_append, List.length_cons, List.length_nil]
      omega
    have hrun := handleExMessage_register_accepted c h env d _ hvalid hcmd ⟨hlen8, hsize⟩
      (by rw [hsidf]; exact hsid)
    obtain ⟨hA, hW⟩ := register_body_two_strings h hdr agent name hhdr hagent hname
    rw [hrun, hsidf, hA, hW]
    constructor
    · intro hcase
      by_cases hn : name = []
      · rw [if_pos hn]
        have hf : h.filterWorkerName [] = [] := by
          rcases hcase with hc | hc
          · exact absurd hn hc
          · exact hc
        have hfin : finalWorkerName h name = h.DEFAULT_WORKER_NAME := by
          unfold finalWorkerName
          rw [hn, if_pos hf]
        rw [hfin]
      · rw [if_neg hn]
    · intro hn
      rw [if_pos hn]
  · intro hvalid hcmd hsize hsid
    have hsidf : sessionIdField (hdr ++ agent ++ [0])
        = le16Value (hdr.getD 4 0) (hdr.getD 5 0) := by
      rw [List.append_assoc hdr]
      exact sessionIdField_header hdr _ hhdr
    have hrun := handleExMessage_register_accepted c h env d _ hvalid hcmd hsize
      (by rw [hsidf]; exact hsid)
    obtain ⟨hA, hW⟩ := register_body_one_string h hdr agent hhdr hagent
    rw [hrun, hsidf, hA, hW]

theorem handleExMessage_register_body_witness :
    handleExMessage testConsts mockHelpers mockEnv (StratumMessageAgentDispatcher.init MockMiner)
        (headerRegister14 ++ [97, 98] ++ [0] ++ [119, 49, 32, 120] ++ [0])
      = some (registerWorker mockEnv (StratumMessageAgentDispatcher.init MockMiner)
          (le16Value (headerRegister14.getD 4 0) (headerRegister14.getD 5 0))
          (mockHelpers.filterWorkerName [97, 98]) (finalWorkerName mockHelpers [119, 49, 32, 120])
          (mockHelpers.calcWorkerId (finalWorkerName mockHelpers [119, 49, 32, 120]))) :=
  ((handleExMessage_register_body testConsts mockHelpers mockEnv
    (StratumMessageAgentDispatcher.init MockMiner) headerRegister14 [97, 98] [119, 49, 32, 120]
    (by decide) (by decide) (by decide)).1 (by decide) (by decide) (by decide) (by decide)).1
    (Or.inl (by decide))

/-- Four REGISTER_WORKER frames for session id 7: agent `ab` with worker
`w1 x` (the filter drops the blank), agent `ab` with an empty worker name,
agent `ab` alone, and the 8-byte frame of agent `a` alone. -/
theorem register_body_examples :
    handleExMessage testConsts mockHelpers mockEnv (StratumMessageAgentDispatcher.init MockMiner)
        [127, 1, 14, 0, 7, 0, 97, 98, 0, 119, 49, 32, 120, 0]
      = some (registerWorker mockEnv (StratumMessageAgentDispatcher.init MockMiner) 7
          [97, 98] [119, 49, 120] (mockHelpers.calcWorkerId [119, 49, 120]))
      ∧ handleExMessage testConsts mockHelpers mockEnv (StratumMessageAgentDispatcher.init MockMiner)
          [127, 1, 10, 0, 7, 0, 97, 98, 0, 0]
        = some (registerWorker mockEnv (StratumMessageAgentDispatcher.init MockMiner) 7
            [97, 98] mockHelpers.DEFAULT_WORKER_NAME
            (mockHelpers.calcWorkerId mockHelpers.DEFAULT_WORKER_NAME))
      ∧ handleExMessage testConsts mockHelpers mockEnv (StratumMessageAgentDispatcher.init MockMiner)
          [127, 1, 9, 0, 7, 0, 97, 98, 0]
        = some (registerWorker mockEnv (StratumMessageAgentDispatcher.init MockMiner) 7
            [97, 98] mockHelpers.DEFAULT_WORKER_NAME
            (mockHelpers.calcWorkerId mockHelpers.DEFAULT_WORKER_NAME))
      ∧ handleExMessage testConsts mockHelpers mockEnv (StratumMessageAgentDispatcher.init MockMiner)
          [127, 1, 8, 0, 7, 0, 97, 0]
        = some (registerWorker mockEnv (StratumMessageAgentDispatcher.init MockMiner) 7
            [97] mockHelpers.DEFAULT_WORKER_NAME
            (mockHelpers.calcWorkerId mockHelpers.DEFAULT_WORKER_NAME)) := by
  decide

theorem validFrame_last_byte (pre : Bytes) (a b : Nat) (hpre : 4 ≤ pre.length)
    (hvalid : ValidFrame (pre ++ [a])) : ValidFrame (pre ++ [b]) := by
  unfold ValidFrame at hvalid ⊢
  rw [List.getD_append pre [b] 0 2 (by omega), List.getD_append pre [b] 0 3 (by omega)]
  rw [List.getD_append pre [a] 0 2 (by omega), List.getD_append pre [a] 0 3 (by omega)] at hvalid
  simp only [List.length_append, List.length_cons, List.length_nil] at hvalid ⊢
  exact hvalid

/-- C28. The last byte of an accepted REGISTER_WORKER frame has no influence:
when a frame `pre ++ [a]` is accepted, the frame `pre ++ [b]` is accepted too,
and `handleExMessage` gives the same dispatcher for both, the one after
`registerWorker` with the session id of bytes 4 and 5 and the client agent,
worker name and worker id read from the body with a NUL in place of the last
byte. The client agent string ends inside the copied body. -/
theorem handleExMessage_register_last_byte {M Job : Type} (c : ExConsts) (h : Helpers)
    (env : Collab M Job) (d : StratumMessageAgentDispatcher M) (pre : Bytes) (a b : Nat)
    (hvalid : ValidFrame (pre ++ [a]))
    (hcmd : commandOf (pre ++ [a]) = c.CMD_REGISTER_WORKER)
    (hsize : 8 ≤ (pre ++ [a]).length ∧ (pre ++ [a]).length ≤ 100)
    (hsid : sessionIdField (pre ++ [a]) ≤ c.AGENT_MAX_SESSION_ID) :
    handleExMessage c h env d (pre ++ [b]) = handleExMessage c h env d (pre ++ [a])
      ∧ handleExMessage c h env d (pre ++ [a])
        = some (registerWorker env d (sessionIdField pre) (clientAgentOf h (pre ++ [0]))
            (workerNameOf h (pre ++ [0])) (h.calcWorkerId (workerNameOf h (pre ++ [0]))))
      ∧ clientStrOf (pre ++ [a]) = pre.drop 6 ++ [0]
      ∧ (cstr (clientStrOf (pre ++ [a]))).length < (clientStrOf (pre ++ [a])).length := by
  have hlen : 7 ≤ pre.length := by
    have := hsize.1
    simp only [List.length_append, List.length_cons, List.length_nil] at this
    omega
  have key : ∀ x : Nat, ValidFrame (pre ++ [x]) →
      handleExMessage c h env d (pre ++ [x])
        = some (registerWorker env d (sessionIdField pre) (clientAgentOf h (pre ++ [0]))
            (workerNameOf h (pre ++ [0])) (h.calcWorkerId (workerNameOf h (pre ++ [0])))) := by
    intro x hv
    have hsidx : sessionIdField (pre ++ [x]) = sessionIdField pre := by
      unfold sessionIdField
      rw [List.getD_append pre [x] 0 4 (by omega), List.getD_append pre [x] 0 5 (by omega)]
    have hsida : sessionIdField (pre ++ [a]) = sessionIdField pre := by
      unfold sessionIdField
      rw [List.getD_append pre [a] 0 4 (by omega), List.getD_append pre [a] 0 5 (by omega)]
    have hcmdx : commandOf (pre ++ [x]) = c.CMD_REGISTER_WORKER := by
      unfold commandOf at hcmd ⊢
      rw [List.getD_append pre [x] 0 1 (by omega)]
      rw [List.getD_append pre [a] 0 1 (by omega)] at hcmd
      exact hcmd
    have hsizex : 8 ≤ (pre ++ [x]).length ∧ (pre ++ [x]).length ≤ 100 := by
      have := hsize
      simp only [List.length_append, List.length_cons, List.length_nil] at this ⊢
      exact this
    have hA : clientAgentOf h (pre ++ [x]) = clientAgentOf h (pre ++ [0]) := by
      unfold clientAgentOf
      rw [clientStrOf_append pre x (by omega), clientStrOf_append pre 0 (by omega)]
    have hW : workerNameOf h (pre ++ [x]) = workerNameOf h (pre ++ [0]) := by
      unfold workerNameOf
      rw [clientStrOf_append pre x (by omega), clientStrOf_append pre 0 (by omega)]
    rw [handleExMessage_register_accepted c h env d _ hv hcmdx hsizex
      (by rw [hsidx, ← hsida]; exact hsid), hsidx, hA, hW]
  refine ⟨?_, key a hvalid, clientStrOf_append pre a (by omega), ?_⟩
  · rw [key a hvalid, key b (validFrame_last_byte pre a b (by omega) hvalid)]
  · rw [clientStrOf_append pre a (by omega)]
    have := cstr_append_nul_length (pre.drop 6)
    simp only [List.length_append, List.length_cons, List.length_nil]
    omega

theorem handleExMessage_register_last_byte_witness :
    handleExMessage testConsts mockHelpers mockEnv agentMixed
        ([127, 1, 10, 0, 7, 0, 97, 0, 98] ++ [200])
      = handleExMessage testConsts mockHelpers mockEnv agentMixed
        ([127, 1, 10, 0, 7, 0, 97, 0, 98] ++ [0])
      ∧ handleExMessage testConsts mockHelpers mockEnv agentMixed
          ([127, 1, 10, 0, 7, 0, 97, 0, 98] ++ [0])
        = some (registerWorker mockEnv agentMixed (sessionIdField [127, 1, 10, 0, 7, 0, 97, 0, 98])
            (clientAgentOf mockHelpers ([127, 1, 10, 0, 7, 0, 97, 0, 98] ++ [0]))
            (workerNameOf mockHelpers ([127, 1, 10, 0, 7, 0, 97, 0, 98] ++ [0]))
            (mockHelpers.calcWorkerId
              (workerNameOf mockHelpers ([127, 1, 10, 0, 7, 0, 97, 0, 98] ++ [0]))))
      ∧ clientStrOf ([127, 1, 10, 0, 7, 0, 97, 0, 98] ++ [0])
        = ([127, 1, 10, 0, 7, 0, 97, 0, 98] : Bytes).drop 6 ++ [0]
      ∧ (cstr (clientStrOf ([127, 1, 10, 0, 7, 0, 97, 0, 98] ++ [0]))).length
        < (clientStrOf ([127, 1, 10, 0, 7, 0, 97, 0, 98] ++ [0])).length :=
  handleExMessage_register_last_byte testConsts mockHelpers mockEnv agentMixed
    [127, 1, 10, 0, 7, 0, 97, 0, 98] 0 200 (by decide) (by decide) (by decide) (by decide)

/-- Two frames that differ in the last byte only, the second without a NUL at
its end: both register worker `b` under session id 7. -/
theorem register_last_byte_examples :
    handleExMessage testConsts mockHelpers mockEnv (StratumMessageAgentDispatcher.init MockMiner)
        [127, 1, 10, 0, 7, 0, 97, 0, 98, 0]
      = some agentWithB
      ∧ handleExMessage testConsts mockHelpers mockEnv (StratumMessageAgentDispatcher.init MockMiner)
          [127, 1, 10, 0, 7, 0, 97, 0, 98, 200]
        = some (registerWorker mockEnv (StratumMessageAgentDispatcher.init MockMiner) 7
            [97] [98] (mockHelpers.calcWorkerId [98]))
      ∧ agentWithB.miners_.map (fun p => (p.1, p.2.clientAgent, p.2.workerName)) = [(7, [97], [98])] := by
  decide

/-! ## C22: `sendMiningNotify` without authentication or without a job -/

/-- C22. When the state of the session is below AUTHENTICATED or the job
pointer is null, `sendMiningNotify` returns with the session as it was:
nothing is handed to the transport, the local jobs are the same (none created,
none cleared, no difficulty seeded) and `nicehashLastSentDiff_` is the same.
The same holds for `sendMiningNotifyWithId` with any id. -/
theorem sendMiningNotify_requires_authenticated_and_job (eh : EthHelpers)
    (s : StratumSessionEth) (exJobPtr : Option StratumJobEx)
    (h : s.state_.rank < State.AUTHENTICATED.rank ∨ exJobPtr = none) :
    sendMiningNotify eh s exJobPtr = some s
      ∧ ∀ idStr, sendMiningNotifyWithId eh s exJobPtr idStr = some s := by
  have key : ∀ idStr, sendMiningNotifyWithId eh s exJobPtr idStr = some s := by
    intro idStr
    unfold sendMiningNotifyWithId
    cases exJobPtr with
    | none => rfl
    | some exJob =>
      rcases h with h | h
      · simp only []
        rw [if_pos h]
      · cases h
  refine ⟨?_, key⟩
  unfold sendMiningNotify
  split
  · exact key _
  · exact key _

theorem sendMiningNotify_requires_authenticated_and_job_witness :
    sendMiningNotify mockEth sessionSubscribed (some (sampleJob (2 ^ 254)))
        = some sessionSubscribed
      ∧ ∀ idStr, sendMiningNotifyWithId mockEth sessionSubscribed (some (sampleJob (2 ^ 254))) idStr
        = some sessionSubscribed :=
  sendMiningNotify_requires_authenticated_and_job mockEth sessionSubscribed
    (some (sampleJob (2 ^ 254))) (Or.inl (by decide))

/-- A notify in the states CONNECTED and SUBSCRIBED, a notify with a null job
in the state AUTHENTICATED, and a notify whose job is no `StratumJobEth`: the
session stays as it is. -/
theorem sendMiningNotify_nothing_sent_examples :
    sendMiningNotify mockEth (StratumSessionEth.init 5162741) (some (sampleJob (2 ^ 254)))
        = some (StratumSessionEth.init 5162741)
      ∧ sendMiningNotify mockEth sessionSubscribed (some (sampleJob (2 ^ 254)))
        = some sessionSubscribed
      ∧ sendMiningNotify mockEth sessionWithLocalJob none = some sessionWithLocalJob
      ∧ sendMiningNotify mockEth sessionWithLocalJob (some ⟨none, true⟩)
        = some sessionWithLocalJob := by
  decide

/-! ## C26: the difficulty and the target of a notify -/

theorem findLocalJob_localJobsWith (eh : EthHelpers) (jobs : List LocalJobEth) (jobId : Nat)
    (header : Bytes) :
    ∃ ljob, findLocalJob (localJobsWith eh jobs jobId header) header = some ljob
      ∧ ljobDiff eh jobs jobId header = ljob.currentJobDiff_
      ∧ (findLocalJob jobs header = none →
          ljob = ⟨jobId, header, eh.newLocalJobDiff jobId header⟩)
      ∧ (∀ j, findLocalJob jobs header = some j → ljob = j) := by
  cases hf : findLocalJob jobs header with
  | none =>
    have hfound : findLocalJob (localJobsWith eh jobs jobId header) header
        = some ⟨jobId, header, eh.newLocalJobDiff jobId header⟩ := by
      unfold localJobsWith
      rw [hf]
      unfold findLocalJob addLocalJobEth at *
      rw [List.find?_append, hf]
      simp
    refine ⟨_, hfound, ?_, fun _ => rfl, fun j hj => by cases hj⟩
    unfold ljobDiff
    rw [hfound]
  | some j =>
    have hfound : findLocalJob (localJobsWith eh jobs jobId header) header = some j := by
      unfold localJobsWith
      rw [hf]
      exact hf
    refine ⟨j, hfound, ?_, fun hn => (by cases hn), fun j1 hj => (Option.some.inj hj)⟩
    unfold ljobDiff
    rw [hfound]

theorem findLocalJob_setLjobDiff (header : Bytes) (diff : Nat) (jobs : List LocalJobEth) :
    findLocalJob (setLjobDiff header diff jobs) header
      = (findLocalJob jobs header).map (fun j => { j with currentJobDiff_ := diff }) := by
  induction jobs with
  | nil => rfl
  | cons j rest ih =>
    unfold findLocalJob at ih ⊢
    unfold setLjobDiff
    by_cases hj : j.headerHash_ = header
    · rw [if_pos hj, List.find?_cons_of_pos _ (by simpa using hj),
        List.find?_cons_of_pos _ (by simpa using hj)]
      rfl
    · rw [if_neg hj, List.find?_cons_of_neg _ (by simpa using hj),
        List.find?_cons_of_neg _ (by simpa using hj)]
      exact ih

/-- C26. In `sendMiningNotify` on an authenticated session there is always a
local job for the stripped header of the notified job, found or created. When
its difficulty is 0, the difficulty of the local job becomes
`Eth_TargetToDifficulty (networkTarget_)` and the share target of the notify
is the hex text of the network target; when it is not 0, the difficulty stays
as it is and the share target is `Eth_DifficultyToTarget` of it. That target
and that difficulty are what the payload is built from; in the STRATUM dialect
the target is the fourth parameter of the `mining.notify`. -/
theorem sendMiningNotify_target_seeding (eh : EthHelpers) (s : StratumSessionEth)
    (exJob : StratumJobEx) (ethJob : StratumJobEth) (idStr : Bytes)
    (hauth : s.state_ = State.AUTHENTICATED) (hjob : exJob.sjob_ = some ethJob) :
    ∃ ljob,
      findLocalJob (localJobsWith eh s.localJobs_ ethJob.jobId_ (strip0x ethJob.headerHash_))
          (strip0x ethJob.headerHash_) = some ljob
        ∧ findLocalJob
            (setLjobDiff (strip0x ethJob.headerHash_) (effectiveDiff eh s.localJobs_ ethJob)
              (localJobsWith eh s.localJobs_ ethJob.jobId_ (strip0x ethJob.headerHash_)))
            (strip0x ethJob.headerHash_)
          = some { ljob with currentJobDiff_ := effectiveDiff eh s.localJobs_ ethJob }
        ∧ (ljob.currentJobDiff_ = 0 →
            effectiveDiff eh s.localJobs_ ethJob = eh.Eth_TargetToDifficulty ethJob.networkTarget_
              ∧ shareTargetOf eh s.localJobs_ ethJob = eh.GetHex ethJob.networkTarget_)
        ∧ (ljob.currentJobDiff_ ≠ 0 →
            effectiveDiff eh s.localJobs_ ethJob = ljob.currentJobDiff_
              ∧ shareTargetOf eh s.localJobs_ ethJob
                = eh.Eth_DifficultyToTarget ljob.currentJobDiff_)
        ∧ sendMiningNotifyWithId eh s (some exJob) idStr
          = (strNotifyOf eh s idStr (strip0x ethJob.headerHash_) (strip0x ethJob.seedHash_)
              (shareTargetOf eh s.localJobs_ ethJob) (effectiveDiff eh s.localJobs_ ethJob)
              exJob.isClean_ ethJob.height_).map
            (notifyFinish s
              (setLjobDiff (strip0x ethJob.headerHash_) (effectiveDiff eh s.localJobs_ ethJob)
                (localJobsWith eh s.localJobs_ ethJob.jobId_ (strip0x ethJob.headerHash_))))
        ∧ (s.ethProtocol_ = StratumProtocolEth.STRATUM →
            sendMiningNotify eh s (some exJob)
              = some { s with
                  localJobs_ := []
                  out := s.out ++ [SessionOut.sendData (notifyStratum (ascii "null")
                    (strip0x ethJob.headerHash_) (strip0x ethJob.seedHash_)
                    (shareTargetOf eh s.localJobs_ ethJob) exJob.isClean_ ethJob.height_)] }) := by
  obtain ⟨ljob, hfound, hdiff, -, -⟩ :=
    findLocalJob_localJobsWith eh s.localJobs_ ethJob.jobId_ (strip0x ethJob.headerHash_)
  refine ⟨ljob, hfound, ?_, ?_, ?_, sendMiningNotifyWithId_of_job eh s exJob ethJob idStr hauth hjob,
    fun hproto => sendMiningNotify_stratum eh s exJob ethJob hauth hjob hproto⟩
  · rw [findLocalJob_setLjobDiff, hfound]
    rfl
  · intro hzero
    unfold effectiveDiff shareTargetOf
    simp only []
    rw [hdiff, if_pos hzero, if_pos hzero]
    exact ⟨rfl, rfl⟩
  · intro hnz
    unfold effectiveDiff shareTargetOf
    simp only []
    rw [hdiff, if_neg hnz, if_neg hnz]
    exact ⟨rfl, rfl⟩

theorem sendMiningNotify_target_seeding_witness :
    ∃ ljob,
      findLocalJob (localJobsWith mockEth sessionWithLocalJob.localJobs_ (sampleEthJob (2 ^ 254)).jobId_
          (strip0x (sampleEthJob (2 ^ 254)).headerHash_))
          (strip0x (sampleEthJob (2 ^ 254)).headerHash_) = some ljob
        ∧ findLocalJob
            (setLjobDiff (strip0x (sampleEthJob (2 ^ 254)).headerHash_)
              (effectiveDiff mockEth sessionWithLocalJob.localJobs_ (sampleEthJob (2 ^ 254)))
              (localJobsWith mockEth sessionWithLocalJob.localJobs_ (sampleEthJob (2 ^ 254)).jobId_
                (strip0x (sampleEthJob (2 ^ 254)).headerHash_)))
            (strip0x (sampleEthJob (2 ^ 254)).headerHash_)
          = some { ljob with
              currentJobDiff_ := effectiveDiff mockEth sessionWithLocalJob.localJobs_
                (sampleEthJob (2 ^ 254)) }
        ∧ (ljob.currentJobDiff_ = 0 →
            effectiveDiff mockEth sessionWithLocalJob.localJobs_ (sampleEthJob (2 ^ 254))
                = mockEth.Eth_TargetToDifficulty (sampleEthJob (2 ^ 254)).networkTarget_
              ∧ shareTargetOf mockEth sessionWithLocalJob.localJobs_ (sampleEthJob (2 ^ 254))
                = mockEth.GetHex (sampleEthJob (2 ^ 254)).networkTarget_)
        ∧ (ljob.currentJobDiff_ ≠ 0 →
            effectiveDiff mockEth sessionWithLocalJob.localJobs_ (sampleEthJob (2 ^ 254))
                = ljob.currentJobDiff_
              ∧ shareTargetOf mockEth sessionWithLocalJob.localJobs_ (sampleEthJob (2 ^ 254))
                = mockEth.Eth_DifficultyToTarget ljob.currentJobDiff_)
        ∧ sendMiningNotifyWithId mockEth sessionWithLocalJob (some (sampleJob (2 ^ 254)))
            (ascii "null")
          = (strNotifyOf mockEth sessionWithLocalJob (ascii "null")
              (strip0x (sampleEthJob (2 ^ 254)).headerHash_)
              (strip0x (sampleEthJob (2 ^ 254)).seedHash_)
              (shareTargetOf mockEth sessionWithLocalJob.localJobs_ (sampleEthJob (2 ^ 254)))
              (effectiveDiff mockEth sessionWithLocalJob.localJobs_ (sampleEthJob (2 ^ 254)))
              (sampleJob (2 ^ 254)).isClean_ (sampleEthJob (2 ^ 254)).height_).map
            (notifyFinish sessionWithLocalJob
              (setLjobDiff (strip0x (sampleEthJob (2 ^ 254)).headerHash_)
                (effectiveDiff mockEth sessionWithLocalJob.localJobs_ (sampleEthJob (2 ^ 254)))
                (localJobsWith mockEth sessionWithLocalJob.localJobs_
                  (sampleEthJob (2 ^ 254)).jobId_
                  (strip0x (sampleEthJob (2 ^ 254)).headerHash_))))
        ∧ (sessionWithLocalJob.ethProtocol_ = StratumProtocolEth.STRATUM →
            sendMiningNotify mockEth sessionWithLocalJob (some (sampleJob (2 ^ 254)))
              = some { sessionWithLocalJob with
                  localJobs_ := []
                  out := sessionWithLocalJob.out ++ [SessionOut.sendData (notifyStratum (ascii "null")
                    (strip0x (sampleEthJob (2 ^ 254)).headerHash_)
                    (strip0x (sampleEthJob (2 ^ 254)).seedHash_)
                    (shareTargetOf mockEth sessionWithLocalJob.localJobs_ (sampleEthJob (2 ^ 254)))
                    (sampleJob (2 ^ 254)).isClean_ (sampleEthJob (2 ^ 254)).height_)] }) :=
  sendMiningNotify_target_seeding mockEth sessionWithLocalJob (sampleJob (2 ^ 254))
    (sampleEthJob (2 ^ 254)) (ascii "null") rfl rfl

set_option maxRecDepth 100000 in
/-- The two cases at concrete inputs, for a job of network target 2^254. A
session without a local job for the header: the local job is created at
difficulty 0, seeded with difficulty 4, and the payload carries the network
target. A session that tracks the header at difficulty 16: the difficulty
stays 16 and the payload carries the target of difficulty 16. -/
theorem target_seeding_examples :
    effectiveDiff mockEth [] (sampleEthJob (2 ^ 254)) = 4
      ∧ (sendMiningNotify mockEth (sessionNotify StratumProtocolEth.STRATUM)
          (some (sampleJob (2 ^ 254)))).map (fun s => s.out)
        = some [SessionOut.sendData (ascii "\x7b\"id\":null,\"method\":\"mining.notify\",\"params\":[\"599fffbc07777d4b6455c0e7ca479c9edbceef6c3fec956fecaaf4f2c727a492\",\"599fffbc07777d4b6455c0e7ca479c9edbceef6c3fec956fecaaf4f2c727a492\",\"1261dfe17d0bf58cb2861ae84734488b1463d282b7ee88ccfa18b7a92a7b77f7\",\"4000000000000000000000000000000000000000000000000000000000000000\",true],\"height\":6000000\x7d\n")]
      ∧ effectiveDiff mockEth sessionWithLocalJob.localJobs_ (sampleEthJob (2 ^ 254)) = 16
      ∧ (sendMiningNotify mockEth sessionWithLocalJob (some (sampleJob (2 ^ 254)))).map
          (fun s => s.out)
        = some [SessionOut.sendData (ascii "\x7b\"id\":null,\"method\":\"mining.notify\",\"params\":[\"599fffbc07777d4b6455c0e7ca479c9edbceef6c3fec956fecaaf4f2c727a492\",\"599fffbc07777d4b6455c0e7ca479c9edbceef6c3fec956fecaaf4f2c727a492\",\"1261dfe17d0bf58cb2861ae84734488b1463d282b7ee88ccfa18b7a92a7b77f7\",\"1000000000000000000000000000000000000000000000000000000000000000\",true],\"height\":6000000\x7d\n")] := by
  decide

/-! ## C23: the full name and the password of an authorize -/

/-- C23. When `handleRequest_Authorize` returns true, the full name it leaves
in `fullName` is `stripEthAddrFromFullName` of the first parameter extended by
`.` and the root field `worker` when that field is a string, and of the first
parameter alone otherwise; `password` is the second parameter when there is
one and is left as it was otherwise. -/
theorem handleRequest_Authorize_full_name (switcher : Bool) (s : StratumSessionEth)
    (idStr : Bytes) (req : Request) (fullName password : Bytes)
    (hok : (handleRequest_Authorize switcher s idStr req fullName password).2.1 = true) :
    1 ≤ req.params.length
      ∧ (handleRequest_Authorize switcher s idStr req fullName password).2.2.1
        = stripEthAddrFromFullName
            ((req.params.getD 0 JsonNode.absent).str
              ++ (if req.worker.isStr = true then [46] ++ req.worker.str else []))
      ∧ (1 < req.params.length →
          (handleRequest_Authorize switcher s idStr req fullName password).2.2.2
            = (req.params.getD 1 JsonNode.absent).str)
      ∧ (req.params.length = 1 →
          (handleRequest_Authorize switcher s idStr req fullName password).2.2.2 = password) := by
  unfold handleRequest_Authorize at hok ⊢
  simp only [] at hok ⊢
  generalize (if switcher = false ∧ s.ethProtocol_ = StratumProtocolEth.ETHPROXY
      ∧ req.method.str = ascii "eth_submitLogin" then
        ({ s with state_ := State.SUBSCRIBED } : StratumSessionEth) else s) = s1 at hok ⊢
  by_cases hst : s1.state_ ≠ State.SUBSCRIBED
  · rw [if_pos hst] at hok
    exact (Bool.false_ne_true hok).elim
  · rw [if_neg hst] at hok ⊢
    by_cases hp : req.params.length < 1
    · rw [if_pos hp] at hok
      exact (Bool.false_ne_true hok).elim
    · rw [if_neg hp]
      refine ⟨by omega, ?_, ?_, ?_⟩
      · show stripEthAddrFromFullName _ = _
        by_cases hw : req.worker.isStr = true
        · rw [if_pos hw, if_pos hw, List.append_assoc]
        · rw [if_neg hw, if_neg hw, List.append_nil]
      · intro h1
        show (if req.params.length > 1 then _ else _) = _
        rw [if_pos h1]
      · intro h1
        show (if req.params.length > 1 then _ else _) = _
        rw [if_neg (by omega)]

/-- The three documented shapes. The login with the address as the
parameter and the worker `test.aaa`, the login with the parameter `test` and
the worker `aaa`, and the authorize with the parameter `test.aaa` and no
worker field all give the full name `test.aaa`. -/
theorem handleRequest_Authorize_full_name_witness :
    (handleRequest_Authorize false (StratumSessionEth.init 5162741) (ascii "1") requestLoginAddr
        [] []).2.2.1 = ascii "test.aaa"
      ∧ (handleRequest_Authorize false (StratumSessionEth.init 5162741) (ascii "1")
          requestLoginWorker [] []).2.2.1 = ascii "test.aaa"
      ∧ (handleRequest_Authorize false sessionSubscribed (ascii "3") requestAuthorize
          [] []).2.2.1 = ascii "test.aaa"
      ∧ (handleRequest_Authorize false sessionSubscribed (ascii "3") requestAuthorize
          [] []).2.2.2 = ascii "x" :=
  ⟨(handleRequest_Authorize_full_name false (StratumSessionEth.init 5162741) (ascii "1")
      requestLoginAddr [] [] (by decide)).2.1.trans (by decide),
    (handleRequest_Authorize_full_name false (StratumSessionEth.init 5162741) (ascii "1")
      requestLoginWorker [] [] (by decide)).2.1.trans (by decide),
    (handleRequest_Authorize_full_name false sessionSubscribed (ascii "3")
      requestAuthorize [] [] (by decide)).2.1.trans (by decide),
    ((handleRequest_Authorize_full_name false sessionSubscribed (ascii "3")
      requestAuthorize [] [] (by decide)).2.2.1 (by decide)).trans (by decide)⟩

/-- The documented shapes, evaluated: each authorizes as `test.aaa`; the
password is `x` when it is the second parameter and stays as it was when
there is one parameter only. The Claymore shape, with the address in front of
the name and the worker `eth1.0` at the root, keeps the worker in the name. -/
theorem handleRequest_Authorize_shapes :
    handleRequest_Authorize false (StratumSessionEth.init 5162741) (ascii "1") requestLoginAddr
        [] (ascii "old")
      = ({ StratumSessionEth.init 5162741 with state_ := State.SUBSCRIBED }, true,
          ascii "test.aaa", ascii "old")
      ∧ handleRequest_Authorize false (StratumSessionEth.init 5162741) (ascii "1")
          requestLoginWorker [] (ascii "old")
        = ({ StratumSessionEth.init 5162741 with state_ := State.SUBSCRIBED }, true,
            ascii "test.aaa", ascii "old")
      ∧ handleRequest_Authorize false sessionSubscribed (ascii "3") requestAuthorize
          [] (ascii "old")
        = (sessionSubscribed, true, ascii "test.aaa", ascii "x")
      ∧ (handleRequest_Authorize false (StratumSessionEth.init 5162741) (ascii "2")
          ⟨[⟨true, sampleEthAddr ++ ascii ".test.aaa", 0⟩, ⟨true, ascii "x", 0⟩],
            ⟨true, ascii "eth_submitLogin", 0⟩, ⟨true, ascii "eth1.0", 0⟩⟩ [] []).2.2
        = (ascii "test.aaa.eth1.0", ascii "x") := by
  decide

/-! ## C21: the result array of the ETHPROXY notify -/

theorem numDigitsAux_le (base fuel n k : Nat) (hn : n < base ^ (k + 1)) :
    numDigitsAux base fuel n ≤ k + 1 := by
  induction fuel generalizing n k with
  | zero => simp [numDigitsAux]
  | succ fuel ih =>
    unfold numDigitsAux
    by_cases hb : n < base
    · rw [if_pos hb]; omega
    · rw [if_neg hb]
      cases k with
      | zero =>
        rw [Nat.zero_add, Nat.pow_one] at hn
        exact absurd hn hb
      | succ k =>
        have hdiv : n / base < base ^ (k + 1) := by
          apply Nat.div_lt_of_lt_mul
          rw [← Nat.pow_succ']
          exact hn
        have := ih (n / base) k hdiv
        omega

theorem fmt06x_of_lt (n : Nat) (hn : n < 2 ^ 24) : fmt06x n = digitsOf 16 6 n := by
  unfold fmt06x fmtUnsigned
  have hmod : n % 2 ^ 32 = n := Nat.mod_eq_of_lt (by omega)
  rw [hmod]
  have hle : numDigitsAux 16 64 n ≤ 6 := numDigitsAux_le 16 64 n 5 (by omega)
  rw [Nat.max_eq_left hle]

theorem digitsOf_six (n : Nat) :
    digitsOf 16 6 n
      = [digitByte (n / 1048576 % 16), digitByte (n / 65536 % 16), digitByte (n / 4096 % 16),
          digitByte (n / 256 % 16), digitByte (n / 16 % 16), digitByte (n % 16)] := by
  unfold digitsOf
  simp [List.range_succ]

theorem digitByte_lower_hex (d : Nat) (hd : d < 16) :
    (48 ≤ digitByte d ∧ digitByte d ≤ 57) ∨ (97 ≤ digitByte d ∧ digitByte d ≤ 102) := by
  unfold digitByte
  split <;> omega

theorem strip0x_of_plain (h64 : Bytes) (hlen : h64.length = 64) : strip0x h64 = h64 := by
  unfold strip0x
  rw [if_neg (by omega)]

theorem strip0x_of_either (hash h64 : Bytes) (hlen : h64.length = 64)
    (hhash : hash = h64 ∨ hash = ascii "0x" ++ h64) : strip0x hash = h64 := by
  rcases hhash with e | e
  · rw [e]; exact strip0x_of_plain h64 hlen
  · rw [e]; exact strip0x_of_prefixed h64 hlen

/-- C21. An authenticated ETHPROXY session with `extraNonce1_` below 2^24 and
a job whose header and seed are 64 hex characters (with or without the prefix
`0x` in the job) and whose share target is 64 hex characters: the payload that
`sendMiningNotify` sends has the id `0` and the result array made of `0x` and
the header, `0x` and the seed, `0x` and the target without its first 6
characters, which are its last 58, and the six lowercase hex digits of
`extraNonce1_`, zero-padded, without `0x`. -/
theorem sendMiningNotify_ethproxy_result (eh : EthHelpers) (s : StratumSessionEth)
    (exJob : StratumJobEx) (ethJob : StratumJobEth) (header seed target : Bytes)
    (hauth : s.state_ = State.AUTHENTICATED) (hjob : exJob.sjob_ = some ethJob)
    (hproto : s.ethProtocol_ = StratumProtocolEth.ETHPROXY)
    (hheader : ethJob.headerHash_ = header ∨ ethJob.headerHash_ = ascii "0x" ++ header)
    (hseed : ethJob.seedHash_ = seed ∨ ethJob.seedHash_ = ascii "0x" ++ seed)
    (htarget : shareTargetOf eh s.localJobs_ ethJob = target)
    (hlenh : header.length = 64) (hlens : seed.length = 64) (hlent : target.length = 64)
    (hhexh : ∀ b ∈ header, isHexDigit b = true) (hhexs : ∀ b ∈ seed, isHexDigit b = true)
    (hhext : ∀ b ∈ target, isHexDigit b = true)
    (hnonce : s.extraNonce1_ < 2 ^ 24) :
    sendMiningNotify eh s (some exJob)
        = some { s with
            localJobs_ := []
            out := s.out ++ [SessionOut.sendData
              (ascii "\x7b\"id\":" ++ ascii "0" ++ ascii ",\"jsonrpc\":\"2.0\",\"result\":[\"0x"
                ++ header ++ ascii "\",\"0x" ++ seed ++ ascii "\",\"0x" ++ target.drop 6
                ++ ascii "\",\"" ++ digitsOf 16 6 s.extraNonce1_
                ++ ascii "\"],\"height\":" ++ fmtLu ethJob.height_ ++ ascii "\x7d\n")] }
      ∧ (target.drop 6).length = 58
      ∧ target.drop 6 = target.drop (target.length - 58)
      ∧ digitsOf 16 6 s.extraNonce1_
        = [digitByte (s.extraNonce1_ / 1048576 % 16), digitByte (s.extraNonce1_ / 65536 % 16),
            digitByte (s.extraNonce1_ / 4096 % 16), digitByte (s.extraNonce1_ / 256 % 16),
            digitByte (s.extraNonce1_ / 16 % 16), digitByte (s.extraNonce1_ % 16)]
      ∧ (digitsOf 16 6 s.extraNonce1_).length = 6
      ∧ ∀ b ∈ digitsOf 16 6 s.extraNonce1_, (48 ≤ b ∧ b ≤ 57) ∨ (97 ≤ b ∧ b ≤ 102) := by
  have hH : strip0x ethJob.headerHash_ = header := strip0x_of_either _ _ hlenh hheader
  have hS : strip0x ethJob.seedHash_ = seed := strip0x_of_either _ _ hlens hseed
  have hdroplen : (target.drop 6).length = 58 := by
    rw [List.length_drop, hlent]
  have htake : (target.drop 6).take 58 = target.drop 6 := by
    rw [← hdroplen, List.take_length]
  have hc58 : cstr (target.drop 6) = target.drop 6 :=
    cstr_of_hex _ (fun b hb => hhext b (List.mem_of_mem_drop hb))
  have hid : cstr (ascii "0") = ascii "0" := by decide
  refine ⟨?_, hdroplen, ?_, digitsOf_six _, ?_, ?_⟩
  · rw [sendMiningNotify_ethproxy eh s exJob ethJob hauth hjob hproto (by rw [htarget]; omega),
      hH, hS, htarget, htake]
    unfold notifyEthProxy
    rw [cstr_of_hex header hhexh, cstr_of_hex seed hhexs, hc58, hid, fmt06x_of_lt _ hnonce]
  · rw [hlent]
  · rw [digitsOf_six]
    rfl
  · intro b hb
    rw [digitsOf_six] at hb
    simp only [List.mem_cons, List.mem_singleton, List.not_mem_nil, or_false] at hb
    rcases hb with e | e | e | e | e | e <;> rw [e] <;>
      exact digitByte_lower_hex _ (Nat.mod_lt _ (by decide))

set_option maxRecDepth 100000 in
theorem sendMiningNotify_ethproxy_result_witness :
    sendMiningNotify mockEth (sessionNotify StratumProtocolEth.ETHPROXY) (some (sampleJob (2 ^ 254)))
        = some { sessionNotify StratumProtocolEth.ETHPROXY with
            localJobs_ := []
            out := (sessionNotify StratumProtocolEth.ETHPROXY).out ++ [SessionOut.sendData
              (ascii "\x7b\"id\":" ++ ascii "0" ++ ascii ",\"jsonrpc\":\"2.0\",\"result\":[\"0x"
                ++ sampleHeader64 ++ ascii "\",\"0x" ++ sampleSeed66.drop 2 ++ ascii "\",\"0x"
                ++ (digitsOf 16 64 (2 ^ 254)).drop 6
                ++ ascii "\",\"" ++ digitsOf 16 6 (sessionNotify StratumProtocolEth.ETHPROXY).extraNonce1_
                ++ ascii "\"],\"height\":" ++ fmtLu (sampleEthJob (2 ^ 254)).height_
                ++ ascii "\x7d\n")] } :=
  (sendMiningNotify_ethproxy_result mockEth (sessionNotify StratumProtocolEth.ETHPROXY)
    (sampleJob (2 ^ 254)) (sampleEthJob (2 ^ 254)) sampleHeader64 (sampleSeed66.drop 2)
    (digitsOf 16 64 (2 ^ 254)) rfl rfl rfl (Or.inr rfl) (Or.inr (by decide)) (by decide)
    (by decide) (by decide) (by decide) (by decide) (by decide) (by decide) (by decide)).1

set_option maxRecDepth 100000 in
/-- The payload of the ETHPROXY notify at concrete inputs: `extraNonce1_` is
5162741, which is `4ec6f5`; with `extraNonce1_` 10 the nonce is `00000a`. -/
theorem ethproxy_result_examples :
    (sendMiningNotify mockEth (sessionNotify StratumProtocolEth.ETHPROXY)
        (some (sampleJob (2 ^ 254)))).map (fun s => s.out)
      = some [SessionOut.sendData (ascii "\x7b\"id\":0,\"jsonrpc\":\"2.0\",\"result\":[\"0x599fffbc07777d4b6455c0e7ca479c9edbceef6c3fec956fecaaf4f2c727a492\",\"0x1261dfe17d0bf58cb2861ae84734488b1463d282b7ee88ccfa18b7a92a7b77f7\",\"0x0000000000000000000000000000000000000000000000000000000000\",\"4ec6f5\"],\"height\":6000000\x7d\n")]
      ∧ (sendMiningNotify mockEth
          { StratumSessionEth.init 10 with state_ := State.AUTHENTICATED }
          (some (sampleJob (2 ^ 254)))).map (fun s => s.out)
        = some [SessionOut.sendData (ascii "\x7b\"id\":0,\"jsonrpc\":\"2.0\",\"result\":[\"0x599fffbc07777d4b6455c0e7ca479c9edbceef6c3fec956fecaaf4f2c727a492\",\"0x1261dfe17d0bf58cb2861ae84734488b1463d282b7ee88ccfa18b7a92a7b77f7\",\"0x0000000000000000000000000000000000000000000000000000000000\",\"00000a\"],\"height\":6000000\x7d\n")]
      ∧ fmt06x 16777215 = ascii "ffffff" ∧ fmt06x 16777216 = ascii "1000000" := by
  decide

end BtcPool
